import Mathlib

/-!
Levenberg–Marquardt fitting driver of `wt_fittingwidget.cpp`.

A shallow embedding of the fitting core of `FittingWidget`
(`src/wt_fittingwidget.cpp`) together with theorems about it.

Modelling conventions

* `double` is modelled by the ordered field `ℚ` (exact arithmetic) in the driver.
  Where a property depends on the rounding of the double operations (the damping
  factor and the damped diagonal), the operations are modelled a second time with
  an explicit rounding function: `roundDouble` for IEEE 754 binary64 (round to
  nearest, ties to even), `id` for exact arithmetic.  The
  transcendental functions `log`, `log10`, `pow(10, ·)` of `<cmath>`, the forward
  model `ModelManager::calculateTheoreticalCurve` and Eigen's `ldlt().solve` are
  external to the file that is embedded; they are fields of `Env`.
* `QVector<double>` is `List ℚ`, `QVector<QVector<double>>` is `List (List ℚ)`,
  `QMap<QString,double>` is an association list with unique keys kept in
  insertion order (the driver only looks keys up, it never iterates a map).
* The driver dereferences `m_modelManager` unconditionally, so the embedding
  describes a widget whose model manager has been set.
* Everything the driver does to the outside world (calls of the model
  manager, of the residual and Jacobian builders, emitted signals, the queued
  `onFitFinished` invocation) is recorded, in program order, in a trace of
  `Event`s.  Fields called *ghost* are bookkeeping that the C++ code does not
  store; they never influence control flow.
-/

namespace WTFit

/-! ## Data model -/

/-- The struct `FitParameter` of `fittingparameterchart.h`. -/
structure FitParameter where
  name : String
  displayName : String
  value : ℚ
  isFit : Bool
  min : ℚ
  max : ℚ
  isVisible : Bool
  deriving DecidableEq, Repr, Inhabited

/-- The enumeration `ModelManager::ModelType` as far as the widget names it. -/
inductive ModelType where
  | Model_1 | Model_2 | Model_3 | Model_4 | Model_5 | Model_6
  deriving DecidableEq, Repr, Inhabited

/-- A `QVector<double>`. -/
abbrev Vec := List ℚ

/-- A `QVector<QVector<double>>`, stored by rows. -/
abbrev Mat := List (List ℚ)

/-- A `QMap<QString,double>`. -/
abbrev PMap := List (String × ℚ)

/-- The tuple `ModelCurveData` (time, pressure, derivative). -/
structure ModelCurveData where
  t : Vec
  p : Vec
  dp : Vec
  deriving DecidableEq, Repr, Inhabited

/-- The node lookup behind every read of a `QMap`: the value stored under `k`, if any. -/
def PMap.find : PMap → String → Option ℚ
  | [], _ => none
  | (k', v') :: rest, k => if k' = k then some v' else PMap.find rest k

/-- The call `QMap::contains`. -/
def PMap.contains (m : PMap) (k : String) : Bool :=
  (m.find k).isSome

/-- The call `QMap::value`, also `operator[]` read on a key that is present:
the stored value, or a default-constructed `0.0`. -/
def PMap.value (m : PMap) (k : String) : ℚ :=
  (m.find k).getD 0

/-- The calls `QMap::insert` and `map[k] = v`: replaces the value of an existing key, adds
the key otherwise. -/
def PMap.insert : PMap → String → ℚ → PMap
  | [], k, v => [(k, v)]
  | (k', v') :: rest, k, v =>
    if k' = k then (k, v) :: rest else (k', v') :: PMap.insert rest k v

/-- Read access `M[i][j]`. -/
def mget (M : Mat) (i j : Nat) : ℚ := (M.getD i []).getD j 0

/-- Write access `M[i][j] = v`. -/
def mset (M : Mat) (i j : Nat) (v : ℚ) : Mat := M.set i ((M.getD i []).set j v)

/-- The template `qMin` of QtGlobal: `(a < b) ? a : b`. -/
def qMin (a b : ℚ) : ℚ := if a < b then a else b

/-- The template `qMax` of QtGlobal: `(a < b) ? b : a`. -/
def qMax (a b : ℚ) : ℚ := if a < b then b else a

/-- What the fitting code uses but does not define: the observed data held by the widget,
the forward model of the model manager (which depends on its precision mode), the `<cmath>`
functions and the LDLT solve of Eigen. -/
structure Env where
  m_obsTime : Vec
  m_obsDeltaP : Vec
  m_obsDerivative : Vec
  /-- The call `m_modelManager->calculateTheoreticalCurve(type, params, t)` under the
  precision mode given first; the two-argument call passes an empty `t`. -/
  calculateTheoreticalCurve : Bool → ModelType → PMap → Vec → ModelCurveData
  log : ℚ → ℚ
  log10 : ℚ → ℚ
  /-- The call `pow(10.0, x)`. -/
  pow10 : ℚ → ℚ
  /-- The call `matA.ldlt().solve(vecB)`. -/
  ldltSolve : Mat → Vec → Vec

/-! ## Derived parameter -/

/-- The statement repeated at lines 554, 630, 659 and in the lambda `updateDeps` of
`computeJacobian`: `if (m.contains("L") && m.contains("Lf") && m["L"] > 1e-9)
m["LfD"] = m["Lf"] / m["L"];`. -/
def updateDeps (m : PMap) : PMap :=
  if m.contains "L" && m.contains "Lf" && decide (m.value "L" > 1e-9) then
    m.insert "LfD" (m.value "Lf" / m.value "L")
  else m

/-! ## Residual builder -/

/-- One of the two loops of `calculateResiduals`: appends, for `i < count`, the weighted
log difference when both samples exceed `1e-10` and `0.0` otherwise. -/
def channelResiduals (E : Env) (obs cal : Vec) (count : Nat) (w : ℚ) : Vec :=
  (List.range count).map fun i =>
    if obs.getD i 0 > 1e-10 ∧ cal.getD i 0 > 1e-10 then
      (E.log (obs.getD i 0) - E.log (cal.getD i 0)) * w
    else 0

/-- The method `FittingWidget::calculateResiduals`; `hp` is the precision mode the model
manager is in when it is called. -/
def calculateResiduals (E : Env) (hp : Bool) (params : PMap) (modelType : ModelType)
    (weight : ℚ) : Vec :=
  if E.m_obsTime.isEmpty then []
  else
    let res := E.calculateTheoreticalCurve hp modelType params E.m_obsTime
    let pCal := res.p
    let dpCal := res.dp
    let wp := weight
    let wd := 1 - weight
    let count := Nat.min E.m_obsDeltaP.length pCal.length
    let r := channelResiduals E E.m_obsDeltaP pCal count wp
    let dCount := Nat.min (Nat.min E.m_obsDerivative.length dpCal.length) count
    r ++ channelResiduals E E.m_obsDerivative dpCal dCount wd

/-- The method `FittingWidget::calculateSumSquaredError`. -/
def calculateSumSquaredError (residuals : Vec) : ℚ :=
  residuals.foldl (fun sse v => sse + v * v) 0

/-! ## Jacobian builder -/

/-- The test `val > 1e-12 && pName != "S" && pName != "nf"` used by `computeJacobian`
and by the trial update of the driver. -/
def isLogParam (val : ℚ) (pName : String) : Bool :=
  decide (val > 1e-12) && pName != "S" && pName != "nf"

/-- The step `h` chosen by `computeJacobian` for the parameter `pName`. -/
def stepSize (params : PMap) (pName : String) : ℚ :=
  if isLogParam (params.value pName) pName then 0.01 else 1e-4

/-- The two maps `pPlus`, `pMinus` that `computeJacobian` evaluates for `pName`. -/
def perturbedMaps (E : Env) (params : PMap) (pName : String) : PMap × PMap :=
  let val := params.value pName
  let h := stepSize params pName
  let pm : PMap × PMap :=
    if isLogParam val pName then
      let valLog := E.log10 val
      (params.insert pName (E.pow10 (valLog + h)), params.insert pName (E.pow10 (valLog - h)))
    else
      (params.insert pName (val + h), params.insert pName (val - h))
  if pName == "L" || pName == "Lf" then (updateDeps pm.1, updateDeps pm.2) else pm

/-- The name `currentFitParams[fitIndices[j]].name`. -/
def fitName (currentFitParams : List FitParameter) (fitIndices : List Nat) (j : Nat) : String :=
  (currentFitParams.getD (fitIndices.getD j 0) default).name

/-- The method `FittingWidget::computeJacobian`: an `nRes × nParams` matrix of zeros whose
column `j` is filled by central differences when both perturbed residual vectors have
`nRes` entries. -/
def computeJacobian (E : Env) (hp : Bool) (params : PMap) (baseResiduals : Vec)
    (fitIndices : List Nat) (modelType : ModelType) (currentFitParams : List FitParameter)
    (weight : ℚ) : Mat :=
  let nRes := baseResiduals.length
  let nParams := fitIndices.length
  (List.range nParams).foldl
    (fun J j =>
      let pName := fitName currentFitParams fitIndices j
      let h := stepSize params pName
      let pm := perturbedMaps E params pName
      let rPlus := calculateResiduals E hp pm.1 modelType weight
      let rMinus := calculateResiduals E hp pm.2 modelType weight
      if rPlus.length = nRes ∧ rMinus.length = nRes then
        (List.range nRes).foldl
          (fun J i => mset J i j ((rPlus.getD i 0 - rMinus.getD i 0) / (2 * h))) J
      else J)
    (List.replicate nRes (List.replicate nParams 0))

/-- The parameter maps handed to `calculateResiduals` by `computeJacobian`, in call order. -/
def jacobianProbes (E : Env) (params : PMap) (fitIndices : List Nat)
    (currentFitParams : List FitParameter) : List PMap :=
  (List.range fitIndices.length).foldl
    (fun acc j =>
      let pm := perturbedMaps E params (fitName currentFitParams fitIndices j)
      acc ++ [pm.1, pm.2])
    []

/-! ## Linear solver -/

/-- The method `FittingWidget::solveLinearSystem`: copies `A`, `b` into Eigen objects of
size `n = b.size()`, solves, copies the `n` entries of the solution back. -/
def solveLinearSystem (E : Env) (A : Mat) (b : Vec) : Vec :=
  let n := b.length
  if n = 0 then []
  else
    let matA : Mat := (List.range n).map fun i => (List.range n).map fun j => mget A i j
    let vecB : Vec := (List.range n).map fun i => b.getD i 0
    let x := E.ldltSolve matA vecB
    (List.range n).map fun i => x.getD i 0

/-! ## Normal equations -/

/-- The accumulation loop of lines 581–588: `g[i] += J[k][i] * residuals[k]` and, for
`j ≤ i`, `H[i][j] += J[k][i] * J[k][j]`, starting from zeros. -/
def accumulateNormal (J : Mat) (residuals : Vec) (nParams : Nat) : Mat × Vec :=
  (List.range residuals.length).foldl
    (fun Hg k =>
      (List.range nParams).foldl
        (fun Hg i =>
          let g := Hg.2.set i (Hg.2.getD i 0 + mget J k i * residuals.getD k 0)
          let H := (List.range (i + 1)).foldl
            (fun H j => mset H i j (mget H i j + mget J k i * mget J k j)) Hg.1
          (H, g))
        Hg)
    (List.replicate nParams (List.replicate nParams 0), List.replicate nParams 0)

/-- The mirroring loop of lines 590–594: `H[i][j] = H[j][i]` for `i < j < nParams`. -/
def mirrorUpper (H : Mat) (nParams : Nat) : Mat :=
  (List.range nParams).foldl
    (fun H i =>
      (List.range (nParams - (i + 1))).foldl
        (fun H d => mset H i (i + 1 + d) (mget H (i + 1 + d) i)) H)
    H

/-- The matrix `H` and the vector `g` as the driver holds them after line 594. -/
def normalEquations (J : Mat) (residuals : Vec) (nParams : Nat) : Mat × Vec :=
  let Hg := accumulateNormal J residuals nParams
  (mirrorUpper Hg.1 nParams, Hg.2)

/-- The damped matrix `H_lm` of lines 600–603. -/
def dampedMatrix (H : Mat) (lambda : ℚ) (nParams : Nat) : Mat :=
  (List.range nParams).foldl
    (fun Hlm i => mset Hlm i i (mget Hlm i i + lambda * (1 + |mget H i i|))) H

/-- The vector `negG` of lines 605–606. -/
def negG (g : Vec) (nParams : Nat) : Vec :=
  (List.range nParams).map fun i => - g.getD i 0

/-! ## The driver -/

/-- What the driver does to its surroundings, in program order. -/
inductive Event where
  /-- The call `m_modelManager->setHighPrecision(high)`. -/
  | setHighPrecision (high : Bool)
  /-- A call of `calculateResiduals` with the given parameter map. -/
  | calculateResiduals (params : PMap)
  /-- A call of `computeJacobian` with the given parameter map. -/
  | computeJacobian (params : PMap)
  /-- A call of `solveLinearSystem`. -/
  | solveLinearSystem (A : Mat) (b : Vec)
  /-- A call of the two-argument `calculateTheoreticalCurve` with the given map. -/
  | calculateTheoreticalCurve (params : PMap)
  /-- The signal `sigProgress`. -/
  | sigProgress (value : Nat)
  /-- The signal `sigIterationUpdated(err, p, t, p_curve, d_curve)`. -/
  | sigIterationUpdated (err : ℚ) (p : PMap) (curve : ModelCurveData)
  /-- The call `QMetaObject::invokeMethod(this, "onFitFinished")`. -/
  | invokeOnFitFinished
  deriving DecidableEq, Repr

/-- The local variables of `runLevenbergMarquardtOptimization` that live across
iterations, the trace, and ghost bookkeeping. -/
structure LMState where
  lambda : ℚ
  currentSSE : ℚ
  currentParamMap : PMap
  residuals : Vec
  trace : List Event
  /-- Ghost: the committed pairs (SSE, parameter map), the initial one first, one more
  after each accepted step. -/
  commits : List (ℚ × PMap)
  /-- Ghost: number of accepted trials so far. -/
  nAccepted : Nat
  /-- Ghost: number of rejected trials so far. -/
  nRejected : Nat
  /-- Ghost: number of outer iterations that passed the two checks at the top. -/
  nIterations : Nat
  deriving Repr

/-- The indices `fitIndices` of lines 532–535. -/
def fitIndicesOf (params : List FitParameter) : List Nat :=
  (List.range params.length).filter fun i => (params.getD i default).isFit

/-- The map built at lines 550–551 by inserting every parameter in list order. -/
def buildParamMap (params : List FitParameter) : PMap :=
  params.foldl (fun m p => m.insert p.name p.value) []

/-- The value given to fit parameter number `i` in a trial (lines 614–625), before it is
stored in the trial map. -/
def trialValue (E : Env) (params : List FitParameter) (fitIndices : List Nat)
    (currentParamMap : PMap) (delta : Vec) (i : Nat) : ℚ :=
  let p := params.getD (fitIndices.getD i 0) default
  let oldVal := currentParamMap.value p.name
  let newVal :=
    if isLogParam oldVal p.name then E.pow10 (E.log10 oldVal + delta.getD i 0)
    else oldVal + delta.getD i 0
  qMax p.min (qMin newVal p.max)

/-- The trial map of lines 610–631: the committed map with every fit parameter moved by
its entry of `delta` and clamped, then the derived parameter recomputed. -/
def buildTrialMap (E : Env) (params : List FitParameter) (fitIndices : List Nat)
    (currentParamMap : PMap) (delta : Vec) : PMap :=
  updateDeps <|
    (List.range fitIndices.length).foldl
      (fun trialMap i =>
        trialMap.insert (fitName params fitIndices i)
          (trialValue E params fitIndices currentParamMap delta i))
      currentParamMap

/-- One pass through the body of the trial loop (lines 599–650).  The Boolean tells
whether the step was accepted (the `break` of line 646). -/
def trialStep (E : Env) (modelType : ModelType) (params : List FitParameter)
    (fitIndices : List Nat) (weight : ℚ) (H : Mat) (g : Vec) (nRes : Nat)
    (st : LMState) : LMState × Bool :=
  let nParams := fitIndices.length
  let H_lm := dampedMatrix H st.lambda nParams
  let ng := negG g nParams
  let delta := solveLinearSystem E H_lm ng
  let trialMap := buildTrialMap E params fitIndices st.currentParamMap delta
  let newRes := calculateResiduals E false trialMap modelType weight
  let newSSE := calculateSumSquaredError newRes
  let calls := [Event.solveLinearSystem H_lm ng, Event.calculateResiduals trialMap]
  if newSSE < st.currentSSE then
    let iterCurve := E.calculateTheoreticalCurve false modelType trialMap []
    ({ lambda := st.lambda / 10
       currentSSE := newSSE
       currentParamMap := trialMap
       residuals := newRes
       trace := st.trace ++ calls ++
         [Event.calculateTheoreticalCurve trialMap,
          Event.sigIterationUpdated (newSSE / nRes) trialMap iterCurve]
       commits := st.commits ++ [(newSSE, trialMap)]
       nAccepted := st.nAccepted + 1
       nRejected := st.nRejected
       nIterations := st.nIterations }, true)
  else
    ({ st with
       lambda := st.lambda * 10
       trace := st.trace ++ calls
       nRejected := st.nRejected + 1 }, false)

/-- The trial loop `for (tryIter = 0; tryIter < 5; ++tryIter)`; the first argument is the
number of passes left.  The Boolean is `stepAccepted`. -/
def trialLoop (E : Env) (modelType : ModelType) (params : List FitParameter)
    (fitIndices : List Nat) (weight : ℚ) (H : Mat) (g : Vec) (nRes : Nat) :
    Nat → LMState → LMState × Bool
  | 0, st => (st, false)
  | n + 1, st =>
    let r := trialStep E modelType params fitIndices weight H g nRes st
    if r.2 then r else trialLoop E modelType params fitIndices weight H g nRes n r.1

/-- The convergence test of line 569. -/
def converged (st : LMState) : Bool :=
  !st.residuals.isEmpty && decide (st.currentSSE / st.residuals.length < 3e-3)

/-- The start of an outer iteration after the two checks (lines 571–574): the progress
signal and the Jacobian build, whose residual evaluations are recorded in call order. -/
def beginIteration (E : Env) (params : List FitParameter) (fitIndices : List Nat)
    (maxIter iter : Nat) (st : LMState) : LMState :=
  { st with
    trace := st.trace ++
      [Event.sigProgress (iter * 100 / maxIter), Event.computeJacobian st.currentParamMap] ++
      (jacobianProbes E st.currentParamMap fitIndices params).map Event.calculateResiduals
    nIterations := st.nIterations + 1 }

/-- The part of an outer iteration after the two checks (lines 571–651): progress signal,
Jacobian, normal equations, trial loop. -/
def iterationBody (E : Env) (modelType : ModelType) (params : List FitParameter)
    (fitIndices : List Nat) (weight : ℚ) (maxIter iter : Nat) (st : LMState) :
    LMState × Bool :=
  let J := computeJacobian E false st.currentParamMap st.residuals fitIndices modelType
    params weight
  let nRes := st.residuals.length
  let Hg := normalEquations J st.residuals fitIndices.length
  trialLoop E modelType params fitIndices weight Hg.1 Hg.2 nRes 5
    (beginIteration E params fitIndices maxIter iter st)

/-- The outer loop `for (iter = 0; iter < maxIter; ++iter)` of lines 566–653.  The first
argument is `maxIter - iter`, the number of iterations left; `stop iter` is the value of
`m_stopRequested` read at the top of iteration `iter`. -/
def outerLoop (E : Env) (stop : Nat → Bool) (modelType : ModelType)
    (params : List FitParameter) (fitIndices : List Nat) (weight : ℚ) (maxIter : Nat) :
    Nat → Nat → LMState → LMState
  | 0, _, st => st
  | n + 1, iter, st =>
    if stop iter then st
    else if converged st then st
    else
      let r := iterationBody E modelType params fitIndices weight maxIter iter st
      if !r.2 && decide (r.1.lambda > 1e10) then r.1
      else outerLoop E stop modelType params fitIndices weight maxIter n (iter + 1) r.1

/-- The state after line 563: damping `0.01`, the map of the parameter list with the
derived parameter, the initial residuals and SSE, the initial signal emitted. -/
def initialState (E : Env) (modelType : ModelType) (params : List FitParameter)
    (weight : ℚ) : LMState :=
  let currentParamMap := updateDeps (buildParamMap params)
  let residuals := calculateResiduals E false currentParamMap modelType weight
  let currentSSE := calculateSumSquaredError residuals
  let curve := E.calculateTheoreticalCurve false modelType currentParamMap []
  { lambda := 0.01
    currentSSE := currentSSE
    currentParamMap := currentParamMap
    residuals := residuals
    trace :=
      [Event.setHighPrecision false, Event.calculateResiduals currentParamMap,
       Event.calculateTheoreticalCurve currentParamMap,
       Event.sigIterationUpdated (currentSSE / residuals.length) currentParamMap curve]
    commits := [(currentSSE, currentParamMap)]
    nAccepted := 0
    nRejected := 0
    nIterations := 0 }

/-- The lines 655–665 that follow the outer loop. -/
def finish (E : Env) (modelType : ModelType) (st : LMState) : LMState :=
  let currentParamMap := updateDeps st.currentParamMap
  let finalCurve := E.calculateTheoreticalCurve true modelType currentParamMap []
  { st with
    currentParamMap := currentParamMap
    trace := st.trace ++
      [Event.setHighPrecision true, Event.calculateTheoreticalCurve currentParamMap,
       Event.sigIterationUpdated (st.currentSSE / st.residuals.length) currentParamMap
         finalCurve,
       Event.invokeOnFitFinished] }

/-- The outcome of one call of the driver: its trace, and the fit state it ended with when
one was created. -/
structure RunResult where
  trace : List Event
  state : Option LMState
  deriving Repr

/-- The state in which the outer loop of a run with a fit-enabled parameter ends. -/
def loopResult (E : Env) (stop : Nat → Bool) (modelType : ModelType)
    (params : List FitParameter) (weight : ℚ) : LMState :=
  outerLoop E stop modelType params (fitIndicesOf params) weight 50 50 0
    (initialState E modelType params weight)

/-- The method `FittingWidget::runLevenbergMarquardtOptimization`. -/
def runLevenbergMarquardtOptimization (E : Env) (stop : Nat → Bool) (modelType : ModelType)
    (params : List FitParameter) (weight : ℚ) : RunResult :=
  let fitIndices := fitIndicesOf params
  let nParams := fitIndices.length
  if nParams = 0 then
    { trace := [Event.setHighPrecision false, Event.invokeOnFitFinished], state := none }
  else
    let st := finish E modelType (loopResult E stop modelType params weight)
    { trace := st.trace, state := some st }

/-- The method `FittingWidget::runOptimizationTask`. -/
def runOptimizationTask (E : Env) (stop : Nat → Bool) (modelType : ModelType)
    (fitParams : List FitParameter) (weight : ℚ) : RunResult :=
  runLevenbergMarquardtOptimization E stop modelType fitParams weight

/-! ## The asynchronous wrapper -/

/-- The members of `FittingWidget` that `on_btnRunFit_clicked` reads or writes.  The field
`params` is what `m_paramChart->getParameters()` returns after `updateParamsFromTable()`,
the field `sliderWeight` is `ui->sliderWeight->value()`. -/
structure Widget where
  m_isFitting : Bool
  m_stopRequested : Bool
  btnRunFitEnabled : Bool
  env : Env
  m_currentModelType : ModelType
  params : List FitParameter
  sliderWeight : Int

/-- The arguments captured by the lambda handed to `QtConcurrent::run`. -/
structure FitTask where
  modelType : ModelType
  paramsCopy : List FitParameter
  w : ℚ
  deriving DecidableEq, Repr

/-- What one click on the run button leaves behind: the widget, whether the warning box was
shown, and the task handed to the worker thread, if any. -/
structure ClickOutcome where
  widget : Widget
  warningShown : Bool
  started : Option FitTask

/-- The slot `FittingWidget::on_btnRunFit_clicked` (lines 343–364). -/
def on_btnRunFit_clicked (wd : Widget) : ClickOutcome :=
  if wd.m_isFitting then { widget := wd, warningShown := false, started := none }
  else if wd.env.m_obsTime.isEmpty then
    { widget := wd, warningShown := true, started := none }
  else
    { widget := { wd with m_isFitting := true, m_stopRequested := false,
                          btnRunFitEnabled := false }
      warningShown := false
      started := some { modelType := wd.m_currentModelType, paramsCopy := wd.params,
                        w := (wd.sliderWeight : ℚ) / 100 } }

/-- The slot `FittingWidget::on_btnStop_clicked`. -/
def on_btnStop_clicked (wd : Widget) : Widget :=
  { wd with m_stopRequested := true }

/-- The slot `FittingWidget::onFitFinished`, up to the message box it shows. -/
def onFitFinished (wd : Widget) : Widget :=
  { wd with m_isFitting := false, btnRunFitEnabled := true }

/-- A slot invocation that reaches the thread of the widget. -/
inductive SlotCall where
  /-- The slot `FittingWidget::onIterationUpdate`. -/
  | onIterationUpdate (err : ℚ) (p : PMap) (curve : ModelCurveData)
  /-- The slot `QProgressBar::setValue`. -/
  | setValue (value : Nat)
  /-- The slot `FittingWidget::onFitFinished`. -/
  | onFitFinished
  deriving DecidableEq, Repr

/-- The slot invocations caused by the events of the worker, in the order they are
posted: the two connections of lines 82–83 and the `invokeMethod` calls of the driver. -/
def queuedCalls : List Event → List SlotCall
  | [] => []
  | Event.sigIterationUpdated err p curve :: rest =>
    SlotCall.onIterationUpdate err p curve :: queuedCalls rest
  | Event.sigProgress v :: rest => SlotCall.setValue v :: queuedCalls rest
  | Event.invokeOnFitFinished :: rest => SlotCall.onFitFinished :: queuedCalls rest
  | _ :: rest => queuedCalls rest

/-- The slot invocations of one run started by `on_btnRunFit_clicked`: those queued by the
task while it runs, then the one made by the connection of line 84 when the future
watched by `m_watcher` finishes, that is when `runOptimizationTask` has returned. -/
def fitRunCalls (wd : Widget) (stop : Nat → Bool) : List SlotCall :=
  match (on_btnRunFit_clicked wd).started with
  | none => []
  | some task =>
    queuedCalls (runOptimizationTask wd.env stop task.modelType task.paramsCopy task.w).trace
      ++ [SlotCall.onFitFinished]

/-! ## Vocabulary of the properties -/

/-- Shape of a matrix: `r` rows of `c` entries each. -/
def HasDims (M : Mat) (r c : Nat) : Prop :=
  M.length = r ∧ ∀ i, i < r → (M.getD i []).length = c

/-- The bound condition `min ≤ value ≤ max` of parameter `p` in the map `m`. -/
def inBounds (p : FitParameter) (m : PMap) : Prop :=
  p.min ≤ m.value p.name ∧ m.value p.name ≤ p.max

instance (p : FitParameter) (m : PMap) : Decidable (inBounds p m) := by
  unfold inBounds
  exact inferInstance

/-- The derived entry of `m` agrees with its definition whenever both inputs are present
and the denominator exceeds its epsilon. -/
def derivedConsistent (m : PMap) : Prop :=
  m.contains "L" = true → m.contains "Lf" = true → m.value "L" > 1e-9 →
    m.find "LfD" = some (m.value "Lf" / m.value "L")

instance (m : PMap) : Decidable (derivedConsistent m) := by
  unfold derivedConsistent
  exact inferInstance

/-- The committed SSE values of a run: the initial one, then one per accepted step. -/
def committedSSE (r : RunResult) : List ℚ :=
  match r.state with
  | some st => st.commits.map Prod.fst
  | none => []

/-- The parameter maps committed by the accepted steps of a run, in order. -/
def acceptedMaps (r : RunResult) : List PMap :=
  match r.state with
  | some st => (st.commits.drop 1).map Prod.snd
  | none => []

/-- The parameter maps handed to `calculateResiduals` during a run, in call order. -/
def residualCalls : List Event → List PMap
  | [] => []
  | Event.calculateResiduals m :: rest => m :: residualCalls rest
  | _ :: rest => residualCalls rest

/-- The parameter maps carried by the `sigIterationUpdated` signals of a trace. -/
def emittedMaps : List Event → List PMap
  | [] => []
  | Event.sigIterationUpdated _ m _ :: rest => m :: emittedMaps rest
  | _ :: rest => emittedMaps rest

/-- The state the outer loop is in when the check at the top of iteration `k` is made, or
the state in which the loop ended if it ended before. -/
def stateAtIteration (E : Env) (stop : Nat → Bool) (modelType : ModelType)
    (params : List FitParameter) (weight : ℚ) (k : Nat) : LMState :=
  outerLoop E stop modelType params (fitIndicesOf params) weight 50 k 0
    (initialState E modelType params weight)

/-- The committed SSE values decrease strictly and end with the current SSE. -/
def SseInv (st : LMState) : Prop :=
  List.Chain' (fun a b => b < a) (st.commits.map Prod.fst) ∧
    (st.commits.map Prod.fst).getLast? = some st.currentSSE

/-- Every committed map but the first is a trial map. -/
def TrialInv (E : Env) (params : List FitParameter) (fit : List Nat) (st : LMState) : Prop :=
  st.commits ≠ [] ∧
    ∀ c ∈ st.commits.drop 1, ∃ cur delta, c.2 = buildTrialMap E params fit cur delta

/-- The SSE of the trial point tried from the state `st` with the normal equations `H`, `g`. -/
def trialSSE (E : Env) (mt : ModelType) (params : List FitParameter) (fit : List Nat)
    (w : ℚ) (H : Mat) (g : Vec) (st : LMState) : ℚ :=
  calculateSumSquaredError
    (calculateResiduals E false
      (buildTrialMap E params fit st.currentParamMap
        (solveLinearSystem E (dampedMatrix H st.lambda fit.length) (negG g fit.length)))
      mt w)

/-- The committed map is a fixed point of the derived-parameter update, the trace holds no
`onFitFinished` invocation, and the last commit is the current SSE and map. -/
def LoopInv (st : LMState) : Prop :=
  updateDeps st.currentParamMap = st.currentParamMap ∧
    Event.invokeOnFitFinished ∉ st.trace ∧
    st.commits.getLast? = some (st.currentSSE, st.currentParamMap)

/-- The current SSE never exceeds `s0` and lies below it exactly when a step was accepted. -/
def AccInv (s0 : ℚ) (st : LMState) : Prop :=
  st.currentSSE ≤ s0 ∧ (st.currentSSE < s0 ↔ 0 < st.nAccepted)

/-- Every map handed to the residual builder so far, every emitted map, the current map and
every committed map has a consistent derived entry. -/
def DcInv (st : LMState) : Prop :=
  (∀ m ∈ residualCalls st.trace, derivedConsistent m) ∧
    (∀ m ∈ emittedMaps st.trace, derivedConsistent m) ∧
    derivedConsistent st.currentParamMap ∧
    ∀ c ∈ st.commits, derivedConsistent c.2

/-! ## Concrete scenarios

The `<cmath>` functions and the Eigen solve are replaced by rational stand-ins: the first
Padé approximant of the logarithm, a first-order pair `log10`/`pow10` that are inverse to
each other, and an exact solve for diagonal (in particular one-by-one) systems. -/

/-- Stand-in for `log`: `2 (x - 1) / (x + 1)`. -/
def exLog (x : ℚ) : ℚ := 2 * (x - 1) / (x + 1)

/-- Stand-in for `log10`. -/
def exLog10 (x : ℚ) : ℚ := (x - 1) * 10 / 23

/-- Stand-in for `pow(10, ·)`, inverse to `exLog10`. -/
def exPow10 (y : ℚ) : ℚ := 1 + 23 * y / 10

/-- Stand-in for the LDLT solve, exact on diagonal systems. -/
def exSolve (A : Mat) (b : Vec) : Vec :=
  (List.range b.length).map fun i => b.getD i 0 / mget A i i

/-- A visible parameter without display name. -/
def exParam (name : String) (value : ℚ) (isFit : Bool) (lo hi : ℚ) : FitParameter :=
  { name := name, displayName := "", value := value, isFit := isFit, min := lo, max := hi,
    isVisible := true }

/-- Never request a stop. -/
def neverStop : Nat → Bool := fun _ => false

/-- Request a stop from the check of iteration `1` on. -/
def stopAfterOne : Nat → Bool := fun i => decide (1 ≤ i)

/-- The scenario of the specification (`time = [1,2,4,8]`, `primary = [0.5,0.8,1.1,1.4]`)
with a forward model whose curves do not depend on the parameters: pressure `1` at every
requested time, no derivative samples. -/
def envFlat : Env :=
  { m_obsTime := [1, 2, 4, 8]
    m_obsDeltaP := [0.5, 0.8, 1.1, 1.4]
    m_obsDerivative := []
    calculateTheoreticalCurve := fun _ _ _ t => { t := t, p := t.map fun _ => 1, dp := [] }
    log := exLog
    log10 := exLog10
    pow10 := exPow10
    ldltSolve := exSolve }

/-- The single fit parameter `k` of the scenario, bounds `[0.01, 100]`, started at `1`. -/
def paramsK : List FitParameter := [exParam "k" 1 true 0.01 100]

/-- Two observed samples of pressure `2`; the model predicts the value of `S` at every
requested time. -/
def envSkin : Env :=
  { m_obsTime := [1, 2]
    m_obsDeltaP := [2, 2]
    m_obsDerivative := []
    calculateTheoreticalCurve := fun _ _ m t =>
      { t := t, p := t.map fun _ => m.value "S", dp := [] }
    log := exLog
    log10 := exLog10
    pow10 := exPow10
    ldltSolve := exSolve }

/-- Fit parameter `S` in `[0, 10]` started at `1`, and a fixed parameter `h` whose value
`500` lies outside its bounds `[0, 100]`. -/
def paramsSkin : List FitParameter :=
  [exParam "S" 1 true 0 10, exParam "h" 500 false 0 100]

/-- A parameter list without fit-enabled parameter. -/
def paramsFixed : List FitParameter :=
  [exParam "k" 1 false 0.01 100, exParam "S" 0 false 0 100]

/-- A parameter list in which the derived parameter `LfD` is the one fit-enabled
parameter; `L = 100`, `Lf = 0`. -/
def paramsDerived : List FitParameter :=
  [exParam "L" 100 false 1 10000, exParam "Lf" 0 false 0 100, exParam "LfD" 0 true 0 100]

/-- A widget holding the data of `envFlat`, idle, with no fit-enabled parameter. -/
def widgetIdle : Widget :=
  { m_isFitting := false
    m_stopRequested := false
    btnRunFitEnabled := true
    env := envFlat
    m_currentModelType := ModelType.Model_1
    params := paramsFixed
    sliderWeight := 50 }

/-! ## Vocabulary of the termination and error properties -/

/-- The number of `computeJacobian` calls recorded in a trace. -/
def jacobianBuilds : List Event → Nat
  | [] => 0
  | Event.computeJacobian _ :: rest => jacobianBuilds rest + 1
  | _ :: rest => jacobianBuilds rest

/-- The number of passes through the body of the trial loop recorded in a trace; each pass
calls `solveLinearSystem` once and evaluates the residuals of its trial map once. -/
def trialSteps : List Event → Nat
  | [] => 0
  | Event.solveLinearSystem _ _ :: rest => trialSteps rest + 1
  | _ :: rest => trialSteps rest

/-- The number of `sigProgress` signals recorded in a trace, one per outer iteration that
passed the two checks at its top. -/
def progressSignals : List Event → Nat
  | [] => 0
  | Event.sigProgress _ :: rest => progressSignals rest + 1
  | _ :: rest => progressSignals rest

/-- The parameter map carried by the last `sigIterationUpdated` signal of a trace. -/
def reportedMap (trace : List Event) : Option PMap :=
  (emittedMaps trace).getLast?

/-- The parameter map of the last commit of a run. -/
def lastCommitted (r : RunResult) : Option PMap :=
  match r.state with
  | some st => st.commits.getLast?.map Prod.snd
  | none => none

/-- The precision mode a trace leaves the model manager in: the argument of its last
`setHighPrecision` call, if it has one. -/
def finalPrecision : List Event → Option Bool
  | [] => none
  | Event.setHighPrecision high :: rest =>
    match finalPrecision rest with
    | some later => some later
    | none => some high
  | _ :: rest => finalPrecision rest

/-- The SSE of the trial point reached from the committed map `m` under the damping factor
`lambda` with the normal equations `H`, `g`. -/
def trialSSEAt (E : Env) (mt : ModelType) (params : List FitParameter) (fit : List Nat)
    (w : ℚ) (H : Mat) (g : Vec) (m : PMap) (lambda : ℚ) : ℚ :=
  calculateSumSquaredError
    (calculateResiduals E false
      (buildTrialMap E params fit m
        (solveLinearSystem E (dampedMatrix H lambda fit.length) (negG g fit.length)))
      mt w)

/-- The normal equations of the first outer iteration of a run. -/
def initialNormal (E : Env) (mt : ModelType) (params : List FitParameter) (w : ℚ) :
    Mat × Vec :=
  normalEquations
    (computeJacobian E false (initialState E mt params w).currentParamMap
      (initialState E mt params w).residuals (fitIndicesOf params) mt params w)
    (initialState E mt params w).residuals (fitIndicesOf params).length

/-- The trace counters agree with the ghost counters of the state, and the last emitted map
is the current map. -/
def CountInv (st : LMState) : Prop :=
  jacobianBuilds st.trace = st.nIterations ∧
    trialSteps st.trace = st.nAccepted + st.nRejected ∧
    progressSignals st.trace = st.nIterations ∧
    (emittedMaps st.trace).getLast? = some st.currentParamMap

/-- The single fit parameter `S` started at the value `2` that `envSkin` observes. -/
def paramsExact : List FitParameter := [exParam "S" 2 true 0 10]

/-- The residual evaluations recorded so far are the initial one, two per fit parameter and
outer iteration, and one per trial. -/
def ResInv (fit : List Nat) (st : LMState) : Prop :=
  (residualCalls st.trace).length =
    1 + 2 * fit.length * st.nIterations + (st.nAccepted + st.nRejected)

/-- The committed part of the state `st` is still that of `st0`: same parameter map, SSE,
residual vector, commit log and number of accepted trials. -/
def Kept (st0 st : LMState) : Prop :=
  st.currentParamMap = st0.currentParamMap ∧ st.currentSSE = st0.currentSSE ∧
    st.residuals = st0.residuals ∧ st.commits = st0.commits ∧ st.nAccepted = st0.nAccepted

/-- What holds of the committed part of every state a run reaches: the derived-parameter
update leaves the map as it is, the SSE is the SSE of the residuals of the map, and every
fit parameter is a key of the map. -/
def CommitInv (E : Env) (mt : ModelType) (params : List FitParameter) (fit : List Nat)
    (w : ℚ) (st : LMState) : Prop :=
  updateDeps st.currentParamMap = st.currentParamMap ∧
    st.currentSSE =
      calculateSumSquaredError (calculateResiduals E false st.currentParamMap mt w) ∧
    ∀ i, i < fit.length → st.currentParamMap.contains (fitName params fit i) = true

/-- Two observed samples of pressure `2`; the model predicts `1 + (S - 1)^2` at every
requested time, so that its central difference at `S = 1` vanishes. -/
def envBowl : Env :=
  { m_obsTime := [1, 2]
    m_obsDeltaP := [2, 2]
    m_obsDerivative := []
    calculateTheoreticalCurve := fun _ _ m t =>
      { t := t, p := t.map fun _ => 1 + (m.value "S" - 1) * (m.value "S" - 1), dp := [] }
    log := exLog
    log10 := exLog10
    pow10 := exPow10
    ldltSolve := exSolve }

/-- Fit parameter `S` started at `1`, below its bounds `[2, 10]`. -/
def paramsBelow : List FitParameter := [exParam "S" 1 true 2 10]

/-- A widget like `widgetIdle` on which a fit is already running. -/
def widgetBusy : Widget := { widgetIdle with m_isFitting := true, btnRunFitEnabled := false }

/-- An environment without observed data. -/
def envEmpty : Env :=
  { envFlat with m_obsTime := [], m_obsDeltaP := [], m_obsDerivative := [] }

/-- An idle widget on which no observed data has been loaded. -/
def widgetNoData : Widget := { widgetIdle with env := envEmpty }

/-- Two observed samples of pressure `2`, but the model returns a single predicted sample,
the value of `S`, and no derivative. -/
def envShort : Env :=
  { m_obsTime := [1, 2]
    m_obsDeltaP := [2, 2]
    m_obsDerivative := []
    calculateTheoreticalCurve := fun _ _ m _ => { t := [1], p := [m.value "S"], dp := [] }
    log := exLog
    log10 := exLog10
    pow10 := exPow10
    ldltSolve := exSolve }

/-- The number of primary-channel entries that `calculateResiduals` produces for the
predicted curves `cal`. -/
def primaryCount (E : Env) (cal : ModelCurveData) : Nat :=
  Nat.min E.m_obsDeltaP.length cal.p.length

/-- The number of derivative-channel entries that `calculateResiduals` produces for the
predicted curves `cal`. -/
def derivativeCount (E : Env) (cal : ModelCurveData) : Nat :=
  Nat.min (Nat.min E.m_obsDerivative.length cal.dp.length) (primaryCount E cal)

/-- The residual of one sample as the specification words it: the weighted difference of the
logarithms when both the observed and the predicted value exceed `1e-10`, zero otherwise. -/
def residualEntry (E : Env) (observed predicted weight : ℚ) : ℚ :=
  if observed > 1e-10 ∧ predicted > 1e-10 then (E.log observed - E.log predicted) * weight
  else 0

/-- The number of valid samples among the first `count` of a channel: the indices at which
the observed and the predicted value both exceed `1e-10`. -/
def validCount (obs cal : Vec) (count : Nat) : Nat :=
  ((List.range count).filter fun i =>
    decide (obs.getD i 0 > 1e-10 ∧ cal.getD i 0 > 1e-10)).length

/-- Observed pressures `0` and `2` at two times; the model predicts pressure `1` at every
requested time. -/
def envGap : Env :=
  { envFlat with m_obsTime := [1, 2], m_obsDeltaP := [0, 2] }

/-- The entry `H[i][j]` of the normal matrix as the specification defines it: the sum over
the `nRes` residual rows of `J[k][i] * J[k][j]`. -/
def referenceH (J : Mat) (nRes i j : Nat) : ℚ :=
  ((List.range nRes).map fun k => mget J k i * mget J k j).sum

/-- The sum over the first `m` residual rows of `J[k][i] * r[k]`. -/
def gradientSum (J : Mat) (r : Vec) (m i : Nat) : ℚ :=
  ((List.range m).map fun k => mget J k i * r.getD k 0).sum

/-- The entry `g[i]` of the gradient as the specification defines it: the sum over all
residual rows of `J[k][i] * r[k]`. -/
def referenceG (J : Mat) (r : Vec) (i : Nat) : ℚ :=
  gradientSum J r r.length i

/-! ## Vocabulary of the numerical properties -/

/-- The update of the committed value `old` by the step entry `d` as the specification words
it: in log space when `old > 1e-12` and the name is neither `S` nor `nf`, linear otherwise. -/
def steppedValue (E : Env) (pName : String) (old d : ℚ) : ℚ :=
  if old > 1e-12 ∧ pName ≠ "S" ∧ pName ≠ "nf" then E.pow10 (E.log10 old + d) else old + d

/-- The clamp of the specification: `max(lo, min(x, hi))`. -/
def clampSpec (lo hi x : ℚ) : ℚ := max lo (min x hi)

/-- The residual vector `rPlus` that `computeJacobian` evaluates for column `j`. -/
def probePlus (E : Env) (hp : Bool) (params : PMap) (fit : List Nat) (mt : ModelType)
    (cfp : List FitParameter) (w : ℚ) (j : Nat) : Vec :=
  calculateResiduals E hp (perturbedMaps E params (fitName cfp fit j)).1 mt w

/-- The residual vector `rMinus` that `computeJacobian` evaluates for column `j`. -/
def probeMinus (E : Env) (hp : Bool) (params : PMap) (fit : List Nat) (mt : ModelType)
    (cfp : List FitParameter) (w : ℚ) (j : Nat) : Vec :=
  calculateResiduals E hp (perturbedMaps E params (fitName cfp fit j)).2 mt w

/-- The central difference `(rPlus[i] - rMinus[i]) / (2h)` of the specification for row `i`
and column `j`. -/
def centralDifference (E : Env) (hp : Bool) (params : PMap) (fit : List Nat)
    (mt : ModelType) (cfp : List FitParameter) (w : ℚ) (i j : Nat) : ℚ :=
  ((probePlus E hp params fit mt cfp w j).getD i 0 -
      (probeMinus E hp params fit mt cfp w j).getD i 0) /
    (2 * stepSize params (fitName cfp fit j))

/-- The states on which the body of the trial loop is run, in order, when the loop starts in
`st` with `n` passes left: the loop goes on after a rejected trial only. -/
def trialInputs (E : Env) (mt : ModelType) (params : List FitParameter) (fit : List Nat)
    (w : ℚ) (H : Mat) (g : Vec) (nRes : Nat) : Nat → LMState → List LMState
  | 0, _ => []
  | n + 1, st =>
    st :: (if (trialStep E mt params fit w H g nRes st).2 then []
           else trialInputs E mt params fit w H g nRes n
             (trialStep E mt params fit w H g nRes st).1)


/-- The sum over the first `count` samples of a channel of the squared difference of the
logarithms of the observed and the predicted value, a sample counting only when both values
exceed `1e-10`: the unweighted squared log residuals of the channel. -/
def squaredLogSum (E : Env) (obs cal : Vec) (count : Nat) : ℚ :=
  ((List.range count).map fun i =>
    if obs.getD i 0 > 1e-10 ∧ cal.getD i 0 > 1e-10 then
      (E.log (obs.getD i 0) - E.log (cal.getD i 0)) ^ 2
    else 0).sum

/-- Two observed samples of pressure `2` and of derivative `1`; the model predicts the value
of `S` as pressure and half of it as derivative at every requested time. -/
def envTwoChannel : Env :=
  { m_obsTime := [1, 2]
    m_obsDeltaP := [2, 2]
    m_obsDerivative := [1, 1]
    calculateTheoreticalCurve := fun _ _ m t =>
      { t := t, p := t.map fun _ => m.value "S", dp := t.map fun _ => m.value "S" / 2 }
    log := exLog
    log10 := exLog10
    pow10 := exPow10
    ldltSolve := exSolve }

/-- The Jacobian that the outer iteration starting in the state `st` builds (line 574). -/
def iterationJacobian (E : Env) (mt : ModelType) (params : List FitParameter) (w : ℚ)
    (st : LMState) : Mat :=
  computeJacobian E false st.currentParamMap st.residuals (fitIndicesOf params) mt params w

/-- The step `delta` that a trial of the outer iteration starting in `st` obtains from the
solver under the damping factor `lambda` (lines 577–609). -/
def iterationDelta (E : Env) (mt : ModelType) (params : List FitParameter) (w : ℚ)
    (st : LMState) (lambda : ℚ) : Vec :=
  solveLinearSystem E
    (dampedMatrix
      (normalEquations (iterationJacobian E mt params w st) st.residuals
        (fitIndicesOf params).length).1 lambda (fitIndicesOf params).length)
    (negG
      (normalEquations (iterationJacobian E mt params w st) st.residuals
        (fitIndicesOf params).length).2 (fitIndicesOf params).length)

/-- The entry of the parameter `p` has its input value in every map emitted so far and in
the committed map. -/
def FrameInv (p : FitParameter) (st : LMState) : Prop :=
  (∀ m ∈ emittedMaps st.trace, m.find p.name = some p.value) ∧
    st.currentParamMap.find p.name = some p.value

/-! ## Tab names of the fitting page -/

/-- The inner loop of `FittingPage::generateUniqueName`: whether some tab of the tab widget
bears the text `name`. -/
def tabExists : List String → String → Bool
  | [], _ => false
  | t :: rest, name => if t = name then true else tabExists rest name

/-- The `while (exists)` loop of `FittingPage::generateUniqueName`, entered with the current
`counter` and `name`; the first argument bounds the number of passes.  The function `arg`
stands for the Qt expression `QString("%1 %2").arg(baseName).arg(counter)`. -/
def generateUniqueNameLoop (arg : String → Nat → String) (titles : List String)
    (baseName : String) : Nat → Nat → String → Option String
  | 0, _, _ => none
  | fuel + 1, counter, name =>
    if tabExists titles name then
      generateUniqueNameLoop arg titles baseName fuel (counter + 1)
        (arg baseName (counter + 1))
    else some name

/-- The method `FittingPage::generateUniqueName` on a tab widget whose tab texts are
`titles`: the loop starts with `name = baseName` and `counter = 1`. -/
def generateUniqueName (arg : String → Nat → String) (titles : List String)
    (baseName : String) (fuel : Nat) : Option String :=
  generateUniqueNameLoop arg titles baseName fuel 1 baseName

/-- What `QString("%1 %2").arg(baseName).arg(counter)` yields for a base name without place
marker: the base name, a blank, the decimal digits of the counter. -/
def numberedName (baseName : String) (counter : Nat) : String :=
  baseName ++ " " ++ toString counter

/-- The value of a decimal digit character. -/
def digitValue (c : Char) : Nat := c.toNat - 48

/-- Reads a list of decimal digits, most significant first, onto the number `acc`. -/
def readDigits (acc : Nat) (l : List Char) : Nat :=
  l.foldl (fun a c => a * 10 + digitValue c) acc

/-! ## Vocabulary of the damped system -/

/-- The quadratic form `xᵀ A x` of the leading `n × n` block of `A`. -/
def quadraticForm (A : Mat) (n : Nat) (x : Fin n → ℚ) : ℚ :=
  ∑ i : Fin n, ∑ j : Fin n, x i * mget A i j * x j

/-- The vector `x` solves the system `A x = b` of size `n`. -/
def SolvesSystem (A : Mat) (b : Vec) (n : Nat) (x : Fin n → ℚ) : Prop :=
  ∀ i : Fin n, ∑ j : Fin n, mget A i j * x j = b.getD i 0

/-- The matrix `H_lm` that a trial hands to the solver for the Jacobian `J`, the residuals
`r`, `n` fit parameters and the damping factor `lambda` (lines 577–603). -/
def dampedNormal (J : Mat) (r : Vec) (n : Nat) (lambda : ℚ) : Mat :=
  dampedMatrix (normalEquations J r n).1 lambda n

/-- The systems handed to `solveLinearSystem` in a trace, in call order. -/
def solvedSystems : List Event → List (Mat × Vec)
  | [] => []
  | Event.solveLinearSystem A b :: rest => (A, b) :: solvedSystems rest
  | _ :: rest => solvedSystems rest

/-- The sum of `|A[i][j]|` over the columns `j < n` other than `i`. -/
def offDiagonalSum (A : Mat) (n i : Nat) : ℚ :=
  (((List.range n).filter fun j => decide (j ≠ i)).map fun j => |mget A i j|).sum

/-- Row diagonal dominance of the leading `n × n` block of `A`:
`|A[i][i]| ≥ Σ_{j ≠ i} |A[i][j]|` for every row `i`. -/
def RowDominant (A : Mat) (n : Nat) : Prop :=
  ∀ i, i < n → offDiagonalSum A n i ≤ |mget A i i|

instance (A : Mat) (n : Nat) : Decidable (RowDominant A n) := by
  unfold RowDominant
  exact inferInstance

/-- One observed sample of pressure `2`; the model predicts `1 + a + 10 b` at every
requested time, so that the residual is ten times as sensitive to `b` as to `a`. -/
def envTwoSlopes : Env :=
  { m_obsTime := [1]
    m_obsDeltaP := [2]
    m_obsDerivative := []
    calculateTheoreticalCurve := fun _ _ m t =>
      { t := t, p := t.map fun _ => 1 + m.value "a" + 10 * m.value "b", dp := [] }
    log := exLog
    log10 := exLog10
    pow10 := exPow10
    ldltSolve := exSolve }

/-- The two fit parameters `a` and `b` of `envTwoSlopes`, started at `0` in `[-1, 1]`. -/
def paramsTwoSlopes : List FitParameter :=
  [exParam "a" 0 true (-1) 1, exParam "b" 0 true (-1) 1]

/-! ## Double rounding of the damping arithmetic

The driver holds `lambda` and the matrices in variables of type `double`.  The definitions
below model the rounding of one IEEE 754 binary64 operation: the exact result is replaced by
the nearest number with 53 significant bits, ties to the even significand.  The exponent
range is not bounded; `lambdaTrajectory_range` shows that the damping factor of a run stays
far inside the range of the normal doubles. -/

/-- The binary exponent of a positive rational `x`, found by doubling or halving at most
`fuel` times: the integer `e` with `2^e ≤ x < 2^(e+1)`. -/
def binaryExponentAux : Nat → ℚ → ℤ
  | 0, _ => 0
  | fuel + 1, x =>
    if x < 1 then binaryExponentAux fuel (x * 2) - 1
    else if 2 ≤ x then binaryExponentAux fuel (x / 2) + 1
    else 0

/-- The binary exponent of a positive rational. -/
def binaryExponent (x : ℚ) : ℤ := binaryExponentAux (x.num.natAbs + x.den) x

/-- Rounding to the nearest integer, ties to the even one. -/
def roundHalfEven (m : ℚ) : ℤ :=
  if m - ⌊m⌋ < 1 / 2 then ⌊m⌋
  else if 1 / 2 < m - ⌊m⌋ then ⌊m⌋ + 1
  else if ⌊m⌋ % 2 = 0 then ⌊m⌋ else ⌊m⌋ + 1

/-- The double nearest to a positive rational `x`: its significand `x / 2^(e-52)` rounded
to an integer, ties to even. -/
def roundPositive (x : ℚ) : ℚ :=
  (roundHalfEven (x / 2 ^ (binaryExponent x - 52)) : ℚ) * 2 ^ (binaryExponent x - 52)

/-- The double nearest to the rational `x` (round to nearest, ties to even). -/
def roundDouble (x : ℚ) : ℚ :=
  if 0 < x then roundPositive x else if x < 0 then -roundPositive (-x) else 0

/-- One update of the damping factor (lines 644 and 648): `lambda /= 10.0` after an accepted
trial, `lambda *= 10.0` after a rejected one, the result rounded by `fl`. -/
def lambdaStep (fl : ℚ → ℚ) (lambda : ℚ) (accepted : Bool) : ℚ :=
  if accepted then fl (lambda / 10) else fl (lambda * 10)

/-- The damping factor after the trials whose outcomes are listed in program order (`true`
for an accepted trial), starting from the literal `0.01` of line 544 as `fl` stores it.
With `fl = roundDouble` this is the value of the variable `lambda`, with `fl = id` the
value in exact arithmetic. -/
def lambdaTrajectory (fl : ℚ → ℚ) (outcomes : List Bool) : ℚ :=
  outcomes.foldl (lambdaStep fl) (fl 0.01)

/-- The damped matrix `H_lm` of lines 600–603 when every operation of
`H_lm[i][i] += lambda * (1.0 + std::abs(H[i][i]))` is rounded by `fl`: the sum
`1.0 + |H[i][i]|`, its product with `lambda`, and the sum with `H_lm[i][i]`. -/
def dampedMatrixRounded (fl : ℚ → ℚ) (H : Mat) (lambda : ℚ) (nParams : Nat) : Mat :=
  (List.range nParams).foldl
    (fun Hlm i => mset Hlm i i (fl (mget Hlm i i + fl (lambda * fl (1 + |mget H i i|))))) H

instance (A : Mat) (b : Vec) (n : Nat) (x : Fin n → ℚ) : Decidable (SolvesSystem A b n x) := by
  unfold SolvesSystem
  exact inferInstance

/-! ## Lemmas on parameter maps -/

theorem PMap.find_insert_self (m : PMap) (k : String) (v : ℚ) :
    (m.insert k v).find k = some v := by
  induction m with
  | nil => simp [PMap.insert, PMap.find]
  | cons e rest ih =>
    obtain ⟨k', v'⟩ := e
    by_cases h : k' = k <;> simp [PMap.insert, PMap.find, h, ih]

theorem PMap.find_insert_ne (m : PMap) (k k2 : String) (v : ℚ) (hne : k2 ≠ k) :
    (m.insert k v).find k2 = m.find k2 := by
  induction m with
  | nil => simp [PMap.insert, PMap.find, Ne.symm hne]
  | cons e rest ih =>
    obtain ⟨k', v'⟩ := e
    by_cases h : k' = k
    · subst h
      simp [PMap.insert, PMap.find, Ne.symm hne]
    · by_cases h3 : k' = k2
      · subst h3
        simp [PMap.insert, PMap.find, h]
      · simp [PMap.insert, PMap.find, h, h3, ih]

theorem PMap.value_insert_self (m : PMap) (k : String) (v : ℚ) :
    (m.insert k v).value k = v := by
  simp [PMap.value, PMap.find_insert_self]

theorem PMap.value_insert_ne (m : PMap) (k k2 : String) (v : ℚ) (hne : k2 ≠ k) :
    (m.insert k v).value k2 = m.value k2 := by
  simp [PMap.value, PMap.find_insert_ne _ _ _ _ hne]

theorem PMap.contains_insert_self (m : PMap) (k : String) (v : ℚ) :
    (m.insert k v).contains k = true := by
  simp [PMap.contains, PMap.find_insert_self]

theorem PMap.contains_insert_ne (m : PMap) (k k2 : String) (v : ℚ) (hne : k2 ≠ k) :
    (m.insert k v).contains k2 = m.contains k2 := by
  simp [PMap.contains, PMap.find_insert_ne _ _ _ _ hne]

theorem PMap.insert_same (m : PMap) (k : String) (v : ℚ)
    (hv : m.find k = some v) : m.insert k v = m := by
  induction m with
  | nil => simp [PMap.find] at hv
  | cons e rest ih =>
    obtain ⟨k', v'⟩ := e
    by_cases h : k' = k
    · subst h
      simp [PMap.find] at hv
      simp [PMap.insert, hv]
    · simp [PMap.find, h] at hv
      simp [PMap.insert, h, ih hv]

theorem updateDeps_idem (m : PMap) : updateDeps (updateDeps m) = updateDeps m := by
  unfold updateDeps
  by_cases hc : (m.contains "L" && m.contains "Lf" && decide (m.value "L" > 1e-9)) = true
  · rw [if_pos hc]
    have hL : (m.insert "LfD" (m.value "Lf" / m.value "L")).value "L" = m.value "L" :=
      PMap.value_insert_ne _ _ _ _ (by decide)
    have hLf : (m.insert "LfD" (m.value "Lf" / m.value "L")).value "Lf" = m.value "Lf" :=
      PMap.value_insert_ne _ _ _ _ (by decide)
    have hc2 : ((m.insert "LfD" (m.value "Lf" / m.value "L")).contains "L" &&
        (m.insert "LfD" (m.value "Lf" / m.value "L")).contains "Lf" &&
        decide ((m.insert "LfD" (m.value "Lf" / m.value "L")).value "L" > 1e-9)) = true := by
      rw [hL, PMap.contains_insert_ne _ _ _ _ (by decide),
        PMap.contains_insert_ne _ _ _ _ (by decide)]
      exact hc
    rw [if_pos hc2, hL, hLf]
    exact PMap.insert_same _ _ _ (PMap.find_insert_self _ _ _)
  · rw [if_neg hc, if_neg hc]

theorem value_updateDeps_ne (m : PMap) (k : String) (hk : k ≠ "LfD") :
    (updateDeps m).value k = m.value k := by
  unfold updateDeps
  split
  · exact PMap.value_insert_ne _ _ _ _ hk
  · rfl

/-! ## Lemmas on loops and matrices -/

theorem foldl_range_succ {α : Type} (f : α → Nat → α) (a : α) (n : Nat) :
    (List.range (n + 1)).foldl f a = f ((List.range n).foldl f a) n := by
  rw [List.range_succ, List.foldl_append]
  rfl

theorem foldl_range_invariant {α : Type} (f : α → Nat → α) (P : Nat → α → Prop) (a : α)
    (n : Nat) (h0 : P 0 a) (hstep : ∀ i s, i < n → P i s → P (i + 1) (f s i)) :
    P n ((List.range n).foldl f a) := by
  induction n with
  | zero => simpa using h0
  | succ m ih =>
    rw [foldl_range_succ]
    apply hstep m _ (Nat.lt_succ_self m)
    exact ih (fun i s hi hp => hstep i s (Nat.lt_succ_of_lt hi) hp)

theorem getD_set {α : Type} (l : List α) (j b : Nat) (v d : α) :
    (l.set j v).getD b d = if b = j ∧ j < l.length then v else l.getD b d := by
  simp only [List.getD_eq_getElem?_getD, List.getElem?_set]
  by_cases hbj : j = b
  · subst hbj
    by_cases hj : j < l.length
    · simp [hj]
    · simp [hj, List.getElem?_eq_none (Nat.le_of_not_lt hj)]
  · have : ¬ b = j := fun h => hbj h.symm
    simp [hbj, this]

theorem mget_mset (M : Mat) (i j a b : Nat) (v : ℚ) :
    mget (mset M i j v) a b =
      if a = i ∧ b = j ∧ i < M.length ∧ j < (M.getD i []).length then v else mget M a b := by
  unfold mget mset
  rw [getD_set]
  by_cases hai : a = i
  · subst hai
    by_cases hlen : a < M.length
    · simp only [hlen, and_self, if_true, true_and, getD_set]
    · simp [hlen]
  · simp [hai]

theorem HasDims.mset {M : Mat} {r c : Nat} (h : HasDims M r c) (i j : Nat) (v : ℚ) :
    HasDims (mset M i j v) r c := by
  constructor
  · simp [WTFit.mset, h.1]
  · intro a ha
    unfold WTFit.mset
    rw [getD_set]
    split
    · rename_i hh
      rw [List.length_set, ← hh.1]; exact h.2 a ha
    · exact h.2 a ha

theorem mget_mset_dims {M : Mat} {r c : Nat} (h : HasDims M r c) (i j a b : Nat) (v : ℚ) :
    mget (mset M i j v) a b = if a = i ∧ b = j ∧ i < r ∧ j < c then v else mget M a b := by
  rw [mget_mset]
  by_cases hi : i < r
  · rw [h.2 i hi, h.1]
  · simp [h.1, hi]

theorem hasDims_replicate (r c : Nat) : HasDims (List.replicate r (List.replicate c (0 : ℚ))) r c := by
  constructor
  · simp
  · intro i hi
    simp [List.getD_eq_getElem?_getD, List.getElem?_replicate, hi]

theorem mget_of_not_lt {M : Mat} {r c : Nat} (h : HasDims M r c) (a b : Nat)
    (hab : ¬ (a < r ∧ b < c)) : mget M a b = 0 := by
  unfold mget
  by_cases ha : a < r
  · have hb : ¬ b < c := fun hb => hab ⟨ha, hb⟩
    have := h.2 a ha
    rw [List.getD_eq_getElem?_getD (M.getD a []), List.getElem?_eq_none (by omega)]
    rfl
  · rw [List.getD_eq_getElem?_getD M, List.getElem?_eq_none (by rw [h.1]; omega)]
    rfl

theorem hasDims_accumulateNormal (J : Mat) (residuals : Vec) (n : Nat) :
    HasDims (accumulateNormal J residuals n).1 n n := by
  unfold accumulateNormal
  apply foldl_range_invariant _ (fun _ (s : Mat × Vec) => HasDims s.1 n n)
  · exact hasDims_replicate n n
  · intro k s _ hs
    apply foldl_range_invariant _ (fun _ (s : Mat × Vec) => HasDims s.1 n n)
    · exact hs
    · intro i s2 _ hs2
      apply foldl_range_invariant _ (fun _ (H : Mat) => HasDims H n n)
      · exact hs2
      · intro j H _ hH
        exact hH.mset _ _ _

/-- The inner mirroring loop for row `i`. -/
theorem mirror_row {M : Mat} {n : Nat} (hM : HasDims M n n) (i m : Nat) :
    HasDims ((List.range m).foldl
        (fun H d => mset H i (i + 1 + d) (mget H (i + 1 + d) i)) M) n n ∧
    ∀ a b, mget ((List.range m).foldl
        (fun H d => mset H i (i + 1 + d) (mget H (i + 1 + d) i)) M) a b =
      if a = i ∧ i < b ∧ b < i + 1 + m ∧ i < n ∧ b < n then mget M b i else mget M a b := by
  apply foldl_range_invariant _ (fun m (H : Mat) => HasDims H n n ∧ ∀ a b, mget H a b =
      if a = i ∧ i < b ∧ b < i + 1 + m ∧ i < n ∧ b < n then mget M b i else mget M a b)
  · refine ⟨hM, fun a b => ?_⟩
    rw [if_neg]
    omega
  · intro d H _ hH
    refine ⟨hH.1.mset _ _ _, fun a b => ?_⟩
    rw [mget_mset_dims hH.1, hH.2 (i + 1 + d) i, hH.2 a b]
    have h1 : ¬ (i + 1 + d = i ∧ i < i ∧ i < i + 1 + d ∧ i < n ∧ i < n) := by omega
    rw [if_neg h1]
    by_cases hc : a = i ∧ b = i + 1 + d ∧ i < n ∧ i + 1 + d < n
    · rw [if_pos hc]
      obtain ⟨ha, hb, hi, hd⟩ := hc
      subst ha hb
      rw [if_pos (by omega)]
    · rw [if_neg hc]
      by_cases hc2 : a = i ∧ i < b ∧ b < i + 1 + d ∧ i < n ∧ b < n
      · rw [if_pos hc2, if_pos (by omega)]
      · rw [if_neg hc2, if_neg (by omega)]

theorem mirrorUpper_spec {M : Mat} {n : Nat} (hM : HasDims M n n) :
    HasDims (mirrorUpper M n) n n ∧
    ∀ a b, mget (mirrorUpper M n) a b =
      if a < b ∧ b < n then mget M b a else mget M a b := by
  unfold mirrorUpper
  have key := foldl_range_invariant
    (fun (H : Mat) i => (List.range (n - (i + 1))).foldl
        (fun H d => mset H i (i + 1 + d) (mget H (i + 1 + d) i)) H)
    (fun m (H : Mat) => HasDims H n n ∧ ∀ a b, mget H a b =
      if a < m ∧ a < b ∧ b < n then mget M b a else mget M a b) M n
    ⟨hM, fun a b => by rw [if_neg]; omega⟩
    (by
      intro i H hi hH
      have hrow := mirror_row hH.1 i (n - (i + 1))
      refine ⟨hrow.1, fun a b => ?_⟩
      rw [hrow.2 a b, hH.2 b i, hH.2 a b]
      by_cases hc : a = i ∧ i < b ∧ b < i + 1 + (n - (i + 1)) ∧ i < n ∧ b < n
      · rw [if_pos hc, if_neg (by omega), if_pos (by omega), hc.1]
      · rw [if_neg hc]
        by_cases hc2 : a < i ∧ a < b ∧ b < n
        · rw [if_pos hc2, if_pos (by omega)]
        · rw [if_neg hc2, if_neg (by omega)])
  refine ⟨key.1, fun a b => ?_⟩
  rw [key.2 a b]
  by_cases hc : a < b ∧ b < n
  · rw [if_pos hc, if_pos (by omega)]
  · rw [if_neg hc, if_neg (by omega)]

theorem H_symm (J : Mat) (residuals : Vec) (nParams i j : Nat) :
    mget (normalEquations J residuals nParams).1 i j =
      mget (normalEquations J residuals nParams).1 j i := by
  unfold normalEquations
  have hd := hasDims_accumulateNormal J residuals nParams
  have hs := (mirrorUpper_spec hd).2
  simp only
  rw [hs i j, hs j i]
  by_cases h1 : i < j ∧ j < nParams
  · rw [if_pos h1, if_neg (by omega)]
  · rw [if_neg h1]
    by_cases h2 : j < i ∧ i < nParams
    · rw [if_pos h2]
    · rw [if_neg h2]
      by_cases h3 : i = j
      · rw [h3]
      · rw [mget_of_not_lt hd i j (by omega), mget_of_not_lt hd j i (by omega)]

/-! ## Lemmas on the parameter list -/

theorem map_getD_range {α : Type} (l : List α) (d : α) :
    (List.range l.length).map (fun i => l.getD i d) = l := by
  apply List.ext_getElem
  · simp
  · intro i h1 h2
    simp at h1
    simp [List.getD_eq_getElem?_getD, List.getElem?_eq_getElem h1]

/-- The parameters selected by `fitIndices` are the fit-enabled ones, in list order. -/
theorem fitIndicesOf_map (params : List FitParameter) :
    (fitIndicesOf params).map (fun i => params.getD i default) =
      params.filter (fun p => p.isFit) := by
  unfold fitIndicesOf
  have h := map_getD_range params default
  conv_rhs => rw [← h]
  rw [List.filter_map]
  rfl

theorem fitIndicesOf_eq_nil_iff (params : List FitParameter) :
    fitIndicesOf params = [] ↔ ∀ p ∈ params, p.isFit = false := by
  have h := fitIndicesOf_map params
  constructor
  · intro h0 p hp
    rw [h0] at h
    simp only [List.map_nil] at h
    have := List.filter_eq_nil_iff.mp h.symm p hp
    simpa using this
  · intro hall
    have h2 : params.filter (fun p => p.isFit) = [] := by
      rw [List.filter_eq_nil_iff]
      intro p hp
      simp [hall p hp]
    rw [h2] at h
    exact List.map_eq_nil_iff.mp h

theorem fitName_eq (params : List FitParameter) (j : Nat)
    (hj : j < (fitIndicesOf params).length) :
    (((params.filter (fun p => p.isFit)).map (fun p => p.name)).getD j "") =
      fitName params (fitIndicesOf params) j := by
  rw [← fitIndicesOf_map, List.map_map]
  unfold fitName
  simp [List.getD_eq_getElem?_getD, List.getElem?_eq_getElem hj]

theorem fitParam_eq (params : List FitParameter) (j : Nat)
    (hj : j < (fitIndicesOf params).length) :
    ((params.filter (fun p => p.isFit)).getD j default) =
      params.getD ((fitIndicesOf params).getD j 0) default := by
  rw [← fitIndicesOf_map]
  simp [List.getD_eq_getElem?_getD, List.getElem?_eq_getElem hj]

theorem clamp_mem (lo hi x : ℚ) (h : lo ≤ hi) :
    lo ≤ qMax lo (qMin x hi) ∧ qMax lo (qMin x hi) ≤ hi := by
  unfold qMax qMin
  split <;> split <;> constructor <;> linarith

/-- The value stored for fit parameter `i` by the update loop of the trial map, when no
later fit parameter bears the same name. -/
theorem trialFold_value (E : Env) (params : List FitParameter) (fit : List Nat)
    (cur : PMap) (delta : Vec) (i : Nat) (hi : i < fit.length)
    (hlater : ∀ j, i < j → j < fit.length → fitName params fit j ≠ fitName params fit i) :
    ((List.range fit.length).foldl
        (fun trialMap i =>
          trialMap.insert (fitName params fit i) (trialValue E params fit cur delta i))
        cur).value (fitName params fit i) = trialValue E params fit cur delta i := by
  have key := foldl_range_invariant
    (fun (trialMap : PMap) i =>
          trialMap.insert (fitName params fit i) (trialValue E params fit cur delta i))
    (fun m (tm : PMap) => i < m →
      tm.value (fitName params fit i) = trialValue E params fit cur delta i)
    cur fit.length (by intro h; omega)
    (by
      intro j s hj hs hij
      by_cases hji : j = i
      · subst hji
        exact PMap.value_insert_self _ _ _
      · have hlt : i < j := by omega
        rw [PMap.value_insert_ne _ _ _ _ (hlater j hlt hj).symm]
        exact hs hlt)
  exact key hi

/-! ## Loop invariants -/

/-- A property kept by every pass of the trial loop body holds when the trial loop ends. -/
theorem trialLoop_invariant (E : Env) (mt : ModelType) (params : List FitParameter)
    (fit : List Nat) (w : ℚ) (Inv : LMState → Prop) (H : Mat) (g : Vec) (nRes : Nat)
    (hstep : ∀ st, Inv st → Inv (trialStep E mt params fit w H g nRes st).1) :
    ∀ (n : Nat) (st : LMState), Inv st → Inv (trialLoop E mt params fit w H g nRes n st).1 := by
  intro n
  induction n with
  | zero => intro st h; exact h
  | succ n ih =>
    intro st h
    rw [trialLoop]
    split
    · exact hstep st h
    · exact ih _ (hstep st h)

/-- A property kept by the start of an iteration and by every pass of the trial loop body
holds when the outer loop ends. -/
theorem outerLoop_invariant (E : Env) (stop : Nat → Bool) (mt : ModelType)
    (params : List FitParameter) (fit : List Nat) (w : ℚ) (maxIter : Nat)
    (Inv : LMState → Prop)
    (hbegin : ∀ iter st, Inv st → Inv (beginIteration E params fit maxIter iter st))
    (hstep : ∀ H g nRes st, Inv st → Inv (trialStep E mt params fit w H g nRes st).1) :
    ∀ (n iter : Nat) (st : LMState), Inv st →
      Inv (outerLoop E stop mt params fit w maxIter n iter st) := by
  intro n
  induction n with
  | zero => intro iter st h; exact h
  | succ n ih =>
    intro iter st h
    rw [outerLoop]
    split
    · exact h
    · split
      · exact h
      · have hb : Inv (iterationBody E mt params fit w maxIter iter st).1 := by
          unfold iterationBody
          exact trialLoop_invariant E mt params fit w Inv _ _ _ (hstep _ _ _) 5 _
            (hbegin iter st h)
        simp only
        split
        · exact hb
        · exact ih _ _ hb

/-- The state of a run that has a fit-enabled parameter. -/
theorem run_state (E : Env) (stop : Nat → Bool) (mt : ModelType)
    (params : List FitParameter) (w : ℚ) (st : LMState)
    (h : (runLevenbergMarquardtOptimization E stop mt params w).state = some st) :
    st = finish E mt (loopResult E stop mt params w) ∧ fitIndicesOf params ≠ [] := by
  unfold runLevenbergMarquardtOptimization at h
  simp only at h
  split at h
  · simp at h
  · rename_i hn
    simp only [Option.some.injEq] at h
    exact ⟨h.symm, fun h0 => hn (by simp [h0])⟩

theorem finish_commits (E : Env) (mt : ModelType) (st : LMState) :
    (finish E mt st).commits = st.commits := rfl

theorem beginIteration_commits (E : Env) (params : List FitParameter) (fit : List Nat)
    (maxIter iter : Nat) (st : LMState) :
    (beginIteration E params fit maxIter iter st).commits = st.commits := rfl

theorem sseInv_trialStep (E : Env) (mt : ModelType) (params : List FitParameter)
    (fit : List Nat) (w : ℚ) (H : Mat) (g : Vec) (nRes : Nat) (st : LMState)
    (h : SseInv st) : SseInv (trialStep E mt params fit w H g nRes st).1 := by
  unfold trialStep
  simp only
  split
  · rename_i hlt
    refine ⟨?_, ?_⟩
    · simp only [List.map_append, List.map_cons, List.map_nil]
      rw [List.chain'_append]
      refine ⟨h.1, List.chain'_singleton _, ?_⟩
      intro x hx y hy
      rw [h.2] at hx
      simp only [Option.mem_def, Option.some.injEq] at hx
      simp only [List.head?_cons, Option.mem_def, Option.some.injEq] at hy
      subst hx hy
      exact hlt
    · simp
  · exact h

theorem sseInv_loopResult (E : Env) (stop : Nat → Bool) (mt : ModelType)
    (params : List FitParameter) (w : ℚ) : SseInv (loopResult E stop mt params w) := by
  unfold loopResult
  apply outerLoop_invariant E stop mt params _ w 50 SseInv
  · intro iter st h; exact h
  · intro H g nRes st h; exact sseInv_trialStep E mt params _ w H g nRes st h
  · exact ⟨by simp [initialState], by simp [initialState]⟩

theorem committedSSE_run (E : Env) (stop : Nat → Bool) (mt : ModelType)
    (params : List FitParameter) (w : ℚ) :
    committedSSE (runLevenbergMarquardtOptimization E stop mt params w) = [] ∨
    committedSSE (runLevenbergMarquardtOptimization E stop mt params w) =
      (loopResult E stop mt params w).commits.map Prod.fst := by
  by_cases h : (fitIndicesOf params).length = 0
  · left; simp [runLevenbergMarquardtOptimization, committedSSE, h]
  · right; simp [runLevenbergMarquardtOptimization, committedSSE, h, finish]


/-! ## Bounds of the fit parameters -/

theorem trialInv_trialStep (E : Env) (mt : ModelType) (params : List FitParameter)
    (fit : List Nat) (w : ℚ) (H : Mat) (g : Vec) (nRes : Nat) (st : LMState)
    (h : TrialInv E params fit st) :
    TrialInv E params fit (trialStep E mt params fit w H g nRes st).1 := by
  unfold trialStep
  simp only
  split
  · refine ⟨by simp, ?_⟩
    intro c hc
    have hlen : 1 ≤ st.commits.length := by
      rcases hl : st.commits with _ | ⟨a, l⟩
      · exact absurd hl h.1
      · simp
    simp only at hc
    rw [List.drop_append_of_le_length hlen, List.mem_append] at hc
    rcases hc with hc | hc
    · exact h.2 c hc
    · simp only [List.mem_singleton] at hc
      subst hc
      exact ⟨_, _, rfl⟩
  · exact h

theorem trialInv_loopResult (E : Env) (stop : Nat → Bool) (mt : ModelType)
    (params : List FitParameter) (w : ℚ) :
    TrialInv E params (fitIndicesOf params) (loopResult E stop mt params w) := by
  unfold loopResult
  apply outerLoop_invariant E stop mt params _ w 50 (TrialInv E params (fitIndicesOf params))
  · intro iter st h; exact h
  · intro H g nRes st h; exact trialInv_trialStep E mt params _ w H g nRes st h
  · exact ⟨by simp [initialState], by simp [initialState]⟩

theorem acceptedMaps_run (E : Env) (stop : Nat → Bool) (mt : ModelType)
    (params : List FitParameter) (w : ℚ) (m : PMap)
    (hm : m ∈ acceptedMaps (runLevenbergMarquardtOptimization E stop mt params w)) :
    ∃ cur delta, m = buildTrialMap E params (fitIndicesOf params) cur delta := by
  by_cases h : (fitIndicesOf params).length = 0
  · simp [runLevenbergMarquardtOptimization, acceptedMaps, h] at hm
  · simp only [runLevenbergMarquardtOptimization, acceptedMaps, h, if_false, finish_commits,
      List.mem_map] at hm
    obtain ⟨c, hc, rfl⟩ := hm
    exact (trialInv_loopResult E stop mt params w).2 c hc

/-- A fit-enabled parameter whose name no other fit-enabled parameter bears has a position
in `fitIndices` that is the only one with its name. -/
theorem fit_position (params : List FitParameter)
    (hnodup : ((params.filter (fun p => p.isFit)).map (fun p => p.name)).Nodup)
    (p : FitParameter) (hp : p ∈ params) (hfit : p.isFit = true) :
    ∃ i, i < (fitIndicesOf params).length ∧
      params.getD ((fitIndicesOf params).getD i 0) default = p ∧
      ∀ j, j < (fitIndicesOf params).length → j ≠ i →
        fitName params (fitIndicesOf params) j ≠ fitName params (fitIndicesOf params) i := by
  have hlen : (fitIndicesOf params).length = (params.filter (fun p => p.isFit)).length := by
    rw [← fitIndicesOf_map]; simp
  have hmem : p ∈ params.filter (fun p => p.isFit) := by
    rw [List.mem_filter]; exact ⟨hp, by simpa using hfit⟩
  obtain ⟨i, hi, hpi⟩ := List.getElem_of_mem hmem
  have hi2 : i < (fitIndicesOf params).length := by rw [hlen]; exact hi
  refine ⟨i, hi2, ?_, ?_⟩
  · rw [← fitParam_eq params i hi2]
    simp [List.getD_eq_getElem?_getD, List.getElem?_eq_getElem hi, hpi]
  · intro j hj hji heq
    rw [← fitName_eq params j hj, ← fitName_eq params i hi2] at heq
    have hj2 : j < ((params.filter (fun p => p.isFit)).map (fun p => p.name)).length := by
      simp; rw [← hlen]; exact hj
    have hi3 : i < ((params.filter (fun p => p.isFit)).map (fun p => p.name)).length := by
      simp; exact hi
    simp only [List.getD_eq_getElem?_getD, List.getElem?_eq_getElem hj2,
      List.getElem?_eq_getElem hi3, Option.getD_some] at heq
    exact hji ((List.Nodup.getElem_inj_iff hnodup).mp heq)

theorem buildTrialMap_inBounds (E : Env) (params : List FitParameter)
    (hnodup : ((params.filter (fun p => p.isFit)).map (fun p => p.name)).Nodup)
    (cur : PMap) (delta : Vec) (p : FitParameter) (hp : p ∈ params) (hfit : p.isFit = true)
    (hname : p.name ≠ "LfD") (hle : p.min ≤ p.max) :
    inBounds p (buildTrialMap E params (fitIndicesOf params) cur delta) := by
  obtain ⟨i, hi, hpi, huniq⟩ := fit_position params hnodup p hp hfit
  have hn : fitName params (fitIndicesOf params) i = p.name := by
    unfold fitName; rw [hpi]
  have hval := trialFold_value E params (fitIndicesOf params) cur delta i hi
    (fun j hij hj => huniq j hj (by omega))
  have hv : (buildTrialMap E params (fitIndicesOf params) cur delta).value p.name =
      qMax p.min (qMin (if isLogParam (cur.value p.name) p.name then
          E.pow10 (E.log10 (cur.value p.name) + delta.getD i 0)
        else cur.value p.name + delta.getD i 0) p.max) := by
    unfold buildTrialMap
    rw [value_updateDeps_ne _ _ hname, ← hn, hval]
    unfold trialValue
    simp only [hpi, hn]
  unfold inBounds
  rw [hv]
  exact clamp_mem _ _ _ hle


/-! ## Termination states of the loop -/

theorem loopInv_trialStep (E : Env) (mt : ModelType) (params : List FitParameter)
    (fit : List Nat) (w : ℚ) (H : Mat) (g : Vec) (nRes : Nat) (st : LMState)
    (h : LoopInv st) : LoopInv (trialStep E mt params fit w H g nRes st).1 := by
  unfold trialStep
  simp only
  split
  · refine ⟨?_, ?_, ?_⟩
    · unfold buildTrialMap
      exact updateDeps_idem _
    · simp [h.2.1]
    · simp
  · refine ⟨h.1, ?_, h.2.2⟩
    simp [h.2.1]

theorem loopInv_beginIteration (E : Env) (params : List FitParameter) (fit : List Nat)
    (maxIter iter : Nat) (st : LMState) (h : LoopInv st) :
    LoopInv (beginIteration E params fit maxIter iter st) := by
  refine ⟨h.1, ?_, h.2.2⟩
  simp [beginIteration, h.2.1]

theorem loopInv_initialState (E : Env) (mt : ModelType) (params : List FitParameter)
    (w : ℚ) : LoopInv (initialState E mt params w) := by
  refine ⟨?_, ?_, ?_⟩
  · exact updateDeps_idem _
  · simp [initialState]
  · simp [initialState]

theorem loopInv_outerLoop (E : Env) (stop : Nat → Bool) (mt : ModelType)
    (params : List FitParameter) (w : ℚ) (n : Nat) :
    LoopInv (outerLoop E stop mt params (fitIndicesOf params) w 50 n 0
      (initialState E mt params w)) := by
  apply outerLoop_invariant E stop mt params _ w 50 LoopInv
  · intro iter st h; exact loopInv_beginIteration E params _ 50 iter st h
  · intro H g nRes st h; exact loopInv_trialStep E mt params _ w H g nRes st h
  · exact loopInv_initialState E mt params w

theorem accInv_trialStep (E : Env) (mt : ModelType) (params : List FitParameter)
    (fit : List Nat) (w : ℚ) (H : Mat) (g : Vec) (nRes : Nat) (s0 : ℚ) (st : LMState)
    (h : AccInv s0 st) : AccInv s0 (trialStep E mt params fit w H g nRes st).1 := by
  unfold trialStep
  simp only
  split
  · rename_i hlt
    have h1 := h.1
    refine ⟨by linarith, ?_⟩
    constructor
    · intro _; exact Nat.succ_pos _
    · intro _; linarith
  · exact h

theorem accInv_loopResult (E : Env) (stop : Nat → Bool) (mt : ModelType)
    (params : List FitParameter) (w : ℚ) :
    AccInv (initialState E mt params w).currentSSE (loopResult E stop mt params w) := by
  unfold loopResult
  apply outerLoop_invariant E stop mt params _ w 50
    (AccInv (initialState E mt params w).currentSSE)
  · intro iter st h; exact h
  · intro H g nRes st h; exact accInv_trialStep E mt params _ w H g nRes _ st h
  · exact ⟨le_refl _, by simp [initialState]⟩

/-- Once the stop flag is seen at the top of iteration `iter + a`, the iterations left
beyond the first `a` do nothing. -/
theorem outerLoop_stop (E : Env) (stop : Nat → Bool) (mt : ModelType)
    (params : List FitParameter) (fit : List Nat) (w : ℚ) (maxIter : Nat) (b : Nat) :
    ∀ (a iter : Nat) (st : LMState), stop (iter + a) = true →
      outerLoop E stop mt params fit w maxIter (a + b) iter st =
        outerLoop E stop mt params fit w maxIter a iter st := by
  intro a
  induction a with
  | zero =>
    intro iter st hs
    simp only [Nat.add_zero] at hs
    cases b with
    | zero => rfl
    | succ b => simp [outerLoop, hs]
  | succ a ih =>
    intro iter st hs
    have hfuel : a + 1 + b = (a + b) + 1 := by omega
    rw [hfuel, outerLoop, outerLoop]
    have hs2 : stop (iter + 1 + a) = true := by
      have : iter + 1 + a = iter + (a + 1) := by omega
      rw [this]; exact hs
    simp only [ih (iter + 1) _ hs2]

theorem run_trace (E : Env) (stop : Nat → Bool) (mt : ModelType)
    (params : List FitParameter) (w : ℚ) (hfit : ∃ p ∈ params, p.isFit = true) :
    runLevenbergMarquardtOptimization E stop mt params w =
      { trace := (finish E mt (loopResult E stop mt params w)).trace
        state := some (finish E mt (loopResult E stop mt params w)) } := by
  have hne : ¬ (fitIndicesOf params).length = 0 := by
    intro h0
    obtain ⟨p, hp, hpf⟩ := hfit
    have := (fitIndicesOf_eq_nil_iff params).mp (List.length_eq_zero.mp h0) p hp
    rw [this] at hpf
    exact Bool.false_ne_true hpf
  simp [runLevenbergMarquardtOptimization, hne]

theorem finish_trace (E : Env) (mt : ModelType) (st : LMState)
    (h : updateDeps st.currentParamMap = st.currentParamMap) :
    (finish E mt st).trace = st.trace ++
      [Event.setHighPrecision true, Event.calculateTheoreticalCurve st.currentParamMap,
       Event.sigIterationUpdated (st.currentSSE / st.residuals.length) st.currentParamMap
         (E.calculateTheoreticalCurve true mt st.currentParamMap []),
       Event.invokeOnFitFinished] := by
  unfold finish
  simp only [h]

/-! ## Consistency of the derived parameter -/

theorem residualCalls_append (a b : List Event) :
    residualCalls (a ++ b) = residualCalls a ++ residualCalls b := by
  induction a with
  | nil => rfl
  | cons e rest ih => cases e <;> simp [residualCalls, ih]

theorem residualCalls_map (l : List PMap) :
    residualCalls (l.map Event.calculateResiduals) = l := by
  induction l with
  | nil => rfl
  | cons m rest ih => simp [residualCalls, ih]

theorem updateDeps_of_cond (m : PMap)
    (h : (m.contains "L" && m.contains "Lf" && decide (m.value "L" > 1e-9)) = true) :
    updateDeps m = m.insert "LfD" (m.value "Lf" / m.value "L") := by
  unfold updateDeps
  rw [if_pos h]

theorem derivedConsistent_updateDeps (m : PMap) : derivedConsistent (updateDeps m) := by
  intro hL hLf hgt
  have hcond : ((updateDeps m).contains "L" && (updateDeps m).contains "Lf" &&
      decide ((updateDeps m).value "L" > 1e-9)) = true := by
    simp [hL, hLf, hgt]
  have h2 := updateDeps_of_cond (updateDeps m) hcond
  rw [updateDeps_idem m] at h2
  have h3 := PMap.find_insert_self (updateDeps m) "LfD"
    ((updateDeps m).value "Lf" / (updateDeps m).value "L")
  rw [← h2] at h3
  exact h3

theorem derivedConsistent_insert (m : PMap) (k : String) (v : ℚ) (h : derivedConsistent m)
    (hL : k ≠ "L") (hLf : k ≠ "Lf") (hD : k ≠ "LfD") : derivedConsistent (m.insert k v) := by
  intro h1 h2 h3
  rw [PMap.contains_insert_ne _ _ _ _ (Ne.symm hL)] at h1
  rw [PMap.contains_insert_ne _ _ _ _ (Ne.symm hLf)] at h2
  rw [PMap.value_insert_ne _ _ _ _ (Ne.symm hL)] at h3
  rw [PMap.find_insert_ne _ _ _ _ (Ne.symm hD), PMap.value_insert_ne _ _ _ _ (Ne.symm hL),
    PMap.value_insert_ne _ _ _ _ (Ne.symm hLf)]
  exact h h1 h2 h3

theorem derivedConsistent_perturbed (E : Env) (m : PMap) (k : String)
    (h : derivedConsistent m) (hD : k ≠ "LfD") :
    derivedConsistent (perturbedMaps E m k).1 ∧ derivedConsistent (perturbedMaps E m k).2 := by
  unfold perturbedMaps
  by_cases hk : (k == "L" || k == "Lf") = true
  · simp only [hk, if_true]
    exact ⟨derivedConsistent_updateDeps _, derivedConsistent_updateDeps _⟩
  · have hL : k ≠ "L" := fun h0 => hk (by simp [h0])
    have hLf : k ≠ "Lf" := fun h0 => hk (by simp [h0])
    by_cases hlog : isLogParam (m.value k) k = true
    · simp only [hk, hlog, if_true]
      exact ⟨derivedConsistent_insert _ _ _ h hL hLf hD,
        derivedConsistent_insert _ _ _ h hL hLf hD⟩
    · simp only [hk, hlog]
      exact ⟨derivedConsistent_insert _ _ _ h hL hLf hD,
        derivedConsistent_insert _ _ _ h hL hLf hD⟩

theorem emittedMaps_append (a b : List Event) :
    emittedMaps (a ++ b) = emittedMaps a ++ emittedMaps b := by
  induction a with
  | nil => rfl
  | cons e rest ih => cases e <;> simp [emittedMaps, ih]

theorem emittedMaps_map (l : List PMap) :
    emittedMaps (l.map Event.calculateResiduals) = [] := by
  induction l with
  | nil => rfl
  | cons m rest ih => simp [emittedMaps, ih]

/-- The name at a position of `fitIndices` is the name of a fit-enabled parameter. -/
theorem fitName_mem (params : List FitParameter) (j : Nat)
    (hj : j < (fitIndicesOf params).length) :
    ∃ p ∈ params, p.isFit = true ∧ fitName params (fitIndicesOf params) j = p.name := by
  have hlen : (fitIndicesOf params).length = (params.filter (fun p => p.isFit)).length := by
    rw [← fitIndicesOf_map]; simp
  have hj2 : j < (params.filter (fun p => p.isFit)).length := by rw [← hlen]; exact hj
  have hmem : (params.filter (fun p => p.isFit))[j] ∈ params.filter (fun p => p.isFit) :=
    List.getElem_mem hj2
  rw [List.mem_filter] at hmem
  refine ⟨_, hmem.1, by simpa using hmem.2, ?_⟩
  unfold fitName
  rw [← fitParam_eq params j hj]
  simp [List.getD_eq_getElem?_getD, List.getElem?_eq_getElem hj2]

theorem jacobianProbes_consistent (E : Env) (params : List FitParameter) (cur : PMap)
    (hno : ∀ p ∈ params, p.isFit = true → p.name ≠ "LfD") (hcur : derivedConsistent cur) :
    ∀ m ∈ jacobianProbes E cur (fitIndicesOf params) params, derivedConsistent m := by
  unfold jacobianProbes
  apply foldl_range_invariant _ (fun _ (acc : List PMap) => ∀ m ∈ acc, derivedConsistent m)
  · intro m hm; simp at hm
  · intro j acc hj hacc m hm
    obtain ⟨p, hp, hpf, hname⟩ := fitName_mem params j hj
    have hD : fitName params (fitIndicesOf params) j ≠ "LfD" := by
      rw [hname]; exact hno p hp hpf
    have hpert := derivedConsistent_perturbed E cur _ hcur hD
    simp only [List.mem_append, List.mem_cons, List.mem_singleton, List.not_mem_nil,
      or_false] at hm
    rcases hm with hm | hm | hm
    · exact hacc m hm
    · rw [hm]; exact hpert.1
    · rw [hm]; exact hpert.2

theorem dcInv_trialStep (E : Env) (mt : ModelType) (params : List FitParameter)
    (fit : List Nat) (w : ℚ) (H : Mat) (g : Vec) (nRes : Nat) (st : LMState)
    (h : DcInv st) : DcInv (trialStep E mt params fit w H g nRes st).1 := by
  have htrial : derivedConsistent
      (buildTrialMap E params fit st.currentParamMap
        (solveLinearSystem E (dampedMatrix H st.lambda fit.length) (negG g fit.length))) := by
    unfold buildTrialMap
    exact derivedConsistent_updateDeps _
  unfold trialStep
  simp only
  split
  · refine ⟨?_, ?_, htrial, ?_⟩
    · intro m hm
      simp only [residualCalls_append, residualCalls, List.append_nil, List.mem_append,
        List.mem_singleton] at hm
      rcases hm with hm | hm
      · exact h.1 m hm
      · rw [hm]; exact htrial
    · intro m hm
      simp only [emittedMaps_append, emittedMaps, List.append_nil, List.mem_append,
        List.mem_singleton] at hm
      rcases hm with hm | hm
      · exact h.2.1 m hm
      · rw [hm]; exact htrial
    · intro c hc
      simp only [List.mem_append, List.mem_singleton] at hc
      rcases hc with hc | hc
      · exact h.2.2.2 c hc
      · rw [hc]; exact htrial
  · refine ⟨?_, ?_, h.2.2.1, h.2.2.2⟩
    · intro m hm
      simp only [residualCalls_append, residualCalls, List.mem_append,
        List.mem_singleton] at hm
      rcases hm with hm | hm
      · exact h.1 m hm
      · rw [hm]; exact htrial
    · intro m hm
      simp only [emittedMaps_append, emittedMaps, List.append_nil] at hm
      exact h.2.1 m hm

theorem dcInv_beginIteration (E : Env) (params : List FitParameter)
    (hno : ∀ p ∈ params, p.isFit = true → p.name ≠ "LfD") (maxIter iter : Nat)
    (st : LMState) (h : DcInv st) :
    DcInv (beginIteration E params (fitIndicesOf params) maxIter iter st) := by
  unfold beginIteration
  refine ⟨?_, ?_, h.2.2.1, h.2.2.2⟩
  · intro m hm
    simp only [residualCalls_append, residualCalls, residualCalls_map, List.append_nil,
      List.mem_append] at hm
    rcases hm with hm | hm
    · exact h.1 m hm
    · exact jacobianProbes_consistent E params _ hno h.2.2.1 m hm
  · intro m hm
    simp only [emittedMaps_append, emittedMaps, emittedMaps_map, List.append_nil] at hm
    exact h.2.1 m hm

/-- When no fit-enabled parameter is named `LfD`, every map handed to the residual builder
during the loop, every emitted map and every committed map has a consistent `LfD`. -/
theorem dcInv_loopResult (E : Env) (stop : Nat → Bool) (mt : ModelType)
    (params : List FitParameter) (w : ℚ)
    (hno : ∀ p ∈ params, p.isFit = true → p.name ≠ "LfD") :
    DcInv (loopResult E stop mt params w) := by
  unfold loopResult
  apply outerLoop_invariant E stop mt params _ w 50 DcInv
  · intro iter st h; exact dcInv_beginIteration E params hno 50 iter st h
  · intro H g nRes st h; exact dcInv_trialStep E mt params _ w H g nRes st h
  · have h0 : derivedConsistent (updateDeps (buildParamMap params)) :=
      derivedConsistent_updateDeps _
    refine ⟨?_, ?_, h0, ?_⟩
    · intro m hm
      simp only [initialState, residualCalls, List.mem_singleton] at hm
      rw [hm]; exact h0
    · intro m hm
      simp only [initialState, emittedMaps, List.mem_singleton] at hm
      rw [hm]; exact h0
    · intro c hc
      simp only [initialState, List.mem_singleton] at hc
      rw [hc]; exact h0

/-! ## The claims -/

/-- Claim C1, as amended: after any accepted step, every fit-enabled parameter whose bounds are
ordered (`min ≤ max`), that is not the derived parameter `LfD` and whose name no other
fit-enabled parameter bears, has its committed value within `[min, max]`. -/
theorem C1_fit_parameters_within_bounds (E : Env) (stop : Nat → Bool) (mt : ModelType)
    (params : List FitParameter) (w : ℚ)
    (hnodup : ((params.filter (fun p => p.isFit)).map (fun p => p.name)).Nodup)
    (m : PMap) (hm : m ∈ acceptedMaps (runLevenbergMarquardtOptimization E stop mt params w))
    (p : FitParameter) (hp : p ∈ params) (hfit : p.isFit = true)
    (hname : p.name ≠ "LfD") (hle : p.min ≤ p.max) :
    inBounds p m := by
  obtain ⟨cur, delta, rfl⟩ := acceptedMaps_run E stop mt params w m hm
  exact buildTrialMap_inBounds E params hnodup cur delta p hp hfit hname hle

/-- Witness of C1: in the run on `envSkin` that is stopped at the second check, the one
accepted step commits a value of `S` inside `[0, 10]`. -/
theorem C1_witness :
    inBounds (exParam "S" 1 true 0 10)
      [("S", 53813333279200000001 / 32479999999200000001), ("h", 500)] :=
  C1_fit_parameters_within_bounds envSkin stopAfterOne ModelType.Model_1 paramsSkin 1
    (by decide) _ (by decide!) _ (by decide) rfl (by decide) (by decide!)

/-- Counterexample to C1 as stated: the run on `envSkin` accepts a step, and the fixed
parameter `h` (value `500`, bounds `[0, 100]`) is outside its bounds in the committed map,
because only fit-enabled parameters are ever clamped.  (With the true logarithm the first
trial moves `S` from `1` to about `1.68` and lowers the SSE from about `0.96` to about
`0.06`, so the step is accepted there as well.) -/
theorem C1_counterexample :
    acceptedMaps
        (runLevenbergMarquardtOptimization envSkin stopAfterOne ModelType.Model_1 paramsSkin 1)
      = [[("S", 53813333279200000001 / 32479999999200000001), ("h", 500)]] ∧
    ¬ ∀ m ∈ acceptedMaps
        (runLevenbergMarquardtOptimization envSkin stopAfterOne ModelType.Model_1 paramsSkin 1),
      ∀ p ∈ paramsSkin, inBounds p m := by
  decide!

/-- Claim C2: the committed SSE values of a run (the initial SSE, then the SSE after each accepted
step) decrease strictly from one to the next, hence the sequence is non-increasing. -/
theorem C2_committed_sse_monotone (E : Env) (stop : Nat → Bool) (mt : ModelType)
    (params : List FitParameter) (w : ℚ) :
    List.Chain' (fun a b => b < a)
        (committedSSE (runLevenbergMarquardtOptimization E stop mt params w)) ∧
      List.Chain' (fun a b => b ≤ a)
        (committedSSE (runLevenbergMarquardtOptimization E stop mt params w)) := by
  have hlt : List.Chain' (fun a b : ℚ => b < a)
      (committedSSE (runLevenbergMarquardtOptimization E stop mt params w)) := by
    rcases committedSSE_run E stop mt params w with h | h
    · rw [h]; exact List.chain'_nil
    · rw [h]; exact (sseInv_loopResult E stop mt params w).1
  exact ⟨hlt, hlt.imp fun _ _ h => le_of_lt h⟩

/-- Claim C3: a trial whose SSE is not less than the committed SSE is rejected; it leaves the
committed parameter map, residual vector, SSE and commit log unchanged and multiplies the
damping factor by 10. -/
theorem C3_rejected_trial_frame (E : Env) (mt : ModelType) (params : List FitParameter)
    (fit : List Nat) (w : ℚ) (H : Mat) (g : Vec) (nRes : Nat) (st : LMState)
    (hrej : ¬ trialSSE E mt params fit w H g st < st.currentSSE) :
    (trialStep E mt params fit w H g nRes st).2 = false ∧
    (trialStep E mt params fit w H g nRes st).1.currentParamMap = st.currentParamMap ∧
    (trialStep E mt params fit w H g nRes st).1.residuals = st.residuals ∧
    (trialStep E mt params fit w H g nRes st).1.currentSSE = st.currentSSE ∧
    (trialStep E mt params fit w H g nRes st).1.commits = st.commits ∧
    (trialStep E mt params fit w H g nRes st).1.nAccepted = st.nAccepted ∧
    (trialStep E mt params fit w H g nRes st).1.nIterations = st.nIterations ∧
    (trialStep E mt params fit w H g nRes st).1.lambda = st.lambda * 10 := by
  unfold trialSSE at hrej
  unfold trialStep
  simp only [hrej, if_false, and_self]

/-- Witness of C3: with the parameter-independent model of `envFlat` the first trial from the
initial state does not lower the SSE; the map stays `[("k", 1)]` and the damping factor
becomes `0.01 * 10`. -/
theorem C3_witness :
    ¬ trialSSE envFlat ModelType.Model_1 paramsK [0] 1 [[0]] [0]
        (initialState envFlat ModelType.Model_1 paramsK 1) <
      (initialState envFlat ModelType.Model_1 paramsK 1).currentSSE ∧
    (trialStep envFlat ModelType.Model_1 paramsK [0] 1 [[0]] [0] 4
        (initialState envFlat ModelType.Model_1 paramsK 1)).2 = false ∧
    (trialStep envFlat ModelType.Model_1 paramsK [0] 1 [[0]] [0] 4
        (initialState envFlat ModelType.Model_1 paramsK 1)).1.currentParamMap = [("k", 1)] ∧
    (trialStep envFlat ModelType.Model_1 paramsK [0] 1 [[0]] [0] 4
        (initialState envFlat ModelType.Model_1 paramsK 1)).1.lambda = 0.01 * 10 :=
  have h := C3_rejected_trial_frame envFlat ModelType.Model_1 paramsK [0] 1 [[0]] [0] 4
    (initialState envFlat ModelType.Model_1 paramsK 1) (by decide!)
  ⟨by decide!, h.1, h.2.1, h.2.2.2.2.2.2.2⟩

/-- Claim C4: when no parameter is fit-enabled the driver only switches the precision mode and
queues `onFitFinished`: no fit state is created, the residual builder and the Jacobian
builder are never called, no outer iteration starts and no parameter map is emitted, so
no parameter value is ever replaced. -/
theorem C4_no_fit_parameter (E : Env) (stop : Nat → Bool) (mt : ModelType)
    (params : List FitParameter) (w : ℚ) (hnone : ∀ p ∈ params, p.isFit = false) :
    (runLevenbergMarquardtOptimization E stop mt params w).trace =
      [Event.setHighPrecision false, Event.invokeOnFitFinished] ∧
    (runLevenbergMarquardtOptimization E stop mt params w).state = none ∧
    residualCalls (runLevenbergMarquardtOptimization E stop mt params w).trace = [] ∧
    (∀ m, Event.computeJacobian m ∉
      (runLevenbergMarquardtOptimization E stop mt params w).trace) ∧
    (∀ v, Event.sigProgress v ∉
      (runLevenbergMarquardtOptimization E stop mt params w).trace) ∧
    emittedMaps (runLevenbergMarquardtOptimization E stop mt params w).trace = [] := by
  have h0 := (fitIndicesOf_eq_nil_iff params).mpr hnone
  simp [runLevenbergMarquardtOptimization, h0, residualCalls, emittedMaps]

/-- Witness of C4: the run on the list `paramsFixed`, which has no fit-enabled parameter. -/
theorem C4_witness :
    (∀ p ∈ paramsFixed, p.isFit = false) ∧
    (runLevenbergMarquardtOptimization envFlat neverStop ModelType.Model_1 paramsFixed 1).trace =
      [Event.setHighPrecision false, Event.invokeOnFitFinished] ∧
    (runLevenbergMarquardtOptimization envFlat neverStop ModelType.Model_1 paramsFixed 1).state
      = none :=
  have h := C4_no_fit_parameter envFlat neverStop ModelType.Model_1 paramsFixed 1 (by decide)
  ⟨by decide, h.1, h.2.1⟩

/-- Claim C5, evaluated at the failing input: with `L = 100` and `Lf = 0` fixed and the derived
parameter `LfD` fit-enabled, the first map that `computeJacobian` hands to the residual
builder (the second residual call of the run) contains `L > 1e-9` and `Lf` but carries
`LfD = 1e-4`, not `Lf / L = 0`. -/
theorem C5_perturbed_derived_parameter :
    (residualCalls
      (runLevenbergMarquardtOptimization envFlat neverStop ModelType.Model_1 paramsDerived
        1).trace).get? 1 = some [("L", 100), ("Lf", 0), ("LfD", 1e-4)] ∧
    ¬ derivedConsistent [("L", 100), ("Lf", 0), ("LfD", 1e-4)] := by
  decide!

/-- Claim C6: the matrix `H` assembled by the driver is symmetric, entry by entry, for every
Jacobian, residual vector and number of fit parameters. -/
theorem C6_normal_matrix_symmetric (J : Mat) (residuals : Vec) (nParams i j : Nat) :
    mget (normalEquations J residuals nParams).1 i j =
      mget (normalEquations J residuals nParams).1 j i :=
  H_symm J residuals nParams i j

/-- Claim C7, as amended: the SSE a run ends with never exceeds the initial SSE, and it is
strictly smaller exactly when at least one trial step was accepted. -/
theorem C7_final_sse_not_above_initial (E : Env) (stop : Nat → Bool) (mt : ModelType)
    (params : List FitParameter) (w : ℚ) (st : LMState)
    (hst : (runLevenbergMarquardtOptimization E stop mt params w).state = some st) :
    st.currentSSE ≤ (initialState E mt params w).currentSSE ∧
      (st.currentSSE < (initialState E mt params w).currentSSE ↔ 0 < st.nAccepted) := by
  obtain ⟨rfl, _⟩ := run_state E stop mt params w st hst
  exact accInv_loopResult E stop mt params w

/-- Witness of C7: the run on `envSkin` stopped at the second check. -/
theorem C7_witness :
    (finish envSkin ModelType.Model_1
        (loopResult envSkin stopAfterOne ModelType.Model_1 paramsSkin 1)).currentSSE ≤
      (initialState envSkin ModelType.Model_1 paramsSkin 1).currentSSE ∧
    ((finish envSkin ModelType.Model_1
        (loopResult envSkin stopAfterOne ModelType.Model_1 paramsSkin 1)).currentSSE <
      (initialState envSkin ModelType.Model_1 paramsSkin 1).currentSSE ↔
      0 < (finish envSkin ModelType.Model_1
        (loopResult envSkin stopAfterOne ModelType.Model_1 paramsSkin 1)).nAccepted) :=
  C7_final_sse_not_above_initial envSkin stopAfterOne ModelType.Model_1 paramsSkin 1
    (finish envSkin ModelType.Model_1
      (loopResult envSkin stopAfterOne ModelType.Model_1 paramsSkin 1)) rfl

/-- Counterexample to C7 as stated: in the scenario of the specification with a forward model
that ignores the parameters, `k` is fit-enabled, the initial SSE per residual is not below
`3e-3`, the run is never cancelled, and the SSE it ends with equals the initial SSE.  (Every
trial reproduces the residuals of the committed point whatever `log` is; with the true
logarithm the initial SSE per residual is about `0.16`.) -/
theorem C7_counterexample :
    (∃ p ∈ paramsK, p.isFit = true) ∧
    ¬ ((initialState envFlat ModelType.Model_1 paramsK 1).currentSSE /
        (initialState envFlat ModelType.Model_1 paramsK 1).residuals.length < 3e-3) ∧
    (runLevenbergMarquardtOptimization envFlat neverStop ModelType.Model_1 paramsK 1).state.map
        LMState.currentSSE =
      some (initialState envFlat ModelType.Model_1 paramsK 1).currentSSE ∧
    ¬ ((loopResult envFlat neverStop ModelType.Model_1 paramsK 1).currentSSE <
        (initialState envFlat ModelType.Model_1 paramsK 1).currentSSE) := by
  decide!

/-- Claim C8: when the stop flag reads true at the top of iteration `k`, the run adds to the trace
it had at that check only the final four events: precision restored, final curve, the
final update carrying exactly the committed map of that moment, and one `onFitFinished`
invocation, the only one of the trace. -/
theorem C8_stop_flag_honoured (E : Env) (stop : Nat → Bool) (mt : ModelType)
    (params : List FitParameter) (w : ℚ) (k : Nat)
    (hfit : ∃ p ∈ params, p.isFit = true) (hk : k < 50) (hstop : stop k = true) :
    (runLevenbergMarquardtOptimization E stop mt params w).trace =
      (stateAtIteration E stop mt params w k).trace ++
        [Event.setHighPrecision true,
         Event.calculateTheoreticalCurve (stateAtIteration E stop mt params w k).currentParamMap,
         Event.sigIterationUpdated
           ((stateAtIteration E stop mt params w k).currentSSE /
             (stateAtIteration E stop mt params w k).residuals.length)
           (stateAtIteration E stop mt params w k).currentParamMap
           (E.calculateTheoreticalCurve true mt
             (stateAtIteration E stop mt params w k).currentParamMap []),
         Event.invokeOnFitFinished] ∧
      Event.invokeOnFitFinished ∉ (stateAtIteration E stop mt params w k).trace := by
  have hloop : loopResult E stop mt params w = stateAtIteration E stop mt params w k := by
    unfold loopResult stateAtIteration
    have h50 : k + (50 - k) = 50 := by omega
    have key := outerLoop_stop E stop mt params (fitIndicesOf params) w 50 (50 - k) k 0
      (initialState E mt params w) (by simpa using hstop)
    rw [h50] at key
    exact key
  have hinv : LoopInv (stateAtIteration E stop mt params w k) :=
    loopInv_outerLoop E stop mt params w k
  rw [run_trace E stop mt params w hfit, hloop]
  exact ⟨finish_trace E mt _ hinv.1, hinv.2.1⟩

/-- Witness of C8: the run on `envSkin` with the stop flag read true at iteration `1`. -/
theorem C8_witness :
    (runLevenbergMarquardtOptimization envSkin stopAfterOne ModelType.Model_1 paramsSkin 1).trace
      = (stateAtIteration envSkin stopAfterOne ModelType.Model_1 paramsSkin 1 1).trace ++
        [Event.setHighPrecision true,
         Event.calculateTheoreticalCurve
           (stateAtIteration envSkin stopAfterOne ModelType.Model_1 paramsSkin 1 1).currentParamMap,
         Event.sigIterationUpdated
           ((stateAtIteration envSkin stopAfterOne ModelType.Model_1 paramsSkin 1 1).currentSSE /
             (stateAtIteration envSkin stopAfterOne ModelType.Model_1 paramsSkin 1
               1).residuals.length)
           (stateAtIteration envSkin stopAfterOne ModelType.Model_1 paramsSkin 1 1).currentParamMap
           (envSkin.calculateTheoreticalCurve true ModelType.Model_1
             (stateAtIteration envSkin stopAfterOne ModelType.Model_1 paramsSkin 1
               1).currentParamMap []),
         Event.invokeOnFitFinished] ∧
      Event.invokeOnFitFinished ∉
        (stateAtIteration envSkin stopAfterOne ModelType.Model_1 paramsSkin 1 1).trace :=
  C8_stop_flag_honoured envSkin stopAfterOne ModelType.Model_1 paramsSkin 1 1
    (by decide) (by decide) rfl

/-- Claim C9, evaluated at the failing input: a run started by the button on an idle widget
with observed data delivers `onFitFinished` twice, once queued by the driver and once by
the connection of the future watcher. -/
theorem C9_finished_delivered_twice :
    (on_btnRunFit_clicked widgetIdle).started =
      some { modelType := ModelType.Model_1, paramsCopy := paramsFixed, w := 1 / 2 } ∧
    fitRunCalls widgetIdle neverStop = [SlotCall.onFitFinished, SlotCall.onFitFinished] ∧
    (fitRunCalls widgetIdle neverStop).count SlotCall.onFitFinished = 2 := by
  decide!

/-- Claim C10, as amended: a run with at least one fit-enabled parameter, however its loop ends,
finishes with the precision restored, the final curve computed, one iteration update
carrying the committed map (the map of the last commit, on which the derived-parameter
update has no effect), and then the only `onFitFinished` invocation of the trace. -/
theorem C10_final_update_before_finish (E : Env) (stop : Nat → Bool) (mt : ModelType)
    (params : List FitParameter) (w : ℚ) (hfit : ∃ p ∈ params, p.isFit = true) :
    (runLevenbergMarquardtOptimization E stop mt params w).trace =
      (loopResult E stop mt params w).trace ++
        [Event.setHighPrecision true,
         Event.calculateTheoreticalCurve (loopResult E stop mt params w).currentParamMap,
         Event.sigIterationUpdated
           ((loopResult E stop mt params w).currentSSE /
             (loopResult E stop mt params w).residuals.length)
           (loopResult E stop mt params w).currentParamMap
           (E.calculateTheoreticalCurve true mt
             (loopResult E stop mt params w).currentParamMap []),
         Event.invokeOnFitFinished] ∧
      Event.invokeOnFitFinished ∉ (loopResult E stop mt params w).trace ∧
      (loopResult E stop mt params w).commits.getLast? =
        some ((loopResult E stop mt params w).currentSSE,
          (loopResult E stop mt params w).currentParamMap) ∧
      updateDeps (loopResult E stop mt params w).currentParamMap =
        (loopResult E stop mt params w).currentParamMap := by
  have hinv : LoopInv (loopResult E stop mt params w) := loopInv_outerLoop E stop mt params w 50
  rw [run_trace E stop mt params w hfit]
  exact ⟨finish_trace E mt _ hinv.1, hinv.2.1, hinv.2.2, hinv.1⟩

/-- Witness of C10: the run on `envFlat` with the fit parameter `k`, which ends exhausted. -/
theorem C10_witness :
    (runLevenbergMarquardtOptimization envFlat neverStop ModelType.Model_1 paramsK 1).trace =
      (loopResult envFlat neverStop ModelType.Model_1 paramsK 1).trace ++
        [Event.setHighPrecision true,
         Event.calculateTheoreticalCurve
           (loopResult envFlat neverStop ModelType.Model_1 paramsK 1).currentParamMap,
         Event.sigIterationUpdated
           ((loopResult envFlat neverStop ModelType.Model_1 paramsK 1).currentSSE /
             (loopResult envFlat neverStop ModelType.Model_1 paramsK 1).residuals.length)
           (loopResult envFlat neverStop ModelType.Model_1 paramsK 1).currentParamMap
           (envFlat.calculateTheoreticalCurve true ModelType.Model_1
             (loopResult envFlat neverStop ModelType.Model_1 paramsK 1).currentParamMap []),
         Event.invokeOnFitFinished] :=
  (C10_final_update_before_finish envFlat neverStop ModelType.Model_1 paramsK 1
    (by decide)).1

/-- Counterexample to C10 as stated: a run without fit-enabled parameter emits no iteration update
at all before it reports completion. -/
theorem C10_counterexample :
    (runLevenbergMarquardtOptimization envFlat neverStop ModelType.Model_1 paramsFixed 1).trace =
      [Event.setHighPrecision false, Event.invokeOnFitFinished] ∧
    emittedMaps
      (runLevenbergMarquardtOptimization envFlat neverStop ModelType.Model_1 paramsFixed
        1).trace = [] := by
  decide!

/-! ## Counting the events of a run -/

theorem jacobianBuilds_append (a b : List Event) :
    jacobianBuilds (a ++ b) = jacobianBuilds a + jacobianBuilds b := by
  induction a with
  | nil => simp [jacobianBuilds]
  | cons e rest ih =>
    cases e <;> simp [jacobianBuilds, ih]
    omega

theorem trialSteps_append (a b : List Event) :
    trialSteps (a ++ b) = trialSteps a + trialSteps b := by
  induction a with
  | nil => simp [trialSteps]
  | cons e rest ih =>
    cases e <;> simp [trialSteps, ih]
    omega

theorem progressSignals_append (a b : List Event) :
    progressSignals (a ++ b) = progressSignals a + progressSignals b := by
  induction a with
  | nil => simp [progressSignals]
  | cons e rest ih =>
    cases e <;> simp [progressSignals, ih]
    omega

theorem jacobianBuilds_map (l : List PMap) :
    jacobianBuilds (l.map Event.calculateResiduals) = 0 := by
  induction l with
  | nil => rfl
  | cons m rest ih => simp [jacobianBuilds, ih]

theorem trialSteps_map (l : List PMap) :
    trialSteps (l.map Event.calculateResiduals) = 0 := by
  induction l with
  | nil => rfl
  | cons m rest ih => simp [trialSteps, ih]

theorem progressSignals_map (l : List PMap) :
    progressSignals (l.map Event.calculateResiduals) = 0 := by
  induction l with
  | nil => rfl
  | cons m rest ih => simp [progressSignals, ih]

theorem countInv_trialStep (E : Env) (mt : ModelType) (params : List FitParameter)
    (fit : List Nat) (w : ℚ) (H : Mat) (g : Vec) (nRes : Nat) (st : LMState)
    (h : CountInv st) : CountInv (trialStep E mt params fit w H g nRes st).1 := by
  obtain ⟨h1, h2, h3, h4⟩ := h
  unfold trialStep
  simp only
  split
  · refine ⟨?_, ?_, ?_, ?_⟩
    · simp [jacobianBuilds_append, jacobianBuilds, h1]
    · simp [trialSteps_append, trialSteps, h2]; omega
    · simp [progressSignals_append, progressSignals, h3]
    · simp [emittedMaps_append, emittedMaps]
  · refine ⟨?_, ?_, ?_, ?_⟩
    · simp [jacobianBuilds_append, jacobianBuilds, h1]
    · simp [trialSteps_append, trialSteps, h2]; omega
    · simp [progressSignals_append, progressSignals, h3]
    · simp [emittedMaps_append, emittedMaps, h4]

theorem countInv_beginIteration (E : Env) (params : List FitParameter) (fit : List Nat)
    (maxIter iter : Nat) (st : LMState) (h : CountInv st) :
    CountInv (beginIteration E params fit maxIter iter st) := by
  obtain ⟨h1, h2, h3, h4⟩ := h
  unfold beginIteration
  refine ⟨?_, ?_, ?_, ?_⟩
  · simp [jacobianBuilds_append, jacobianBuilds, jacobianBuilds_map, h1]
  · simp [trialSteps_append, trialSteps, trialSteps_map, h2]
  · simp [progressSignals_append, progressSignals, progressSignals_map, h3]
  · simp [emittedMaps_append, emittedMaps, emittedMaps_map, h4]

theorem countInv_initialState (E : Env) (mt : ModelType) (params : List FitParameter)
    (w : ℚ) : CountInv (initialState E mt params w) := by
  refine ⟨?_, ?_, ?_, ?_⟩ <;>
    simp [initialState, jacobianBuilds, trialSteps, progressSignals, emittedMaps]

theorem countInv_outerLoop (E : Env) (stop : Nat → Bool) (mt : ModelType)
    (params : List FitParameter) (w : ℚ) (n : Nat) :
    CountInv (outerLoop E stop mt params (fitIndicesOf params) w 50 n 0
      (initialState E mt params w)) := by
  apply outerLoop_invariant E stop mt params _ w 50 CountInv
  · intro iter st h; exact countInv_beginIteration E params _ 50 iter st h
  · intro H g nRes st h; exact countInv_trialStep E mt params _ w H g nRes st h
  · exact countInv_initialState E mt params w

/-- The trace counters and the reported map of a run that went through the loop, in terms
of the state the loop ended in. -/
theorem run_counts (E : Env) (stop : Nat → Bool) (mt : ModelType)
    (params : List FitParameter) (w : ℚ) (hfit : ∃ p ∈ params, p.isFit = true) :
    jacobianBuilds (runLevenbergMarquardtOptimization E stop mt params w).trace =
        (loopResult E stop mt params w).nIterations ∧
      trialSteps (runLevenbergMarquardtOptimization E stop mt params w).trace =
        (loopResult E stop mt params w).nAccepted + (loopResult E stop mt params w).nRejected ∧
      progressSignals (runLevenbergMarquardtOptimization E stop mt params w).trace =
        (loopResult E stop mt params w).nIterations ∧
      reportedMap (runLevenbergMarquardtOptimization E stop mt params w).trace =
        some (loopResult E stop mt params w).currentParamMap := by
  have hinv : LoopInv (loopResult E stop mt params w) := loopInv_outerLoop E stop mt params w 50
  have hc : CountInv (loopResult E stop mt params w) := countInv_outerLoop E stop mt params w 50
  rw [run_trace E stop mt params w hfit]
  simp only [finish_trace E mt _ hinv.1]
  obtain ⟨h1, h2, h3, _⟩ := hc
  refine ⟨?_, ?_, ?_, ?_⟩
  · simp [jacobianBuilds_append, jacobianBuilds, h1]
  · simp [trialSteps_append, trialSteps, h2]
  · simp [progressSignals_append, progressSignals, h3]
  · simp [reportedMap, emittedMaps_append, emittedMaps]

theorem outerLoop_converged (E : Env) (stop : Nat → Bool) (mt : ModelType)
    (params : List FitParameter) (fit : List Nat) (w : ℚ) (maxIter : Nat)
    (n iter : Nat) (st : LMState) (h : converged st = true) :
    outerLoop E stop mt params fit w maxIter n iter st = st := by
  cases n with
  | zero => rfl
  | succ n =>
    rw [outerLoop]
    by_cases hs : stop iter = true
    · simp [hs]
    · simp [hs, h]

/-- Once the state reached after at most `a` iterations passes the convergence test, the
iterations left do nothing. -/
theorem outerLoop_converged_at (E : Env) (stop : Nat → Bool) (mt : ModelType)
    (params : List FitParameter) (fit : List Nat) (w : ℚ) (maxIter : Nat) (b : Nat) :
    ∀ (a iter : Nat) (st : LMState),
      converged (outerLoop E stop mt params fit w maxIter a iter st) = true →
      outerLoop E stop mt params fit w maxIter (a + b) iter st =
        outerLoop E stop mt params fit w maxIter a iter st := by
  intro a
  induction a with
  | zero =>
    intro iter st hc
    simp only [outerLoop] at hc
    simp only [Nat.zero_add]
    rw [outerLoop_converged E stop mt params fit w maxIter b iter st hc]
    rfl
  | succ a ih =>
    intro iter st hc
    have hfuel : a + 1 + b = (a + b) + 1 := by omega
    rw [hfuel, outerLoop, outerLoop]
    rw [outerLoop] at hc
    by_cases hs : stop iter = true
    · simp [hs]
    · by_cases hcv : converged st = true
      · simp [hs, hcv]
      · simp only [hs, hcv, Bool.false_eq_true, if_false] at hc ⊢
        split
        · rfl
        · rename_i hex
          simp only [hex, if_false] at hc
          exact ih _ _ hc

/-- Claim C11: when the state in which the check at the top of iteration `k` is made has
residuals and its SSE per residual is below `3e-3`, the run adds to the trace of that
state only the final four events: no Jacobian is built and no trial is made beyond those
already counted in that state, and the reported map is the committed map of that state.
For `k = 0` the state is the initial one: no Jacobian, no trial, the initial map reported. -/
theorem C11_convergence_stops_run (E : Env) (stop : Nat → Bool) (mt : ModelType)
    (params : List FitParameter) (w : ℚ) (k : Nat)
    (hfit : ∃ p ∈ params, p.isFit = true) (hk : k < 50)
    (hne : (stateAtIteration E stop mt params w k).residuals ≠ [])
    (hconv : (stateAtIteration E stop mt params w k).currentSSE /
      (stateAtIteration E stop mt params w k).residuals.length < 3e-3) :
    (runLevenbergMarquardtOptimization E stop mt params w).trace =
      (stateAtIteration E stop mt params w k).trace ++
        [Event.setHighPrecision true,
         Event.calculateTheoreticalCurve (stateAtIteration E stop mt params w k).currentParamMap,
         Event.sigIterationUpdated
           ((stateAtIteration E stop mt params w k).currentSSE /
             (stateAtIteration E stop mt params w k).residuals.length)
           (stateAtIteration E stop mt params w k).currentParamMap
           (E.calculateTheoreticalCurve true mt
             (stateAtIteration E stop mt params w k).currentParamMap []),
         Event.invokeOnFitFinished] ∧
      jacobianBuilds (runLevenbergMarquardtOptimization E stop mt params w).trace =
        (stateAtIteration E stop mt params w k).nIterations ∧
      trialSteps (runLevenbergMarquardtOptimization E stop mt params w).trace =
        (stateAtIteration E stop mt params w k).nAccepted +
          (stateAtIteration E stop mt params w k).nRejected ∧
      reportedMap (runLevenbergMarquardtOptimization E stop mt params w).trace =
        some (stateAtIteration E stop mt params w k).currentParamMap ∧
      stateAtIteration E stop mt params w 0 = initialState E mt params w := by
  have hcv : converged (stateAtIteration E stop mt params w k) = true := by
    unfold converged
    have h1 : (stateAtIteration E stop mt params w k).residuals.isEmpty = false := by
      cases hr : (stateAtIteration E stop mt params w k).residuals with
      | nil => exact absurd hr hne
      | cons a l => rfl
    simp [h1, hconv]
  have hloop : loopResult E stop mt params w = stateAtIteration E stop mt params w k := by
    unfold loopResult
    have h50 : k + (50 - k) = 50 := by omega
    have key := outerLoop_converged_at E stop mt params (fitIndicesOf params) w 50 (50 - k) k 0
      (initialState E mt params w) hcv
    rw [h50] at key
    exact key
  have hinv : LoopInv (stateAtIteration E stop mt params w k) :=
    loopInv_outerLoop E stop mt params w k
  have hcnt := run_counts E stop mt params w hfit
  rw [hloop] at hcnt
  refine ⟨?_, hcnt.1, hcnt.2.1, hcnt.2.2.2, rfl⟩
  rw [run_trace E stop mt params w hfit, hloop]
  exact finish_trace E mt _ hinv.1

/-- Witness of C11: on `envSkin` with `S` started at the observed value `2` every initial
residual is zero; the run builds no Jacobian, makes no trial and reports the initial map. -/
theorem C11_witness :
    jacobianBuilds
        (runLevenbergMarquardtOptimization envSkin neverStop ModelType.Model_1 paramsExact 1).trace
      = 0 ∧
    trialSteps
        (runLevenbergMarquardtOptimization envSkin neverStop ModelType.Model_1 paramsExact 1).trace
      = 0 ∧
    reportedMap
        (runLevenbergMarquardtOptimization envSkin neverStop ModelType.Model_1 paramsExact 1).trace
      = some [("S", 2)] :=
  have h := C11_convergence_stops_run envSkin neverStop ModelType.Model_1 paramsExact 1 0
    (by decide) (by decide) (by decide!) (by decide!)
  ⟨h.2.1, h.2.2.1, h.2.2.2.1⟩

/-! ## Iteration caps -/

theorem trialStep_counters (E : Env) (mt : ModelType) (params : List FitParameter)
    (fit : List Nat) (w : ℚ) (H : Mat) (g : Vec) (nRes : Nat) (st : LMState) :
    (trialStep E mt params fit w H g nRes st).1.nIterations = st.nIterations ∧
      (trialStep E mt params fit w H g nRes st).1.nAccepted +
          (trialStep E mt params fit w H g nRes st).1.nRejected =
        st.nAccepted + st.nRejected + 1 := by
  unfold trialStep
  simp only
  split
  · refine ⟨rfl, ?_⟩
    show st.nAccepted + 1 + st.nRejected = st.nAccepted + st.nRejected + 1
    omega
  · refine ⟨rfl, ?_⟩
    show st.nAccepted + (st.nRejected + 1) = st.nAccepted + st.nRejected + 1
    omega

theorem trialLoop_bounds (E : Env) (mt : ModelType) (params : List FitParameter)
    (fit : List Nat) (w : ℚ) (H : Mat) (g : Vec) (nRes : Nat) :
    ∀ (k : Nat) (st : LMState),
      (trialLoop E mt params fit w H g nRes k st).1.nIterations = st.nIterations ∧
        (trialLoop E mt params fit w H g nRes k st).1.nAccepted +
            (trialLoop E mt params fit w H g nRes k st).1.nRejected ≤
          st.nAccepted + st.nRejected + k := by
  intro k
  induction k with
  | zero => intro st; exact ⟨rfl, by simp [trialLoop]⟩
  | succ k ih =>
    intro st
    have hs := trialStep_counters E mt params fit w H g nRes st
    rw [trialLoop]
    split
    · exact ⟨hs.1, by omega⟩
    · have h2 := ih (trialStep E mt params fit w H g nRes st).1
      exact ⟨by rw [h2.1, hs.1], by omega⟩

theorem iterationBody_bounds (E : Env) (mt : ModelType) (params : List FitParameter)
    (fit : List Nat) (w : ℚ) (maxIter iter : Nat) (st : LMState) :
    (iterationBody E mt params fit w maxIter iter st).1.nIterations = st.nIterations + 1 ∧
      (iterationBody E mt params fit w maxIter iter st).1.nAccepted +
          (iterationBody E mt params fit w maxIter iter st).1.nRejected ≤
        st.nAccepted + st.nRejected + 5 := by
  unfold iterationBody
  have h := trialLoop_bounds E mt params fit w
    (normalEquations (computeJacobian E false st.currentParamMap st.residuals fit mt params w)
      st.residuals fit.length).1
    (normalEquations (computeJacobian E false st.currentParamMap st.residuals fit mt params w)
      st.residuals fit.length).2
    st.residuals.length 5 (beginIteration E params fit maxIter iter st)
  exact ⟨h.1, h.2⟩

/-- The loop with `n` iterations left adds at most `n` outer iterations, and keeps the number
of trials within five per outer iteration. -/
theorem outerLoop_bounds (E : Env) (stop : Nat → Bool) (mt : ModelType)
    (params : List FitParameter) (fit : List Nat) (w : ℚ) (maxIter : Nat) :
    ∀ (n iter : Nat) (st : LMState),
      st.nAccepted + st.nRejected ≤ 5 * st.nIterations →
      (outerLoop E stop mt params fit w maxIter n iter st).nIterations ≤ st.nIterations + n ∧
        (outerLoop E stop mt params fit w maxIter n iter st).nAccepted +
            (outerLoop E stop mt params fit w maxIter n iter st).nRejected ≤
          5 * (outerLoop E stop mt params fit w maxIter n iter st).nIterations := by
  intro n
  induction n with
  | zero => intro iter st h; exact ⟨by simp [outerLoop], by simpa [outerLoop] using h⟩
  | succ n ih =>
    intro iter st h
    have hb := iterationBody_bounds E mt params fit w maxIter iter st
    rw [outerLoop]
    split
    · exact ⟨by omega, h⟩
    · split
      · exact ⟨by omega, h⟩
      · simp only
        split
        · exact ⟨by omega, by omega⟩
        · have h2 := ih (iter + 1) (iterationBody E mt params fit w maxIter iter st).1
            (by omega)
          exact ⟨by omega, h2.2⟩

theorem loopResult_bounds (E : Env) (stop : Nat → Bool) (mt : ModelType)
    (params : List FitParameter) (w : ℚ) :
    (loopResult E stop mt params w).nIterations ≤ 50 ∧
      (loopResult E stop mt params w).nAccepted + (loopResult E stop mt params w).nRejected ≤
        5 * (loopResult E stop mt params w).nIterations := by
  have h := outerLoop_bounds E stop mt params (fitIndicesOf params) w 50 50 0
    (initialState E mt params w) (by simp [initialState])
  unfold loopResult
  exact ⟨by simpa [initialState] using h.1, h.2⟩

theorem jacobianProbes_length (E : Env) (cur : PMap) (fit : List Nat)
    (params : List FitParameter) :
    (jacobianProbes E cur fit params).length = 2 * fit.length := by
  unfold jacobianProbes
  apply foldl_range_invariant _ (fun m (acc : List PMap) => acc.length = 2 * m)
  · rfl
  · intro j acc _ hacc
    simp [hacc]; omega

theorem resInv_trialStep (E : Env) (mt : ModelType) (params : List FitParameter)
    (fit : List Nat) (w : ℚ) (H : Mat) (g : Vec) (nRes : Nat) (st : LMState)
    (h : ResInv fit st) : ResInv fit (trialStep E mt params fit w H g nRes st).1 := by
  unfold ResInv at h ⊢
  unfold trialStep
  simp only
  split
  · simp [residualCalls_append, residualCalls, h]; omega
  · simp [residualCalls_append, residualCalls, h]; omega

theorem resInv_beginIteration (E : Env) (params : List FitParameter) (fit : List Nat)
    (maxIter iter : Nat) (st : LMState) (h : ResInv fit st) :
    ResInv fit (beginIteration E params fit maxIter iter st) := by
  unfold ResInv at h ⊢
  unfold beginIteration
  simp [residualCalls_append, residualCalls, residualCalls_map, jacobianProbes_length, h]
  ring

theorem resInv_loopResult (E : Env) (stop : Nat → Bool) (mt : ModelType)
    (params : List FitParameter) (w : ℚ) :
    ResInv (fitIndicesOf params) (loopResult E stop mt params w) := by
  unfold loopResult
  apply outerLoop_invariant E stop mt params _ w 50 (ResInv (fitIndicesOf params))
  · intro iter st h; exact resInv_beginIteration E params _ 50 iter st h
  · intro H g nRes st h; exact resInv_trialStep E mt params _ w H g nRes st h
  · simp [ResInv, initialState, residualCalls]

theorem run_no_fit (E : Env) (stop : Nat → Bool) (mt : ModelType)
    (params : List FitParameter) (w : ℚ) (h : (fitIndicesOf params).length = 0) :
    runLevenbergMarquardtOptimization E stop mt params w =
      { trace := [Event.setHighPrecision false, Event.invokeOnFitFinished], state := none } := by
  simp [runLevenbergMarquardtOptimization, h]

theorem exists_fit_of_length (params : List FitParameter)
    (h : ¬ (fitIndicesOf params).length = 0) : ∃ p ∈ params, p.isFit = true := by
  by_contra hcon
  apply h
  have : fitIndicesOf params = [] := by
    rw [fitIndicesOf_eq_nil_iff]
    intro p hp
    by_contra hpf
    exact hcon ⟨p, hp, by simpa using hpf⟩
  simp [this]

/-- Claim C12: every run ends (the driver is a total function) after at most 50 Jacobian builds
and at most 5 trials per Jacobian build, hence at most 250 trials; its residual evaluations
are the initial one, two per fit parameter and Jacobian build, and one per trial; and the
map it reports last is the map of its last commit. -/
theorem C12_iteration_caps (E : Env) (stop : Nat → Bool) (mt : ModelType)
    (params : List FitParameter) (w : ℚ) :
    jacobianBuilds (runLevenbergMarquardtOptimization E stop mt params w).trace ≤ 50 ∧
    progressSignals (runLevenbergMarquardtOptimization E stop mt params w).trace =
      jacobianBuilds (runLevenbergMarquardtOptimization E stop mt params w).trace ∧
    trialSteps (runLevenbergMarquardtOptimization E stop mt params w).trace ≤
      5 * jacobianBuilds (runLevenbergMarquardtOptimization E stop mt params w).trace ∧
    trialSteps (runLevenbergMarquardtOptimization E stop mt params w).trace ≤ 250 ∧
    (residualCalls (runLevenbergMarquardtOptimization E stop mt params w).trace).length =
      (if (fitIndicesOf params).length = 0 then 0
       else 1 + 2 * (fitIndicesOf params).length *
            jacobianBuilds (runLevenbergMarquardtOptimization E stop mt params w).trace +
          trialSteps (runLevenbergMarquardtOptimization E stop mt params w).trace) ∧
    reportedMap (runLevenbergMarquardtOptimization E stop mt params w).trace =
      lastCommitted (runLevenbergMarquardtOptimization E stop mt params w) := by
  by_cases h0 : (fitIndicesOf params).length = 0
  · rw [run_no_fit E stop mt params w h0]
    simp [jacobianBuilds, progressSignals, trialSteps, residualCalls, reportedMap, emittedMaps,
      lastCommitted, h0]
  · have hfit := exists_fit_of_length params h0
    have hcnt := run_counts E stop mt params w hfit
    have hb := loopResult_bounds E stop mt params w
    have hres := resInv_loopResult E stop mt params w
    have hinv : LoopInv (loopResult E stop mt params w) :=
      loopInv_outerLoop E stop mt params w 50
    obtain ⟨c1, c2, c3, c4⟩ := hcnt
    refine ⟨by omega, by omega, by omega, by omega, ?_, ?_⟩
    · rw [if_neg h0, c1, c2]
      rw [run_trace E stop mt params w hfit]
      simp only [finish_trace E mt _ hinv.1]
      unfold ResInv at hres
      simp [residualCalls_append, residualCalls, hres]
    · rw [c4, run_trace E stop mt params w hfit]
      simp [lastCommitted, finish_commits, hinv.2.2]

/-! ## Runs in which every trial is rejected -/

theorem trialSSE_eq_trialSSEAt (E : Env) (mt : ModelType) (params : List FitParameter)
    (fit : List Nat) (w : ℚ) (H : Mat) (g : Vec) (st : LMState) :
    trialSSE E mt params fit w H g st =
      trialSSEAt E mt params fit w H g st.currentParamMap st.lambda := rfl

theorem trialStep_rejected (E : Env) (mt : ModelType) (params : List FitParameter)
    (fit : List Nat) (w : ℚ) (H : Mat) (g : Vec) (nRes : Nat) (st : LMState)
    (hrej : ¬ trialSSEAt E mt params fit w H g st.currentParamMap st.lambda < st.currentSSE) :
    (trialStep E mt params fit w H g nRes st).2 = false ∧
      Kept st (trialStep E mt params fit w H g nRes st).1 ∧
      (trialStep E mt params fit w H g nRes st).1.lambda = st.lambda * 10 ∧
      (trialStep E mt params fit w H g nRes st).1.nRejected = st.nRejected + 1 ∧
      (trialStep E mt params fit w H g nRes st).1.nIterations = st.nIterations := by
  unfold trialSSEAt at hrej
  unfold trialStep Kept
  simp only [hrej, if_false, and_self]

theorem trialLoop_all_rejected (E : Env) (mt : ModelType) (params : List FitParameter)
    (fit : List Nat) (w : ℚ) (H : Mat) (g : Vec) (nRes : Nat) :
    ∀ (n : Nat) (st : LMState),
      (∀ k, k < n →
        ¬ trialSSEAt E mt params fit w H g st.currentParamMap (st.lambda * 10 ^ k) <
          st.currentSSE) →
      (trialLoop E mt params fit w H g nRes n st).2 = false ∧
        Kept st (trialLoop E mt params fit w H g nRes n st).1 ∧
        (trialLoop E mt params fit w H g nRes n st).1.lambda = st.lambda * 10 ^ n ∧
        (trialLoop E mt params fit w H g nRes n st).1.nRejected = st.nRejected + n ∧
        (trialLoop E mt params fit w H g nRes n st).1.nIterations = st.nIterations := by
  intro n
  induction n with
  | zero =>
    intro st _
    simp [trialLoop, Kept]
  | succ n ih =>
    intro st hrej
    have h0 := hrej 0 (Nat.succ_pos n)
    simp only [pow_zero, mul_one] at h0
    obtain ⟨s1, s2, s3, s4, s5⟩ := trialStep_rejected E mt params fit w H g nRes st h0
    rw [trialLoop]
    simp only [s1, Bool.false_eq_true, if_false]
    have hnext : ∀ k, k < n →
        ¬ trialSSEAt E mt params fit w H g
            (trialStep E mt params fit w H g nRes st).1.currentParamMap
            ((trialStep E mt params fit w H g nRes st).1.lambda * 10 ^ k) <
          (trialStep E mt params fit w H g nRes st).1.currentSSE := by
      intro k hk
      rw [s2.1, s2.2.1, s3]
      have := hrej (k + 1) (Nat.succ_lt_succ hk)
      rw [pow_succ] at this
      have e : st.lambda * 10 * 10 ^ k = st.lambda * (10 ^ k * 10) := by ring
      rw [e]
      exact this
    obtain ⟨t1, t2, t3, t4, t5⟩ := ih _ hnext
    refine ⟨t1, ?_, ?_, ?_, ?_⟩
    · unfold Kept at t2 s2 ⊢
      obtain ⟨a1, a2, a3, a4, a5⟩ := t2
      obtain ⟨b1, b2, b3, b4, b5⟩ := s2
      exact ⟨a1.trans b1, a2.trans b2, a3.trans b3, a4.trans b4, a5.trans b5⟩
    · rw [t3, s3, pow_succ]; ring
    · rw [t4, s4]; omega
    · rw [t5, s5]

theorem converged_of_kept (st0 st : LMState) (h : Kept st0 st) :
    converged st = converged st0 := by
  unfold converged
  rw [h.2.1, h.2.2.1]

theorem iterationBody_all_rejected (E : Env) (mt : ModelType) (params : List FitParameter)
    (w : ℚ) (maxIter iter : Nat) (st : LMState)
    (hkept : Kept (initialState E mt params w) st)
    (hrej : ∀ k, k < 5 →
      ¬ trialSSEAt E mt params (fitIndicesOf params) w (initialNormal E mt params w).1
          (initialNormal E mt params w).2 (initialState E mt params w).currentParamMap
          (st.lambda * 10 ^ k) < (initialState E mt params w).currentSSE) :
    (iterationBody E mt params (fitIndicesOf params) w maxIter iter st).2 = false ∧
      Kept (initialState E mt params w)
        (iterationBody E mt params (fitIndicesOf params) w maxIter iter st).1 ∧
      (iterationBody E mt params (fitIndicesOf params) w maxIter iter st).1.lambda =
        st.lambda * 10 ^ 5 ∧
      (iterationBody E mt params (fitIndicesOf params) w maxIter iter st).1.nRejected =
        st.nRejected + 5 ∧
      (iterationBody E mt params (fitIndicesOf params) w maxIter iter st).1.nIterations =
        st.nIterations + 1 := by
  obtain ⟨k1, k2, k3, k4, k5⟩ := hkept
  have hb : Kept (initialState E mt params w)
      (beginIteration E params (fitIndicesOf params) maxIter iter st) :=
    ⟨k1, k2, k3, k4, k5⟩
  unfold iterationBody
  simp only [k1, k3]
  have hrej2 : ∀ k, k < 5 →
      ¬ trialSSEAt E mt params (fitIndicesOf params) w (initialNormal E mt params w).1
          (initialNormal E mt params w).2
          (beginIteration E params (fitIndicesOf params) maxIter iter st).currentParamMap
          ((beginIteration E params (fitIndicesOf params) maxIter iter st).lambda * 10 ^ k) <
        (beginIteration E params (fitIndicesOf params) maxIter iter st).currentSSE := by
    intro k hk
    rw [hb.1, hb.2.1]
    exact hrej k hk
  obtain ⟨t1, t2, t3, t4, t5⟩ := trialLoop_all_rejected E mt params (fitIndicesOf params) w
    (initialNormal E mt params w).1 (initialNormal E mt params w).2
    (initialState E mt params w).residuals.length 5
    (beginIteration E params (fitIndicesOf params) maxIter iter st) hrej2
  refine ⟨t1, ?_, t3, t4, t5⟩
  obtain ⟨a1, a2, a3, a4, a5⟩ := t2
  obtain ⟨b1, b2, b3, b4, b5⟩ := hb
  exact ⟨a1.trans b1, a2.trans b2, a3.trans b3, a4.trans b4, a5.trans b5⟩

theorem outerLoop_succ_running (E : Env) (stop : Nat → Bool) (mt : ModelType)
    (params : List FitParameter) (fit : List Nat) (w : ℚ) (maxIter n iter : Nat)
    (st : LMState) (hs : stop iter = false) (hc : converged st = false) :
    outerLoop E stop mt params fit w maxIter (n + 1) iter st =
      if (!(iterationBody E mt params fit w maxIter iter st).2 &&
          decide ((iterationBody E mt params fit w maxIter iter st).1.lambda > 1e10)) = true
      then (iterationBody E mt params fit w maxIter iter st).1
      else outerLoop E stop mt params fit w maxIter n (iter + 1)
        (iterationBody E mt params fit w maxIter iter st).1 := by
  rw [outerLoop]
  simp [hs, hc]

/-- The state in which the loop ends when the first fifteen trials are all rejected. -/
theorem loopResult_all_rejected (E : Env) (stop : Nat → Bool) (mt : ModelType)
    (params : List FitParameter) (w : ℚ)
    (hstop : ∀ i, i < 3 → stop i = false)
    (hconv : converged (initialState E mt params w) = false)
    (hrej : ∀ k, k < 15 →
      ¬ trialSSEAt E mt params (fitIndicesOf params) w (initialNormal E mt params w).1
          (initialNormal E mt params w).2 (initialState E mt params w).currentParamMap
          (0.01 * 10 ^ k) < (initialState E mt params w).currentSSE) :
    Kept (initialState E mt params w) (loopResult E stop mt params w) ∧
      (loopResult E stop mt params w).lambda = 0.01 * 10 ^ 15 ∧
      (loopResult E stop mt params w).nRejected = 15 ∧
      (loopResult E stop mt params w).nIterations = 3 := by
  -- first iteration
  have hk0 : Kept (initialState E mt params w) (initialState E mt params w) :=
    ⟨rfl, rfl, rfl, rfl, rfl⟩
  have hl0 : (initialState E mt params w).lambda = 0.01 := rfl
  obtain ⟨a1, a2, a3, a4, a5⟩ := iterationBody_all_rejected E mt params w 50 0
    (initialState E mt params w) hk0 (by
      intro k hk
      rw [hl0]
      exact hrej k (by omega))
  -- second iteration
  obtain ⟨b1, b2, b3, b4, b5⟩ := iterationBody_all_rejected E mt params w 50 1
    (iterationBody E mt params (fitIndicesOf params) w 50 0 (initialState E mt params w)).1 a2
    (by
      intro k hk
      rw [a3, hl0]
      have := hrej (5 + k) (by omega)
      rw [pow_add] at this
      have e : (0.01 : ℚ) * 10 ^ 5 * 10 ^ k = 0.01 * (10 ^ 5 * 10 ^ k) := by ring
      rw [e]
      exact this)
  -- third iteration
  obtain ⟨c1, c2, c3, c4, c5⟩ := iterationBody_all_rejected E mt params w 50 2
    (iterationBody E mt params (fitIndicesOf params) w 50 1
      (iterationBody E mt params (fitIndicesOf params) w 50 0
        (initialState E mt params w)).1).1 b2
    (by
      intro k hk
      rw [b3, a3, hl0]
      have := hrej (10 + k) (by omega)
      rw [pow_add] at this
      have e : (0.01 : ℚ) * 10 ^ 5 * 10 ^ 5 * 10 ^ k = 0.01 * (10 ^ 10 * 10 ^ k) := by ring
      rw [e]
      exact this)
  have hloop : loopResult E stop mt params w =
      (iterationBody E mt params (fitIndicesOf params) w 50 2
        (iterationBody E mt params (fitIndicesOf params) w 50 1
          (iterationBody E mt params (fitIndicesOf params) w 50 0
            (initialState E mt params w)).1).1).1 := by
    unfold loopResult
    rw [outerLoop_succ_running E stop mt params _ w 50 49 0 _ (hstop 0 (by omega)) hconv]
    have e1 : ¬ ((!(iterationBody E mt params (fitIndicesOf params) w 50 0
        (initialState E mt params w)).2 &&
        decide ((iterationBody E mt params (fitIndicesOf params) w 50 0
          (initialState E mt params w)).1.lambda > 1e10)) = true) := by
      rw [a3, hl0]; norm_num
    rw [if_neg e1]
    rw [outerLoop_succ_running E stop mt params _ w 50 48 1 _ (hstop 1 (by omega))
      (by rw [converged_of_kept _ _ a2]; exact hconv)]
    have e2 : ¬ ((!(iterationBody E mt params (fitIndicesOf params) w 50 1
        (iterationBody E mt params (fitIndicesOf params) w 50 0
          (initialState E mt params w)).1).2 &&
        decide ((iterationBody E mt params (fitIndicesOf params) w 50 1
          (iterationBody E mt params (fitIndicesOf params) w 50 0
            (initialState E mt params w)).1).1.lambda > 1e10)) = true) := by
      rw [b3, a3, hl0]; norm_num
    rw [if_neg e2]
    rw [outerLoop_succ_running E stop mt params _ w 50 47 2 _ (hstop 2 (by omega))
      (by rw [converged_of_kept _ _ b2]; exact hconv)]
    have e3 : (!(iterationBody E mt params (fitIndicesOf params) w 50 2
        (iterationBody E mt params (fitIndicesOf params) w 50 1
          (iterationBody E mt params (fitIndicesOf params) w 50 0
            (initialState E mt params w)).1).1).2 &&
        decide ((iterationBody E mt params (fitIndicesOf params) w 50 2
          (iterationBody E mt params (fitIndicesOf params) w 50 1
            (iterationBody E mt params (fitIndicesOf params) w 50 0
              (initialState E mt params w)).1).1).1.lambda > 1e10)) = true := by
      rw [c1, c3, b3, a3, hl0]; norm_num
    rw [if_pos e3]
  rw [hloop]
  refine ⟨c2, ?_, ?_, ?_⟩
  · rw [c3, b3, a3, hl0]; norm_num
  · rw [c4, b4, a4]; rfl
  · rw [c5, b5, a5]; rfl

/-- Claim C13: when the run is not cancelled at its first three checks, does not start converged,
and each of its first fifteen trials (damping `0.01 * 10 ^ k`, `k < 15`, from the initial
map) fails to lower the SSE, the loop ends after exactly three outer iterations and
fifteen rejected trials with `λ = 0.01 * 10 ^ 15 = 10 ^ 13 > 10 ^ 10`, nothing accepted,
and the reported map is the initial one. -/
theorem C13_exhausted_after_three_iterations (E : Env) (stop : Nat → Bool) (mt : ModelType)
    (params : List FitParameter) (w : ℚ)
    (hfit : ∃ p ∈ params, p.isFit = true)
    (hstop : ∀ i, i < 3 → stop i = false)
    (hconv : converged (initialState E mt params w) = false)
    (hrej : ∀ k, k < 15 →
      ¬ trialSSEAt E mt params (fitIndicesOf params) w (initialNormal E mt params w).1
          (initialNormal E mt params w).2 (initialState E mt params w).currentParamMap
          (0.01 * 10 ^ k) < (initialState E mt params w).currentSSE) :
    jacobianBuilds (runLevenbergMarquardtOptimization E stop mt params w).trace = 3 ∧
    trialSteps (runLevenbergMarquardtOptimization E stop mt params w).trace = 15 ∧
    (loopResult E stop mt params w).nIterations = 3 ∧
    (loopResult E stop mt params w).nRejected = 15 ∧
    (loopResult E stop mt params w).nAccepted = 0 ∧
    (loopResult E stop mt params w).lambda = 0.01 * 10 ^ 15 ∧
    (loopResult E stop mt params w).lambda = 10 ^ 13 ∧
    (loopResult E stop mt params w).lambda > 1e10 ∧
    (loopResult E stop mt params w).currentParamMap =
      (initialState E mt params w).currentParamMap ∧
    reportedMap (runLevenbergMarquardtOptimization E stop mt params w).trace =
      some (initialState E mt params w).currentParamMap := by
  obtain ⟨hk, hl, hr, hi⟩ := loopResult_all_rejected E stop mt params w hstop hconv hrej
  obtain ⟨c1, c2, _, c4⟩ := run_counts E stop mt params w hfit
  have hacc : (loopResult E stop mt params w).nAccepted = 0 := hk.2.2.2.2
  refine ⟨by rw [c1, hi], by rw [c2, hacc, hr], hi, hr, hacc, hl, ?_, ?_, hk.1, ?_⟩
  · rw [hl]; norm_num
  · rw [hl]; norm_num
  · rw [c4, hk.1]

/-- Witness of C13: the scenario of the specification with the parameter-independent model
of `envFlat`. -/
theorem C13_witness :
    jacobianBuilds
        (runLevenbergMarquardtOptimization envFlat neverStop ModelType.Model_1 paramsK 1).trace
      = 3 ∧
    trialSteps
        (runLevenbergMarquardtOptimization envFlat neverStop ModelType.Model_1 paramsK 1).trace
      = 15 ∧
    (loopResult envFlat neverStop ModelType.Model_1 paramsK 1).lambda = 10 ^ 13 ∧
    reportedMap
        (runLevenbergMarquardtOptimization envFlat neverStop ModelType.Model_1 paramsK 1).trace
      = some [("k", 1)] :=
  have h := C13_exhausted_after_three_iterations envFlat neverStop ModelType.Model_1 paramsK 1
    (by decide) (by decide) (by decide!) (by decide!)
  ⟨h.1, h.2.1, h.2.2.2.2.2.2.1, h.2.2.2.2.2.2.2.2.2⟩

/-! ## Zero steps -/

theorem PMap.find_of_contains (m : PMap) (k : String) (h : m.contains k = true) :
    m.find k = some (m.value k) := by
  unfold PMap.contains at h
  unfold PMap.value
  cases hf : m.find k with
  | none => rw [hf] at h; simp at h
  | some v => simp

theorem PMap.contains_insert_of_contains (m : PMap) (k k2 : String) (v : ℚ)
    (h : m.contains k2 = true) : (m.insert k v).contains k2 = true := by
  by_cases hk : k2 = k
  · rw [hk]; exact PMap.contains_insert_self _ _ _
  · rw [PMap.contains_insert_ne _ _ _ _ hk]; exact h

theorem contains_updateDeps (m : PMap) (k : String) (h : m.contains k = true) :
    (updateDeps m).contains k = true := by
  unfold updateDeps
  split
  · exact PMap.contains_insert_of_contains _ _ _ _ h
  · exact h

theorem contains_foldl_insert (params : List FitParameter) :
    ∀ (m : PMap) (k : String),
      (m.contains k = true ∨ ∃ p ∈ params, p.name = k) →
      (params.foldl (fun m p => m.insert p.name p.value) m).contains k = true := by
  induction params with
  | nil =>
    intro m k h
    rcases h with h | ⟨p, hp, _⟩
    · exact h
    · simp at hp
  | cons q rest ih =>
    intro m k h
    simp only [List.foldl_cons]
    apply ih
    rcases h with h | ⟨p, hp, hn⟩
    · left; exact PMap.contains_insert_of_contains _ _ _ _ h
    · rcases List.mem_cons.mp hp with hpq | hpr
      · left; rw [← hn, hpq]; exact PMap.contains_insert_self _ _ _
      · right; exact ⟨p, hpr, hn⟩

theorem contains_trialFold (E : Env) (params : List FitParameter) (fit : List Nat)
    (cur : PMap) (delta : Vec) (k : String) (h : cur.contains k = true) :
    (buildTrialMap E params fit cur delta).contains k = true := by
  unfold buildTrialMap
  apply contains_updateDeps
  apply foldl_range_invariant _ (fun _ (tm : PMap) => tm.contains k = true)
  · exact h
  · intro i tm _ htm
    exact PMap.contains_insert_of_contains _ _ _ _ htm

theorem commitInv_trialStep (E : Env) (mt : ModelType) (params : List FitParameter)
    (fit : List Nat) (w : ℚ) (H : Mat) (g : Vec) (nRes : Nat) (st : LMState)
    (h : CommitInv E mt params fit w st) :
    CommitInv E mt params fit w (trialStep E mt params fit w H g nRes st).1 := by
  unfold trialStep
  simp only
  split
  · refine ⟨?_, rfl, ?_⟩
    · unfold buildTrialMap
      exact updateDeps_idem _
    · intro i hi
      exact contains_trialFold E params fit _ _ _ (h.2.2 i hi)
  · exact h

theorem commitInv_initialState (E : Env) (mt : ModelType) (params : List FitParameter)
    (w : ℚ) : CommitInv E mt params (fitIndicesOf params) w (initialState E mt params w) := by
  refine ⟨updateDeps_idem _, rfl, ?_⟩
  intro i hi
  obtain ⟨p, hp, _, hname⟩ := fitName_mem params i hi
  show (updateDeps (buildParamMap params)).contains _ = true
  apply contains_updateDeps
  unfold buildParamMap
  exact contains_foldl_insert params [] _ (Or.inr ⟨p, hp, hname.symm⟩)

/-- Every state reached by the loop of a run satisfies `CommitInv`. -/
theorem commitInv_outerLoop (E : Env) (stop : Nat → Bool) (mt : ModelType)
    (params : List FitParameter) (w : ℚ) (n : Nat) :
    CommitInv E mt params (fitIndicesOf params) w
      (outerLoop E stop mt params (fitIndicesOf params) w 50 n 0
        (initialState E mt params w)) := by
  apply outerLoop_invariant E stop mt params _ w 50
    (CommitInv E mt params (fitIndicesOf params) w)
  · intro iter st h; exact h
  · intro H g nRes st h; exact commitInv_trialStep E mt params _ w H g nRes st h
  · exact commitInv_initialState E mt params w

theorem clamp_id (lo hi v : ℚ) (h1 : lo ≤ v) (h2 : v ≤ hi) : qMax lo (qMin v hi) = v := by
  unfold qMax qMin
  split <;> split <;> linarith

/-- A zero step that leaves every fit parameter in place reproduces the committed map. -/
theorem buildTrialMap_zero (E : Env) (params : List FitParameter) (fit : List Nat)
    (cur : PMap) (delta : Vec)
    (hfix : updateDeps cur = cur)
    (hkeys : ∀ i, i < fit.length → cur.contains (fitName params fit i) = true)
    (hzero : ∀ i, i < fit.length → delta.getD i 0 = 0)
    (hbounds : ∀ i, i < fit.length → inBounds (params.getD (fit.getD i 0) default) cur)
    (hround : ∀ i, i < fit.length →
      isLogParam (cur.value (fitName params fit i)) (fitName params fit i) = true →
      E.pow10 (E.log10 (cur.value (fitName params fit i))) =
        cur.value (fitName params fit i)) :
    buildTrialMap E params fit cur delta = cur := by
  unfold buildTrialMap
  have hfold : (List.range fit.length).foldl
      (fun trialMap i =>
        trialMap.insert (fitName params fit i) (trialValue E params fit cur delta i))
      cur = cur := by
    apply foldl_range_invariant _ (fun _ (tm : PMap) => tm = cur)
    · rfl
    · intro i tm hi htm
      rw [htm]
      have hv : trialValue E params fit cur delta i = cur.value (fitName params fit i) := by
        unfold trialValue
        simp only [hzero i hi, add_zero]
        have hb := hbounds i hi
        unfold inBounds at hb
        have hname : (params.getD (fit.getD i 0) default).name = fitName params fit i := rfl
        rw [hname] at hb ⊢
        by_cases hlog : isLogParam (cur.value (fitName params fit i)) (fitName params fit i)
            = true
        · rw [if_pos hlog, hround i hi hlog]
          exact clamp_id _ _ _ hb.1 hb.2
        · rw [if_neg hlog]
          exact clamp_id _ _ _ hb.1 hb.2
      rw [hv]
      exact PMap.insert_same _ _ _ (PMap.find_of_contains _ _ (hkeys i hi))
  rw [hfold, hfix]

/-- Claim C14, as amended: when the linear solve returns the all-zero step and that step leaves
every fit parameter in place (its committed value lies within its bounds and, where it is
updated in log space, `pow(10, log10 v)` gives `v` back), the trial map is the committed
map; the trial is rejected, the committed state is unchanged and `λ` is multiplied by 10. -/
theorem C14_zero_step_rejected (E : Env) (mt : ModelType) (params : List FitParameter)
    (fit : List Nat) (w : ℚ) (H : Mat) (g : Vec) (nRes : Nat) (st : LMState)
    (hinv : CommitInv E mt params fit w st)
    (hzero : ∀ i, i < fit.length →
      (solveLinearSystem E (dampedMatrix H st.lambda fit.length) (negG g fit.length)).getD i 0
        = 0)
    (hbounds : ∀ i, i < fit.length →
      inBounds (params.getD (fit.getD i 0) default) st.currentParamMap)
    (hround : ∀ i, i < fit.length →
      isLogParam (st.currentParamMap.value (fitName params fit i)) (fitName params fit i)
        = true →
      E.pow10 (E.log10 (st.currentParamMap.value (fitName params fit i))) =
        st.currentParamMap.value (fitName params fit i)) :
    buildTrialMap E params fit st.currentParamMap
        (solveLinearSystem E (dampedMatrix H st.lambda fit.length) (negG g fit.length)) =
      st.currentParamMap ∧
    (trialStep E mt params fit w H g nRes st).2 = false ∧
    Kept st (trialStep E mt params fit w H g nRes st).1 ∧
    (trialStep E mt params fit w H g nRes st).1.lambda = st.lambda * 10 := by
  have hmap := buildTrialMap_zero E params fit st.currentParamMap
    (solveLinearSystem E (dampedMatrix H st.lambda fit.length) (negG g fit.length))
    hinv.1 hinv.2.2 hzero hbounds hround
  have hrej : ¬ trialSSEAt E mt params fit w H g st.currentParamMap st.lambda <
      st.currentSSE := by
    unfold trialSSEAt
    rw [hmap, ← hinv.2.1]
    exact lt_irrefl _
  obtain ⟨r1, r2, r3, _, _⟩ := trialStep_rejected E mt params fit w H g nRes st hrej
  exact ⟨hmap, r1, r2, r3⟩

/-- Witness of C14: the first trial of the run on `envFlat`, whose gradient vanishes. -/
theorem C14_witness :
    (trialStep envFlat ModelType.Model_1 paramsK (fitIndicesOf paramsK) 1
        (initialNormal envFlat ModelType.Model_1 paramsK 1).1
        (initialNormal envFlat ModelType.Model_1 paramsK 1).2 4
        (initialState envFlat ModelType.Model_1 paramsK 1)).2 = false ∧
    (trialStep envFlat ModelType.Model_1 paramsK (fitIndicesOf paramsK) 1
        (initialNormal envFlat ModelType.Model_1 paramsK 1).1
        (initialNormal envFlat ModelType.Model_1 paramsK 1).2 4
        (initialState envFlat ModelType.Model_1 paramsK 1)).1.lambda =
      (initialState envFlat ModelType.Model_1 paramsK 1).lambda * 10 :=
  have h := C14_zero_step_rejected envFlat ModelType.Model_1 paramsK (fitIndicesOf paramsK) 1
    (initialNormal envFlat ModelType.Model_1 paramsK 1).1
    (initialNormal envFlat ModelType.Model_1 paramsK 1).2 4
    (initialState envFlat ModelType.Model_1 paramsK 1)
    (commitInv_initialState envFlat ModelType.Model_1 paramsK 1)
    (by decide!) (by decide!) (by decide!)
  ⟨h.2.1, h.2.2.2⟩

/-- Counterexample to C14 as stated: on `envBowl` the Jacobian at `S = 1` vanishes, the solve
returns the zero step, but `S = 1` lies below its bounds `[2, 10]`; the clamp moves the
trial to `S = 2`, where the model matches the data, and the trial is accepted. -/
theorem C14_counterexample :
    solveLinearSystem envBowl
        (dampedMatrix (initialNormal envBowl ModelType.Model_1 paramsBelow 1).1
          (initialState envBowl ModelType.Model_1 paramsBelow 1).lambda 1)
        (negG (initialNormal envBowl ModelType.Model_1 paramsBelow 1).2 1) = [0] ∧
    (initialState envBowl ModelType.Model_1 paramsBelow 1).currentParamMap = [("S", 1)] ∧
    (trialStep envBowl ModelType.Model_1 paramsBelow (fitIndicesOf paramsBelow) 1
        (initialNormal envBowl ModelType.Model_1 paramsBelow 1).1
        (initialNormal envBowl ModelType.Model_1 paramsBelow 1).2 2
        (initialState envBowl ModelType.Model_1 paramsBelow 1)).2 = true ∧
    (trialStep envBowl ModelType.Model_1 paramsBelow (fitIndicesOf paramsBelow) 1
        (initialNormal envBowl ModelType.Model_1 paramsBelow 1).1
        (initialNormal envBowl ModelType.Model_1 paramsBelow 1).2 2
        (initialState envBowl ModelType.Model_1 paramsBelow 1)).1.currentParamMap
      = [("S", 2)] ∧
    (trialStep envBowl ModelType.Model_1 paramsBelow (fitIndicesOf paramsBelow) 1
        (initialNormal envBowl ModelType.Model_1 paramsBelow 1).1
        (initialNormal envBowl ModelType.Model_1 paramsBelow 1).2 2
        (initialState envBowl ModelType.Model_1 paramsBelow 1)).1.lambda = 0.01 / 10 ∧
    acceptedMaps
        (runLevenbergMarquardtOptimization envBowl neverStop ModelType.Model_1 paramsBelow 1)
      = [[("S", 2)]] := by
  decide!

/-! ## Rejected requests and unchecked lengths -/

/-- Claim C15, as amended: a click while a run is active, or while no observed data is loaded,
starts no task and leaves the widget (fitting flag, stop flag, parameter list) as it was;
the warning box is shown exactly when the widget is idle and has no observed data, a
click during an active run returns silently. -/
theorem C15_rejected_click (wd : Widget)
    (hrej : wd.m_isFitting = true ∨ wd.env.m_obsTime = []) :
    (on_btnRunFit_clicked wd).started = none ∧
    (on_btnRunFit_clicked wd).widget.m_isFitting = wd.m_isFitting ∧
    (on_btnRunFit_clicked wd).widget.m_stopRequested = wd.m_stopRequested ∧
    (on_btnRunFit_clicked wd).widget.params = wd.params ∧
    (on_btnRunFit_clicked wd).widget.btnRunFitEnabled = wd.btnRunFitEnabled ∧
    ((on_btnRunFit_clicked wd).warningShown = true ↔ wd.m_isFitting = false) := by
  unfold on_btnRunFit_clicked
  by_cases hf : wd.m_isFitting = true
  · simp [hf]
  · have hobs : wd.env.m_obsTime = [] := by
      rcases hrej with h | h
      · exact absurd h hf
      · exact h
    simp [hf, hobs]

/-- Witness of C15: a click on the widget without observed data shows the warning and starts
nothing. -/
theorem C15_witness :
    (on_btnRunFit_clicked widgetNoData).started = none ∧
    (on_btnRunFit_clicked widgetNoData).warningShown = true :=
  have h := C15_rejected_click widgetNoData (Or.inr rfl)
  ⟨h.1, h.2.2.2.2.2.mpr rfl⟩

/-- Counterexample to C15 as stated: a click while a run is active starts nothing, but shows no
warning: the rejection is not signalled. -/
theorem C15_counterexample :
    widgetBusy.m_isFitting = true ∧
    (on_btnRunFit_clicked widgetBusy).started = none ∧
    (on_btnRunFit_clicked widgetBusy).warningShown = false := by
  decide

theorem loop_monotone (E : Env) (stop : Nat → Bool) (mt : ModelType)
    (params : List FitParameter) (fit : List Nat) (w : ℚ) (maxIter a b : Nat) :
    ∀ (n iter : Nat) (st : LMState),
      (a ≤ st.nIterations ∧ b ≤ st.nAccepted + st.nRejected) →
      a ≤ (outerLoop E stop mt params fit w maxIter n iter st).nIterations ∧
        b ≤ (outerLoop E stop mt params fit w maxIter n iter st).nAccepted +
          (outerLoop E stop mt params fit w maxIter n iter st).nRejected := by
  apply outerLoop_invariant E stop mt params fit w maxIter
    (fun st => a ≤ st.nIterations ∧ b ≤ st.nAccepted + st.nRejected)
  · intro iter st h
    exact ⟨by simp only [beginIteration]; omega, by simp only [beginIteration]; exact h.2⟩
  · intro H g nRes st h
    have hc := trialStep_counters E mt params fit w H g nRes st
    exact ⟨by rw [hc.1]; exact h.1, by omega⟩

theorem trialLoop_at_least_one (E : Env) (mt : ModelType) (params : List FitParameter)
    (fit : List Nat) (w : ℚ) (H : Mat) (g : Vec) (nRes : Nat) (n : Nat) (st : LMState) :
    st.nAccepted + st.nRejected + 1 ≤
      (trialLoop E mt params fit w H g nRes (n + 1) st).1.nAccepted +
        (trialLoop E mt params fit w H g nRes (n + 1) st).1.nRejected := by
  have hc := trialStep_counters E mt params fit w H g nRes st
  rw [trialLoop]
  split
  · omega
  · apply trialLoop_invariant E mt params fit w
      (fun s => st.nAccepted + st.nRejected + 1 ≤ s.nAccepted + s.nRejected) H g nRes
    · intro s hs
      have := trialStep_counters E mt params fit w H g nRes s
      omega
    · omega

/-- A run that is not stopped at its first check and does not start converged builds a Jacobian
and makes a trial. -/
theorem first_iteration_runs (E : Env) (stop : Nat → Bool) (mt : ModelType)
    (params : List FitParameter) (w : ℚ)
    (hstop : stop 0 = false) (hconv : converged (initialState E mt params w) = false) :
    1 ≤ (loopResult E stop mt params w).nIterations ∧
      1 ≤ (loopResult E stop mt params w).nAccepted +
        (loopResult E stop mt params w).nRejected := by
  have hb := iterationBody_bounds E mt params (fitIndicesOf params) w 50 0
    (initialState E mt params w)
  have ht : 1 ≤ (iterationBody E mt params (fitIndicesOf params) w 50 0
        (initialState E mt params w)).1.nAccepted +
      (iterationBody E mt params (fitIndicesOf params) w 50 0
        (initialState E mt params w)).1.nRejected := by
    unfold iterationBody
    have := trialLoop_at_least_one E mt params (fitIndicesOf params) w
      (normalEquations (computeJacobian E false (initialState E mt params w).currentParamMap
        (initialState E mt params w).residuals (fitIndicesOf params) mt params w)
        (initialState E mt params w).residuals (fitIndicesOf params).length).1
      (normalEquations (computeJacobian E false (initialState E mt params w).currentParamMap
        (initialState E mt params w).residuals (fitIndicesOf params) mt params w)
        (initialState E mt params w).residuals (fitIndicesOf params).length).2
      (initialState E mt params w).residuals.length 4
      (beginIteration E params (fitIndicesOf params) 50 0 (initialState E mt params w))
    exact le_trans (Nat.le_add_left 1 _) this
  have hi : 1 ≤ (iterationBody E mt params (fitIndicesOf params) w 50 0
      (initialState E mt params w)).1.nIterations := by
    rw [hb.1]; omega
  unfold loopResult
  rw [outerLoop_succ_running E stop mt params _ w 50 49 0 _ hstop hconv]
  split
  · exact ⟨hi, ht⟩
  · exact loop_monotone E stop mt params _ w 50 1 1 49 1 _ ⟨hi, ht⟩

/-! ## The residual vector -/

theorem channelResiduals_length (E : Env) (obs cal : Vec) (count : Nat) (w : ℚ) :
    (channelResiduals E obs cal count w).length = count := by
  simp [channelResiduals]

theorem channelResiduals_getElem? (E : Env) (obs cal : Vec) (count : Nat) (w : ℚ) (i : Nat)
    (hi : i < count) :
    (channelResiduals E obs cal count w)[i]? =
      some (residualEntry E (obs.getD i 0) (cal.getD i 0) w) := by
  simp [channelResiduals, residualEntry, List.getElem?_map, List.getElem?_range hi]

theorem calculateResiduals_eq (E : Env) (hp : Bool) (params : PMap) (mt : ModelType)
    (weight : ℚ) (hobs : E.m_obsTime ≠ []) :
    calculateResiduals E hp params mt weight =
      channelResiduals E E.m_obsDeltaP
          (E.calculateTheoreticalCurve hp mt params E.m_obsTime).p
          (primaryCount E (E.calculateTheoreticalCurve hp mt params E.m_obsTime)) weight ++
        channelResiduals E E.m_obsDerivative
          (E.calculateTheoreticalCurve hp mt params E.m_obsTime).dp
          (derivativeCount E (E.calculateTheoreticalCurve hp mt params E.m_obsTime))
          (1 - weight) := by
  have h : E.m_obsTime.isEmpty = false := by
    cases ht : E.m_obsTime with
    | nil => exact absurd ht hobs
    | cons a l => rfl
  simp [calculateResiduals, h, primaryCount, derivativeCount]

theorem calculateResiduals_length (E : Env) (hp : Bool) (params : PMap) (mt : ModelType)
    (weight : ℚ) :
    (calculateResiduals E hp params mt weight).length =
      if E.m_obsTime.isEmpty then 0
      else primaryCount E (E.calculateTheoreticalCurve hp mt params E.m_obsTime) +
        derivativeCount E (E.calculateTheoreticalCurve hp mt params E.m_obsTime) := by
  by_cases h : E.m_obsTime = []
  · simp [calculateResiduals, h]
  · have h2 : E.m_obsTime.isEmpty = false := by
      cases ht : E.m_obsTime with
      | nil => exact absurd ht h
      | cons a l => rfl
    rw [calculateResiduals_eq E hp params mt weight h, h2]
    simp [channelResiduals_length]

/-- Claim C16, as amended: the lengths of the predicted curves are never checked.  The initial
residual vector covers the common prefix of each channel, and a run with a fit-enabled
parameter that is neither stopped at its first check nor converged at the start builds a
Jacobian and makes a trial, whatever lengths the model evaluator returns. -/
theorem C16_lengths_not_checked (E : Env) (stop : Nat → Bool) (mt : ModelType)
    (params : List FitParameter) (w : ℚ)
    (hfit : ∃ p ∈ params, p.isFit = true) (hstop : stop 0 = false)
    (hconv : converged (initialState E mt params w) = false) :
    1 ≤ jacobianBuilds (runLevenbergMarquardtOptimization E stop mt params w).trace ∧
    1 ≤ trialSteps (runLevenbergMarquardtOptimization E stop mt params w).trace ∧
    (initialState E mt params w).residuals.length =
      (if E.m_obsTime.isEmpty then 0
       else primaryCount E (E.calculateTheoreticalCurve false mt
              (initialState E mt params w).currentParamMap E.m_obsTime) +
            derivativeCount E (E.calculateTheoreticalCurve false mt
              (initialState E mt params w).currentParamMap E.m_obsTime)) := by
  obtain ⟨c1, c2, _, _⟩ := run_counts E stop mt params w hfit
  obtain ⟨h1, h2⟩ := first_iteration_runs E stop mt params w hstop hconv
  refine ⟨by rw [c1]; exact h1, by rw [c2]; exact h2, ?_⟩
  exact calculateResiduals_length E false _ mt w

/-- Witness of C16: the run on `envShort`, whose model returns one predicted sample for two
observed ones. -/
theorem C16_witness :
    1 ≤ jacobianBuilds
        (runLevenbergMarquardtOptimization envShort neverStop ModelType.Model_1 paramsSkin
          1).trace ∧
    1 ≤ trialSteps
        (runLevenbergMarquardtOptimization envShort neverStop ModelType.Model_1 paramsSkin
          1).trace :=
  have h := C16_lengths_not_checked envShort neverStop ModelType.Model_1 paramsSkin 1
    (by decide) rfl (by decide!)
  ⟨h.1, h.2.1⟩

/-- Counterexample to C16 as stated: on `envShort` the model returns one predicted pressure for
two observed ones; the run is not rejected, it builds Jacobians, makes trials and commits
two changed values of `S`. -/
theorem C16_counterexample :
    (envShort.calculateTheoreticalCurve false ModelType.Model_1
        (initialState envShort ModelType.Model_1 paramsSkin 1).currentParamMap
        envShort.m_obsTime).p.length = 1 ∧
    envShort.m_obsDeltaP.length = 2 ∧
    jacobianBuilds
        (runLevenbergMarquardtOptimization envShort neverStop ModelType.Model_1 paramsSkin
          1).trace = 2 ∧
    trialSteps
        (runLevenbergMarquardtOptimization envShort neverStop ModelType.Model_1 paramsSkin
          1).trace = 2 ∧
    (acceptedMaps
        (runLevenbergMarquardtOptimization envShort neverStop ModelType.Model_1 paramsSkin
          1)).length = 2 := by
  decide!

/-- Claim C17, evaluated at the failing input: the run on a parameter list without fit-enabled
parameter switches the model manager to low precision and returns without switching it
back. -/
theorem C17_precision_left_low :
    (runLevenbergMarquardtOptimization envFlat neverStop ModelType.Model_1 paramsFixed 1).trace =
      [Event.setHighPrecision false, Event.invokeOnFitFinished] ∧
    finalPrecision
        (runLevenbergMarquardtOptimization envFlat neverStop ModelType.Model_1 paramsFixed
          1).trace = some false := by
  decide!

/-- Claim C18: when observed times are loaded, the residual vector consists of the primary
entries followed by the derivative entries; entry `i` of the primary part is the weighted
log difference of observed and predicted pressure when both exceed `1e-10` and zero
otherwise, entry `i` of the derivative part is the same with the derivative samples and
the weight `1 - weight`. -/
theorem C18_residual_entries (E : Env) (hp : Bool) (params : PMap) (mt : ModelType)
    (weight : ℚ) (hobs : E.m_obsTime ≠ []) :
    (∀ i, i < primaryCount E (E.calculateTheoreticalCurve hp mt params E.m_obsTime) →
      (calculateResiduals E hp params mt weight)[i]? =
        some (residualEntry E (E.m_obsDeltaP.getD i 0)
          ((E.calculateTheoreticalCurve hp mt params E.m_obsTime).p.getD i 0) weight)) ∧
    (∀ i, i < derivativeCount E (E.calculateTheoreticalCurve hp mt params E.m_obsTime) →
      (calculateResiduals E hp params mt weight)[
          primaryCount E (E.calculateTheoreticalCurve hp mt params E.m_obsTime) + i]? =
        some (residualEntry E (E.m_obsDerivative.getD i 0)
          ((E.calculateTheoreticalCurve hp mt params E.m_obsTime).dp.getD i 0)
          (1 - weight))) ∧
    (calculateResiduals E hp params mt weight).length =
      primaryCount E (E.calculateTheoreticalCurve hp mt params E.m_obsTime) +
        derivativeCount E (E.calculateTheoreticalCurve hp mt params E.m_obsTime) := by
  rw [calculateResiduals_eq E hp params mt weight hobs]
  refine ⟨?_, ?_, ?_⟩
  · intro i hi
    rw [List.getElem?_append_left (by rw [channelResiduals_length]; exact hi)]
    exact channelResiduals_getElem? E _ _ _ _ i hi
  · intro i hi
    rw [List.getElem?_append_right (by rw [channelResiduals_length]; omega)]
    rw [channelResiduals_length, Nat.add_sub_cancel_left]
    exact channelResiduals_getElem? E _ _ _ _ i hi
  · simp [channelResiduals_length]

/-- Witness of C18: the residuals of `envGap`, whose first observed pressure is `0`: the first
entry is `0`, the second is the log difference of `2` and `1`. -/
theorem C18_witness :
    (calculateResiduals envGap false [] ModelType.Model_1 1)[0]? = some 0 ∧
    (calculateResiduals envGap false [] ModelType.Model_1 1)[1]? =
      some ((exLog 2 - exLog 1) * 1) :=
  have h := C18_residual_entries envGap false [] ModelType.Model_1 1 (by decide)
  ⟨(h.1 0 (by decide)).trans (by decide!), (h.1 1 (by decide)).trans (by decide!)⟩

/-- Claim C19, as amended: the residual vector has one entry for every index below the common
length of each channel, valid sample or not (an invalid sample contributes the entry `0`):
its length is `min(|obsP|, |predP|)` plus `min(|obsD|, |predD|, min(|obsP|, |predP|))`,
and it is empty when no observed time is loaded. -/
theorem C19_residual_length (E : Env) (hp : Bool) (params : PMap) (mt : ModelType)
    (weight : ℚ) :
    (calculateResiduals E hp params mt weight).length =
      (if E.m_obsTime.isEmpty then 0
       else Nat.min E.m_obsDeltaP.length
              (E.calculateTheoreticalCurve hp mt params E.m_obsTime).p.length +
            Nat.min (Nat.min E.m_obsDerivative.length
                (E.calculateTheoreticalCurve hp mt params E.m_obsTime).dp.length)
              (Nat.min E.m_obsDeltaP.length
                (E.calculateTheoreticalCurve hp mt params E.m_obsTime).p.length)) ∧
    validCount E.m_obsDeltaP (E.calculateTheoreticalCurve hp mt params E.m_obsTime).p
        (primaryCount E (E.calculateTheoreticalCurve hp mt params E.m_obsTime)) ≤
      primaryCount E (E.calculateTheoreticalCurve hp mt params E.m_obsTime) ∧
    validCount E.m_obsDerivative (E.calculateTheoreticalCurve hp mt params E.m_obsTime).dp
        (derivativeCount E (E.calculateTheoreticalCurve hp mt params E.m_obsTime)) ≤
      derivativeCount E (E.calculateTheoreticalCurve hp mt params E.m_obsTime) := by
  refine ⟨calculateResiduals_length E hp params mt weight, ?_, ?_⟩
  · unfold validCount
    exact le_trans (List.length_filter_le _ _) (by simp)
  · unfold validCount
    exact le_trans (List.length_filter_le _ _) (by simp)

/-- Counterexample to C19 as stated: on `envGap` the first observed pressure is `0`, so one
primary sample is valid and no derivative sample exists, yet the residual vector has two
entries. -/
theorem C19_counterexample :
    validCount envGap.m_obsDeltaP
        (envGap.calculateTheoreticalCurve false ModelType.Model_1 [] envGap.m_obsTime).p
        (primaryCount envGap
          (envGap.calculateTheoreticalCurve false ModelType.Model_1 [] envGap.m_obsTime)) = 1 ∧
    validCount envGap.m_obsDerivative
        (envGap.calculateTheoreticalCurve false ModelType.Model_1 [] envGap.m_obsTime).dp
        (derivativeCount envGap
          (envGap.calculateTheoreticalCurve false ModelType.Model_1 [] envGap.m_obsTime)) = 0 ∧
    (calculateResiduals envGap false [] ModelType.Model_1 1)[0]? = some 0 ∧
    (calculateResiduals envGap false [] ModelType.Model_1 1).length = 2 := by
  decide!

/-! ## The normal equations against their reference definition -/

theorem referenceH_zero (J : Mat) (i j : Nat) : referenceH J 0 i j = 0 := by
  simp [referenceH]

theorem referenceH_succ (J : Mat) (m i j : Nat) :
    referenceH J (m + 1) i j = referenceH J m i j + mget J m i * mget J m j := by
  simp [referenceH, List.range_succ]

theorem gradientSum_zero (J : Mat) (r : Vec) (i : Nat) : gradientSum J r 0 i = 0 := by
  simp [gradientSum]

theorem gradientSum_succ (J : Mat) (r : Vec) (m i : Nat) :
    gradientSum J r (m + 1) i = gradientSum J r m i + mget J m i * r.getD m 0 := by
  simp [gradientSum, List.range_succ]

theorem referenceH_comm (J : Mat) (m i j : Nat) : referenceH J m i j = referenceH J m j i := by
  unfold referenceH
  congr 1
  apply List.map_congr_left
  intro k _
  ring

theorem mget_replicate_zero (r c a b : Nat) :
    mget (List.replicate r (List.replicate c (0 : ℚ))) a b = 0 := by
  unfold mget
  simp only [List.getD_eq_getElem?_getD, List.getElem?_replicate]
  by_cases ha : a < r
  · simp only [ha, if_true, Option.getD_some, List.getElem?_replicate]
    by_cases hb : b < c <;> simp [hb]
  · simp [ha]

theorem getD_replicate_zero (n a : Nat) : (List.replicate n (0 : ℚ)).getD a 0 = 0 := by
  simp only [List.getD_eq_getElem?_getD, List.getElem?_replicate]
  by_cases ha : a < n <;> simp [ha]

/-- The innermost loop of the accumulation, for row `i` and residual row `k`: the entries
`H[i][b]`, `b < m`, each receive `J[k][i] * J[k][b]`. -/
theorem accumulate_row {M : Mat} {n : Nat} (hM : HasDims M n n) (J : Mat) (k i : Nat)
    (hi : i < n) (m : Nat) (hm : m ≤ i + 1) :
    HasDims ((List.range m).foldl
        (fun H j => mset H i j (mget H i j + mget J k i * mget J k j)) M) n n ∧
    ∀ a b, mget ((List.range m).foldl
        (fun H j => mset H i j (mget H i j + mget J k i * mget J k j)) M) a b =
      if a = i ∧ b < m then mget M i b + mget J k i * mget J k b else mget M a b := by
  have key := foldl_range_invariant
    (fun (H : Mat) j => mset H i j (mget H i j + mget J k i * mget J k j))
    (fun m' (H : Mat) => m' ≤ i + 1 → (HasDims H n n ∧ ∀ a b, mget H a b =
      if a = i ∧ b < m' then mget M i b + mget J k i * mget J k b else mget M a b))
    M m
    (by
      intro _
      refine ⟨hM, fun a b => ?_⟩
      rw [if_neg]; omega)
    (by
      intro j H hj hH hle
      obtain ⟨hd, hv⟩ := hH (by omega)
      refine ⟨hd.mset _ _ _, fun a b => ?_⟩
      rw [mget_mset_dims hd, hv i j, hv a b]
      have h1 : ¬ (i = i ∧ j < j) := by omega
      rw [if_neg h1]
      by_cases hc : a = i ∧ b = j ∧ i < n ∧ j < n
      · obtain ⟨ha, hb, _, _⟩ := hc
        subst ha hb
        rw [if_pos ⟨rfl, rfl, hi, by omega⟩, if_pos ⟨rfl, by omega⟩]
      · rw [if_neg hc]
        by_cases hc2 : a = i ∧ b < j
        · rw [if_pos hc2, if_pos ⟨hc2.1, by omega⟩]
        · rw [if_neg hc2, if_neg]
          intro hc3
          apply hc
          exact ⟨hc3.1, by omega, hi, by omega⟩)
  exact key hm

/-- The state of the accumulation after the residual rows below `m`. -/
theorem accumulateNormal_spec (J : Mat) (r : Vec) (n : Nat) :
    HasDims (accumulateNormal J r n).1 n n ∧ (accumulateNormal J r n).2.length = n ∧
    (∀ a b, b ≤ a → a < n → mget (accumulateNormal J r n).1 a b = referenceH J r.length a b) ∧
    (∀ a, a < n → (accumulateNormal J r n).2.getD a 0 = gradientSum J r r.length a) := by
  unfold accumulateNormal
  apply foldl_range_invariant _
    (fun m (s : Mat × Vec) => HasDims s.1 n n ∧ s.2.length = n ∧
      (∀ a b, b ≤ a → a < n → mget s.1 a b = referenceH J m a b) ∧
      (∀ a, a < n → s.2.getD a 0 = gradientSum J r m a))
  · refine ⟨hasDims_replicate n n, by simp, ?_, ?_⟩
    · intro a b _ _
      rw [mget_replicate_zero, referenceH_zero]
    · intro a _
      rw [getD_replicate_zero, gradientSum_zero]
  · intro k s _ hs
    obtain ⟨hd0, hl0, hH0, hg0⟩ := hs
    have key := foldl_range_invariant
      (fun (Hg : Mat × Vec) i =>
        ((List.range (i + 1)).foldl
            (fun H j => mset H i j (mget H i j + mget J k i * mget J k j)) Hg.1,
          Hg.2.set i (Hg.2.getD i 0 + mget J k i * r.getD k 0)))
      (fun i (t : Mat × Vec) => HasDims t.1 n n ∧ t.2.length = n ∧
        (∀ a b, b ≤ a → a < n → mget t.1 a b =
          if a < i then referenceH J (k + 1) a b else referenceH J k a b) ∧
        (∀ a, a < n → t.2.getD a 0 =
          if a < i then gradientSum J r (k + 1) a else gradientSum J r k a))
      s n
      ⟨hd0, hl0, fun a b hba han => by rw [if_neg (by omega)]; exact hH0 a b hba han,
        fun a han => by rw [if_neg (by omega)]; exact hg0 a han⟩
      (by
        intro i t hi ht
        obtain ⟨hd, hl, hH, hg⟩ := ht
        obtain ⟨rd, rv⟩ := accumulate_row hd J k i hi (i + 1) (le_refl _)
        refine ⟨rd, by simp [hl], ?_, ?_⟩
        · intro a b hba han
          simp only
          rw [rv a b]
          by_cases hai : a = i
          · subst hai
            rw [if_pos ⟨rfl, by omega⟩, if_pos (by omega), hH a b hba han,
              if_neg (by omega), referenceH_succ]
          · rw [if_neg (fun h => hai h.1), hH a b hba han]
            by_cases hlt : a < i
            · rw [if_pos hlt, if_pos (by omega)]
            · rw [if_neg hlt, if_neg (by omega)]
        · intro a han
          simp only
          rw [getD_set]
          by_cases hai : a = i
          · subst hai
            rw [if_pos ⟨rfl, by omega⟩, if_pos (by omega), hg a han, if_neg (by omega),
              gradientSum_succ]
          · rw [if_neg (fun h => hai h.1), hg a han]
            by_cases hlt : a < i
            · rw [if_pos hlt, if_pos (by omega)]
            · rw [if_neg hlt, if_neg (by omega)])
    obtain ⟨kd, kl, kH, kg⟩ := key
    refine ⟨kd, kl, ?_, ?_⟩
    · intro a b hba han
      rw [kH a b hba han, if_pos han]
    · intro a han
      rw [kg a han, if_pos han]

/-- Claim C20: for every Jacobian, residual vector and number of fit parameters, every entry
`H[i][j]` of the assembled matrix, mirrored upper triangle included, is the sum over the
residual rows of `J[k][i] * J[k][j]`, and every entry `g[i]` of the assembled vector is
the sum of `J[k][i] * r[k]`. -/
theorem C20_normal_equations_reference (J : Mat) (r : Vec) (nParams i j : Nat)
    (hi : i < nParams) (hj : j < nParams) :
    mget (normalEquations J r nParams).1 i j = referenceH J r.length i j ∧
      (normalEquations J r nParams).2.getD i 0 = referenceG J r i := by
  obtain ⟨hd, _, hH, hg⟩ := accumulateNormal_spec J r nParams
  unfold normalEquations
  simp only
  refine ⟨?_, hg i hi⟩
  rw [(mirrorUpper_spec hd).2 i j]
  by_cases hlt : i < j ∧ j < nParams
  · rw [if_pos hlt, hH j i (by omega) hj, referenceH_comm]
  · rw [if_neg hlt, hH i j (by omega) hi]

/-- Witness of C20: for the Jacobian with rows `[1, 2]` and `[3, 4]` and residuals `[1, 1]`,
the mirrored entry `H[0][1]` is `1 * 2 + 3 * 4` and `g[0]` is `1 * 1 + 3 * 1`. -/
theorem C20_witness :
    mget (normalEquations [[1, 2], [3, 4]] [1, 1] 2).1 0 1 = 14 ∧
      (normalEquations [[1, 2], [3, 4]] [1, 1] 2).2.getD 0 0 = 4 :=
  have h := C20_normal_equations_reference [[1, 2], [3, 4]] [1, 1] 2 0 1 (by decide) (by decide)
  ⟨h.1.trans (by decide!), h.2.trans (by decide!)⟩

/-! ## Supporting facts: precision mode and perfect fits -/

theorem finalPrecision_append (a b : List Event) (x : Bool)
    (hb : finalPrecision b = some x) : finalPrecision (a ++ b) = some x := by
  induction a with
  | nil => exact hb
  | cons e rest ih =>
    have ih2 : finalPrecision (rest.append b) = some x := ih
    cases e <;> simp only [List.cons_append, finalPrecision, ih2]

/-- A run that goes through the loop leaves the model manager in high precision. -/
theorem finalPrecision_fit_run (E : Env) (stop : Nat → Bool) (mt : ModelType)
    (params : List FitParameter) (w : ℚ) (hfit : ∃ p ∈ params, p.isFit = true) :
    finalPrecision (runLevenbergMarquardtOptimization E stop mt params w).trace = some true := by
  have hinv : LoopInv (loopResult E stop mt params w) := loopInv_outerLoop E stop mt params w 50
  rw [run_trace E stop mt params w hfit]
  simp only [finish_trace E mt _ hinv.1]
  exact finalPrecision_append _ _ true rfl

/-- A run without fit-enabled parameter leaves the model manager in low precision. -/
theorem finalPrecision_no_fit_run (E : Env) (stop : Nat → Bool) (mt : ModelType)
    (params : List FitParameter) (w : ℚ) (hnone : ∀ p ∈ params, p.isFit = false) :
    finalPrecision (runLevenbergMarquardtOptimization E stop mt params w).trace =
      some false := by
  have h0 : (fitIndicesOf params).length = 0 := by
    rw [(fitIndicesOf_eq_nil_iff params).mpr hnone]; rfl
  rw [run_no_fit E stop mt params w h0]
  rfl

theorem channelResiduals_same (E : Env) (obs : Vec) (count : Nat) (w : ℚ) :
    ∀ x ∈ channelResiduals E obs obs count w, x = 0 := by
  intro x hx
  simp only [channelResiduals, List.mem_map, List.mem_range] at hx
  obtain ⟨i, _, rfl⟩ := hx
  split <;> simp

theorem sse_of_zeros (l : Vec) (h : ∀ x ∈ l, x = 0) : calculateSumSquaredError l = 0 := by
  unfold calculateSumSquaredError
  induction l with
  | nil => rfl
  | cons a rest ih =>
    have ha : a = 0 := h a (List.mem_cons_self _ _)
    simp only [List.foldl_cons, ha, mul_zero, add_zero]
    exact ih (fun x hx => h x (List.mem_cons_of_mem _ hx))

/-- When the model reproduces the observed data at the starting parameters, every initial
residual is zero and a run that has residuals passes the convergence test at once. -/
theorem perfect_fit_converged (E : Env) (mt : ModelType) (params : List FitParameter) (w : ℚ)
    (hp : (E.calculateTheoreticalCurve false mt (updateDeps (buildParamMap params))
      E.m_obsTime).p = E.m_obsDeltaP)
    (hd : (E.calculateTheoreticalCurve false mt (updateDeps (buildParamMap params))
      E.m_obsTime).dp = E.m_obsDerivative)
    (hne : (initialState E mt params w).residuals ≠ []) :
    (initialState E mt params w).currentSSE = 0 ∧
      converged (initialState E mt params w) = true := by
  have hz : ∀ x ∈ (initialState E mt params w).residuals, x = 0 := by
    intro x hx
    simp only [initialState, calculateResiduals] at hx
    split at hx
    · simp at hx
    · simp only [hp, hd, List.mem_append] at hx
      rcases hx with hx | hx
      · exact channelResiduals_same E _ _ _ x hx
      · exact channelResiduals_same E _ _ _ x hx
  have hs : (initialState E mt params w).currentSSE = 0 := sse_of_zeros _ hz
  refine ⟨hs, ?_⟩
  unfold converged
  have h1 : (initialState E mt params w).residuals.isEmpty = false := by
    cases hr : (initialState E mt params w).residuals with
    | nil => exact absurd hr hne
    | cons a l => rfl
  rw [h1, hs]
  norm_num

/-! ## The trial value -/

theorem qMin_eq_min (a b : ℚ) : qMin a b = min a b := by
  unfold qMin
  split
  · rename_i h; exact (min_eq_left (le_of_lt h)).symm
  · rename_i h; exact (min_eq_right (le_of_not_lt h)).symm

theorem qMax_eq_max (a b : ℚ) : qMax a b = max a b := by
  unfold qMax
  split
  · rename_i h; exact (max_eq_right (le_of_lt h)).symm
  · rename_i h; exact (max_eq_left (le_of_not_lt h)).symm

theorem isLogParam_iff (val : ℚ) (pName : String) :
    isLogParam val pName = true ↔ val > 1e-12 ∧ pName ≠ "S" ∧ pName ≠ "nf" := by
  unfold isLogParam
  simp [and_assoc]

theorem trialValue_eq (E : Env) (params : List FitParameter) (fit : List Nat) (cur : PMap)
    (delta : Vec) (i : Nat) :
    trialValue E params fit cur delta i =
      clampSpec (params.getD (fit.getD i 0) default).min
        (params.getD (fit.getD i 0) default).max
        (steppedValue E (fitName params fit i) (cur.value (fitName params fit i))
          (delta.getD i 0)) := by
  unfold trialValue clampSpec steppedValue fitName
  simp only [qMax_eq_max, qMin_eq_min]
  by_cases h : isLogParam (cur.value (params.getD (fit.getD i 0) default).name)
      (params.getD (fit.getD i 0) default).name = true
  · rw [if_pos h, if_pos ((isLogParam_iff _ _).mp h)]
  · rw [if_neg h, if_neg (fun hc => h ((isLogParam_iff _ _).mpr hc))]

/-- Claim C23: the trial value of fit parameter `i` is the clamp `max(min_i, min(x, max_i))` of
`x = 10^(log10(old) + δ_i)` when the committed value `old` exceeds `1e-12` and the name is
neither `S` nor `nf`, and of `x = old + δ_i` otherwise; it is the value the trial map holds
for a fit parameter whose name is not `LfD` and is borne by no later fit parameter; and
whenever `min_i ≤ max_i` it lies in `[min_i, max_i]`. -/
theorem C23_trial_value (E : Env) (params : List FitParameter) (fit : List Nat) (cur : PMap)
    (delta : Vec) (i : Nat) :
    trialValue E params fit cur delta i =
        clampSpec (params.getD (fit.getD i 0) default).min
          (params.getD (fit.getD i 0) default).max
          (steppedValue E (fitName params fit i) (cur.value (fitName params fit i))
            (delta.getD i 0)) ∧
      (i < fit.length → fitName params fit i ≠ "LfD" →
        (∀ j, i < j → j < fit.length → fitName params fit j ≠ fitName params fit i) →
        (buildTrialMap E params fit cur delta).value (fitName params fit i) =
          trialValue E params fit cur delta i) ∧
      ((params.getD (fit.getD i 0) default).min ≤ (params.getD (fit.getD i 0) default).max →
        (params.getD (fit.getD i 0) default).min ≤ trialValue E params fit cur delta i ∧
          trialValue E params fit cur delta i ≤ (params.getD (fit.getD i 0) default).max) := by
  refine ⟨trialValue_eq E params fit cur delta i, ?_, ?_⟩
  · intro hi hname hlater
    unfold buildTrialMap
    rw [value_updateDeps_ne _ _ hname]
    exact trialFold_value E params fit cur delta i hi hlater
  · intro hle
    unfold trialValue
    exact clamp_mem _ _ _ hle

/-- Witness of C23: in `paramsK` the parameter `k = 1` is updated in log space; with the step
`[1/10]` on `envFlat` its trial value is `10^(log10(1) + 1/10)` (stand-in functions),
which lies within `[0.01, 100]`. -/
theorem C23_witness :
    (buildTrialMap envFlat paramsK [0] [("k", 1)] [1 / 10]).value "k" =
        trialValue envFlat paramsK [0] [("k", 1)] [1 / 10] 0 ∧
      (0.01 ≤ trialValue envFlat paramsK [0] [("k", 1)] [1 / 10] 0 ∧
        trialValue envFlat paramsK [0] [("k", 1)] [1 / 10] 0 ≤ 100) :=
  have h := C23_trial_value envFlat paramsK [0] [("k", 1)] [1 / 10] 0
  ⟨h.2.1 (by decide) (by decide) (by intro j h1 h2; simp at h2; omega), h.2.2 (by decide!)⟩

/-! ## The Jacobian builder -/

theorem stepSize_eq (params : PMap) (pName : String) :
    stepSize params pName =
      if params.value pName > 1e-12 ∧ pName ≠ "S" ∧ pName ≠ "nf" then 0.01 else 1e-4 := by
  unfold stepSize
  by_cases h : isLogParam (params.value pName) pName = true
  · rw [if_pos h, if_pos ((isLogParam_iff _ _).mp h)]
  · rw [if_neg h, if_neg (fun hc => h ((isLogParam_iff _ _).mpr hc))]

/-- The two perturbed maps before the derived parameter is recomputed. -/
theorem perturbedMaps_cases (E : Env) (params : PMap) (pName : String) :
    perturbedMaps E params pName =
      if pName = "L" ∨ pName = "Lf" then
        (updateDeps (params.insert pName
            (steppedValue E pName (params.value pName) (stepSize params pName))),
          updateDeps (params.insert pName
            (steppedValue E pName (params.value pName) (-stepSize params pName))))
      else
        (params.insert pName
            (steppedValue E pName (params.value pName) (stepSize params pName)),
          params.insert pName
            (steppedValue E pName (params.value pName) (-stepSize params pName))) := by
  have hpm : (if isLogParam (params.value pName) pName = true then
        (params.insert pName (E.pow10 (E.log10 (params.value pName) + stepSize params pName)),
          params.insert pName (E.pow10 (E.log10 (params.value pName) - stepSize params pName)))
      else
        (params.insert pName (params.value pName + stepSize params pName),
          params.insert pName (params.value pName - stepSize params pName))) =
      (params.insert pName
          (steppedValue E pName (params.value pName) (stepSize params pName)),
        params.insert pName
          (steppedValue E pName (params.value pName) (-stepSize params pName))) := by
    unfold steppedValue
    by_cases h : isLogParam (params.value pName) pName = true
    · rw [if_pos h, if_pos ((isLogParam_iff _ _).mp h), if_pos ((isLogParam_iff _ _).mp h)]
      simp only [sub_eq_add_neg]
    · have h2 : ¬ (params.value pName > 1e-12 ∧ pName ≠ "S" ∧ pName ≠ "nf") :=
        fun hc => h ((isLogParam_iff _ _).mpr hc)
      rw [if_neg h, if_neg h2, if_neg h2]
      simp only [sub_eq_add_neg]
  unfold perturbedMaps
  simp only [hpm]
  by_cases hk : pName = "L" ∨ pName = "Lf"
  · have hb : (pName == "L" || pName == "Lf") = true := by
      rcases hk with h | h <;> simp [h]
    rw [if_pos hb, if_pos hk]
  · have hb : ¬ (pName == "L" || pName == "Lf") = true := by
      intro hc
      apply hk
      simpa using hc
    rw [if_neg hb, if_neg hk]

theorem find_updateDeps_ne (m : PMap) (k : String) (hk : k ≠ "LfD") :
    (updateDeps m).find k = m.find k := by
  unfold updateDeps
  split
  · exact PMap.find_insert_ne _ _ _ _ hk
  · rfl

/-- What `computeJacobian` evaluates for the parameter `pName`: the parameter itself is moved
by `±h` in the variable the trial step is added to; every other key but the derived `LfD`
is left as it is. -/
theorem perturbedMaps_spec (E : Env) (params : PMap) (pName : String) :
    (perturbedMaps E params pName).1.value pName =
        steppedValue E pName (params.value pName) (stepSize params pName) ∧
      (perturbedMaps E params pName).2.value pName =
        steppedValue E pName (params.value pName) (-stepSize params pName) ∧
      ∀ k, k ≠ pName → k ≠ "LfD" →
        (perturbedMaps E params pName).1.find k = params.find k ∧
          (perturbedMaps E params pName).2.find k = params.find k := by
  rw [perturbedMaps_cases]
  by_cases hk : pName = "L" ∨ pName = "Lf"
  · have hne : pName ≠ "LfD" := by
      rcases hk with h | h <;> (rw [h]; decide)
    simp only [if_pos hk]
    refine ⟨?_, ?_, ?_⟩
    · rw [value_updateDeps_ne _ _ hne]; exact PMap.value_insert_self _ _ _
    · rw [value_updateDeps_ne _ _ hne]; exact PMap.value_insert_self _ _ _
    · intro k h1 h2
      rw [find_updateDeps_ne _ _ h2, find_updateDeps_ne _ _ h2]
      exact ⟨PMap.find_insert_ne _ _ _ _ h1, PMap.find_insert_ne _ _ _ _ h1⟩
  · simp only [if_neg hk]
    refine ⟨PMap.value_insert_self _ _ _, PMap.value_insert_self _ _ _, ?_⟩
    intro k h1 _
    exact ⟨PMap.find_insert_ne _ _ _ _ h1, PMap.find_insert_ne _ _ _ _ h1⟩

/-- The loop that fills column `j` of the Jacobian. -/
theorem fill_column {M : Mat} {r c : Nat} (hM : HasDims M r c) (j : Nat) (v : Nat → ℚ)
    (m : Nat) (hm : m ≤ r) :
    HasDims ((List.range m).foldl (fun J i => mset J i j (v i)) M) r c ∧
    ∀ a b, mget ((List.range m).foldl (fun J i => mset J i j (v i)) M) a b =
      if a < m ∧ b = j ∧ j < c then v a else mget M a b := by
  have key := foldl_range_invariant (fun (J : Mat) i => mset J i j (v i))
    (fun m' (J : Mat) => m' ≤ r → (HasDims J r c ∧ ∀ a b, mget J a b =
      if a < m' ∧ b = j ∧ j < c then v a else mget M a b))
    M m
    (by
      intro _
      refine ⟨hM, fun a b => ?_⟩
      rw [if_neg]; omega)
    (by
      intro i J hi hJ hle
      obtain ⟨hd, hv⟩ := hJ (by omega)
      refine ⟨hd.mset _ _ _, fun a b => ?_⟩
      rw [mget_mset_dims hd, hv a b]
      by_cases hc : a = i ∧ b = j ∧ i < r ∧ j < c
      · obtain ⟨ha, hb, _, hjc⟩ := hc
        subst ha hb
        rw [if_pos ⟨rfl, rfl, by omega, hjc⟩, if_pos ⟨by omega, rfl, hjc⟩]
      · rw [if_neg hc]
        by_cases hc2 : a < i ∧ b = j ∧ j < c
        · rw [if_pos hc2, if_pos ⟨by omega, hc2.2.1, hc2.2.2⟩]
        · rw [if_neg hc2, if_neg]
          intro hc3
          apply hc
          have : a = i := by
            by_contra hne
            exact hc2 ⟨by omega, hc3.2.1, hc3.2.2⟩
          exact ⟨this, hc3.2.1, by omega, hc3.2.2⟩)
  exact key hm

/-- The Jacobian returned by `computeJacobian`: `nRes` rows of `nParams` entries; column `j`
holds the central differences when both perturbed residual vectors have `nRes` entries
and zeros otherwise. -/
theorem computeJacobian_spec (E : Env) (hp : Bool) (params : PMap) (base : Vec)
    (fit : List Nat) (mt : ModelType) (cfp : List FitParameter) (w : ℚ) :
    HasDims (computeJacobian E hp params base fit mt cfp w) base.length fit.length ∧
    ∀ a b, mget (computeJacobian E hp params base fit mt cfp w) a b =
      if a < base.length ∧ b < fit.length ∧
          (probePlus E hp params fit mt cfp w b).length = base.length ∧
          (probeMinus E hp params fit mt cfp w b).length = base.length
      then centralDifference E hp params fit mt cfp w a b else 0 := by
  unfold computeJacobian
  simp only
  have key := foldl_range_invariant
    (fun (J : Mat) j =>
      if (calculateResiduals E hp (perturbedMaps E params (fitName cfp fit j)).1 mt w).length
            = base.length ∧
          (calculateResiduals E hp (perturbedMaps E params (fitName cfp fit j)).2 mt w).length
            = base.length then
        (List.range base.length).foldl
          (fun J i => mset J i j
            (((calculateResiduals E hp (perturbedMaps E params (fitName cfp fit j)).1
                  mt w).getD i 0 -
                (calculateResiduals E hp (perturbedMaps E params (fitName cfp fit j)).2
                  mt w).getD i 0) /
              (2 * stepSize params (fitName cfp fit j)))) J
      else J)
    (fun m (J : Mat) => m ≤ fit.length →
      (HasDims J base.length fit.length ∧ ∀ a b, mget J a b =
        if a < base.length ∧ b < m ∧
            (probePlus E hp params fit mt cfp w b).length = base.length ∧
            (probeMinus E hp params fit mt cfp w b).length = base.length
        then centralDifference E hp params fit mt cfp w a b else 0))
    (List.replicate base.length (List.replicate fit.length 0)) fit.length
    (by
      intro _
      refine ⟨hasDims_replicate _ _, fun a b => ?_⟩
      rw [mget_replicate_zero, if_neg]
      omega)
    (by
      intro j J hj hJ hle
      obtain ⟨hd, hv⟩ := hJ (by omega)
      by_cases hok : (calculateResiduals E hp (perturbedMaps E params (fitName cfp fit j)).1
            mt w).length = base.length ∧
          (calculateResiduals E hp (perturbedMaps E params (fitName cfp fit j)).2
            mt w).length = base.length
      · simp only [if_pos hok]
        obtain ⟨fd, fv⟩ := fill_column hd j
          (fun i => ((calculateResiduals E hp (perturbedMaps E params (fitName cfp fit j)).1
                  mt w).getD i 0 -
                (calculateResiduals E hp (perturbedMaps E params (fitName cfp fit j)).2
                  mt w).getD i 0) /
              (2 * stepSize params (fitName cfp fit j)))
          base.length (le_refl _)
        refine ⟨fd, fun a b => ?_⟩
        rw [fv a b, hv a b]
        by_cases hc : a < base.length ∧ b = j ∧ j < fit.length
        · obtain ⟨ha, hb, _⟩ := hc
          subst hb
          rw [if_pos ⟨ha, rfl, hj⟩, if_pos ⟨ha, by omega, hok.1, hok.2⟩]
          rfl
        · rw [if_neg hc]
          by_cases hc2 : a < base.length ∧ b < j ∧
              (probePlus E hp params fit mt cfp w b).length = base.length ∧
              (probeMinus E hp params fit mt cfp w b).length = base.length
          · rw [if_pos hc2, if_pos ⟨hc2.1, by omega, hc2.2.2.1, hc2.2.2.2⟩]
          · rw [if_neg hc2, if_neg]
            intro hc3
            by_cases hbj : b = j
            · exact hc ⟨hc3.1, hbj, hj⟩
            · exact hc2 ⟨hc3.1, by omega, hc3.2.2.1, hc3.2.2.2⟩
      · simp only [if_neg hok]
        refine ⟨hd, fun a b => ?_⟩
        rw [hv a b]
        by_cases hc2 : a < base.length ∧ b < j ∧
            (probePlus E hp params fit mt cfp w b).length = base.length ∧
            (probeMinus E hp params fit mt cfp w b).length = base.length
        · rw [if_pos hc2, if_pos ⟨hc2.1, by omega, hc2.2.2.1, hc2.2.2.2⟩]
        · rw [if_neg hc2, if_neg]
          intro hc3
          by_cases hbj : b = j
          · subst hbj
            exact hok ⟨hc3.2.2.1, hc3.2.2.2⟩
          · exact hc2 ⟨hc3.1, by omega, hc3.2.2.1, hc3.2.2.2⟩)
  obtain ⟨kd, kv⟩ := key (le_refl _)
  exact ⟨kd, kv⟩

/-- Claim C24: for fit parameter `j` with current value `v` and step `h` (`0.01` when `v > 1e-12`
and the name is neither `S` nor `nf`, `1e-4` otherwise), `computeJacobian` evaluates the
residuals at two maps in which that parameter is `10^(log10 v ± h)` in the first case and
`v ± h` in the second and every other key but the derived `LfD` is unchanged; when both
residual vectors have the base length, `J[i][j] = (rPlus[i] - rMinus[i]) / (2h)`. -/
theorem C24_jacobian_column (E : Env) (hp : Bool) (params : PMap) (base : Vec)
    (fit : List Nat) (mt : ModelType) (cfp : List FitParameter) (w : ℚ) (i j : Nat)
    (hj : j < fit.length) (hi : i < base.length)
    (hplus : (probePlus E hp params fit mt cfp w j).length = base.length)
    (hminus : (probeMinus E hp params fit mt cfp w j).length = base.length) :
    (params.value (fitName cfp fit j) > 1e-12 ∧ fitName cfp fit j ≠ "S" ∧
        fitName cfp fit j ≠ "nf" →
      stepSize params (fitName cfp fit j) = 0.01 ∧
      (perturbedMaps E params (fitName cfp fit j)).1.value (fitName cfp fit j) =
        E.pow10 (E.log10 (params.value (fitName cfp fit j)) + 0.01) ∧
      (perturbedMaps E params (fitName cfp fit j)).2.value (fitName cfp fit j) =
        E.pow10 (E.log10 (params.value (fitName cfp fit j)) - 0.01)) ∧
    (¬ (params.value (fitName cfp fit j) > 1e-12 ∧ fitName cfp fit j ≠ "S" ∧
        fitName cfp fit j ≠ "nf") →
      stepSize params (fitName cfp fit j) = 1e-4 ∧
      (perturbedMaps E params (fitName cfp fit j)).1.value (fitName cfp fit j) =
        params.value (fitName cfp fit j) + 1e-4 ∧
      (perturbedMaps E params (fitName cfp fit j)).2.value (fitName cfp fit j) =
        params.value (fitName cfp fit j) - 1e-4) ∧
    (∀ k, k ≠ fitName cfp fit j → k ≠ "LfD" →
      (perturbedMaps E params (fitName cfp fit j)).1.find k = params.find k ∧
        (perturbedMaps E params (fitName cfp fit j)).2.find k = params.find k) ∧
    mget (computeJacobian E hp params base fit mt cfp w) i j =
      ((calculateResiduals E hp (perturbedMaps E params (fitName cfp fit j)).1 mt w).getD i 0 -
        (calculateResiduals E hp (perturbedMaps E params (fitName cfp fit j)).2 mt w).getD i 0)
        / (2 * stepSize params (fitName cfp fit j)) := by
  obtain ⟨p1, p2, p3⟩ := perturbedMaps_spec E params (fitName cfp fit j)
  refine ⟨?_, ?_, p3, ?_⟩
  · intro hlog
    have hs : stepSize params (fitName cfp fit j) = 0.01 := by
      rw [stepSize_eq, if_pos hlog]
    refine ⟨hs, ?_, ?_⟩
    · rw [p1, hs]; unfold steppedValue; rw [if_pos hlog]
    · rw [p2, hs]; unfold steppedValue; rw [if_pos hlog, sub_eq_add_neg]
  · intro hlin
    have hs : stepSize params (fitName cfp fit j) = 1e-4 := by
      rw [stepSize_eq, if_neg hlin]
    refine ⟨hs, ?_, ?_⟩
    · rw [p1, hs]; unfold steppedValue; rw [if_neg hlin]
    · rw [p2, hs]; unfold steppedValue; rw [if_neg hlin, sub_eq_add_neg]
  · rw [(computeJacobian_spec E hp params base fit mt cfp w).2 i j,
      if_pos ⟨hi, hj, hplus, hminus⟩]
    rfl

/-- Witness of C24: the Jacobian of `envSkin` at `S = 1`, where `S` is perturbed linearly. -/
theorem C24_witness :
    mget (computeJacobian envSkin false [("S", 1), ("h", 500)]
        (calculateResiduals envSkin false [("S", 1), ("h", 500)] ModelType.Model_1 1) [0]
        ModelType.Model_1 paramsSkin 1) 0 0 =
      ((calculateResiduals envSkin false
            (perturbedMaps envSkin [("S", 1), ("h", 500)] (fitName paramsSkin [0] 0)).1
            ModelType.Model_1 1).getD 0 0 -
        (calculateResiduals envSkin false
            (perturbedMaps envSkin [("S", 1), ("h", 500)] (fitName paramsSkin [0] 0)).2
            ModelType.Model_1 1).getD 0 0)
        / (2 * stepSize [("S", 1), ("h", 500)] (fitName paramsSkin [0] 0)) ∧
    (perturbedMaps envSkin [("S", 1), ("h", 500)] "S").1 = [("S", 1 + 1e-4), ("h", 500)] ∧
    (perturbedMaps envSkin [("S", 1), ("h", 500)] "S").2 = [("S", 1 - 1e-4), ("h", 500)] :=
  have h := C24_jacobian_column envSkin false [("S", 1), ("h", 500)]
    (calculateResiduals envSkin false [("S", 1), ("h", 500)] ModelType.Model_1 1) [0]
    ModelType.Model_1 paramsSkin 1 0 0 (by decide) (by decide!) (by decide!) (by decide!)
  ⟨h.2.2.2, by decide!, by decide!⟩

/-! ## One classification per outer iteration -/

theorem trialStep_false_map (E : Env) (mt : ModelType) (params : List FitParameter)
    (fit : List Nat) (w : ℚ) (H : Mat) (g : Vec) (nRes : Nat) (st : LMState)
    (h : (trialStep E mt params fit w H g nRes st).2 = false) :
    (trialStep E mt params fit w H g nRes st).1.currentParamMap = st.currentParamMap := by
  unfold trialStep at h ⊢
  simp only at h ⊢
  split
  · rename_i hn
    rw [if_pos hn] at h
    exact absurd h (by simp)
  · rfl

theorem trialInputs_map (E : Env) (mt : ModelType) (params : List FitParameter)
    (fit : List Nat) (w : ℚ) (H : Mat) (g : Vec) (nRes : Nat) :
    ∀ (n : Nat) (st : LMState), ∀ s ∈ trialInputs E mt params fit w H g nRes n st,
      s.currentParamMap = st.currentParamMap := by
  intro n
  induction n with
  | zero => intro st s hs; simp [trialInputs] at hs
  | succ n ih =>
    intro st s hs
    rw [trialInputs] at hs
    rcases List.mem_cons.mp hs with h | h
    · rw [h]
    · by_cases hb : (trialStep E mt params fit w H g nRes st).2 = true
      · simp [hb] at h
      · have hb2 : (trialStep E mt params fit w H g nRes st).2 = false := by simpa using hb
        simp only [hb2, Bool.false_eq_true, if_false] at h
        rw [ih _ s h]
        exact trialStep_false_map E mt params fit w H g nRes st hb2

/-- The trial loop ends with the trial made from the last of its inputs. -/
theorem trialLoop_eq_last (E : Env) (mt : ModelType) (params : List FitParameter)
    (fit : List Nat) (w : ℚ) (H : Mat) (g : Vec) (nRes : Nat) :
    ∀ (n : Nat) (st : LMState),
      trialLoop E mt params fit w H g nRes n st =
        match (trialInputs E mt params fit w H g nRes n st).getLast? with
        | none => (st, false)
        | some s => trialStep E mt params fit w H g nRes s := by
  intro n
  induction n with
  | zero => intro st; rfl
  | succ n ih =>
    intro st
    rw [trialLoop, trialInputs]
    by_cases hb : (trialStep E mt params fit w H g nRes st).2 = true
    · simp [hb]
    · have hb2 : (trialStep E mt params fit w H g nRes st).2 = false := by simpa using hb
      simp only [hb2, Bool.false_eq_true, if_false]
      rw [ih]
      cases hl : trialInputs E mt params fit w H g nRes n
          (trialStep E mt params fit w H g nRes st).1 with
      | nil =>
        simp only [List.getLast?_nil, List.getLast?_singleton]
        exact Prod.ext rfl hb2.symm
      | cons a l =>
        cases hg : (a :: l).getLast? with
        | none => exact absurd (List.getLast?_eq_none_iff.mp hg) (by simp)
        | some x => simp [hg]

/-- Claim C27: in the outer iteration that starts in the state `st`, the Jacobian moves fit
parameter `j` by `±h` in the variable selected from the committed value and the name
(`log10` of the value when it exceeds `1e-12` and the name is neither `S` nor `nf`, the
value itself otherwise); every trial of that iteration starts from the same committed map
and adds `δ_j` in that same variable before clamping. -/
theorem C27_same_classification (E : Env) (mt : ModelType) (params : List FitParameter)
    (fit : List Nat) (w : ℚ) (H : Mat) (g : Vec) (nRes maxIter iter : Nat) (st : LMState)
    (j : Nat) :
    (perturbedMaps E st.currentParamMap (fitName params fit j)).1.value (fitName params fit j) =
      steppedValue E (fitName params fit j) (st.currentParamMap.value (fitName params fit j))
        (stepSize st.currentParamMap (fitName params fit j)) ∧
    (perturbedMaps E st.currentParamMap (fitName params fit j)).2.value (fitName params fit j) =
      steppedValue E (fitName params fit j) (st.currentParamMap.value (fitName params fit j))
        (-stepSize st.currentParamMap (fitName params fit j)) ∧
    (∀ s ∈ trialInputs E mt params fit w H g nRes 5
        (beginIteration E params fit maxIter iter st),
      s.currentParamMap = st.currentParamMap ∧
      ∀ delta : Vec, trialValue E params fit s.currentParamMap delta j =
        clampSpec (params.getD (fit.getD j 0) default).min
          (params.getD (fit.getD j 0) default).max
          (steppedValue E (fitName params fit j)
            (st.currentParamMap.value (fitName params fit j)) (delta.getD j 0))) ∧
    trialLoop E mt params fit w H g nRes 5 (beginIteration E params fit maxIter iter st) =
      (match (trialInputs E mt params fit w H g nRes 5
          (beginIteration E params fit maxIter iter st)).getLast? with
        | none => (beginIteration E params fit maxIter iter st, false)
        | some s => trialStep E mt params fit w H g nRes s) := by
  obtain ⟨p1, p2, _⟩ := perturbedMaps_spec E st.currentParamMap (fitName params fit j)
  refine ⟨p1, p2, ?_, trialLoop_eq_last E mt params fit w H g nRes 5 _⟩
  intro s hs
  have hmap : s.currentParamMap = st.currentParamMap :=
    (trialInputs_map E mt params fit w H g nRes 5
      (beginIteration E params fit maxIter iter st) s hs).trans rfl
  refine ⟨hmap, fun delta => ?_⟩
  rw [hmap]
  exact trialValue_eq E params fit st.currentParamMap delta j

/-! ## The weight of the two channels -/

theorem sse_foldl (l : Vec) (acc : ℚ) :
    l.foldl (fun sse v => sse + v * v) acc = acc + calculateSumSquaredError l := by
  unfold calculateSumSquaredError
  induction l generalizing acc with
  | nil => simp
  | cons a rest ih =>
    simp only [List.foldl_cons]
    rw [ih (acc + a * a), ih (0 + a * a)]
    ring

theorem sse_append (a b : Vec) :
    calculateSumSquaredError (a ++ b) =
      calculateSumSquaredError a + calculateSumSquaredError b := by
  unfold calculateSumSquaredError
  rw [List.foldl_append, sse_foldl]
  rfl

theorem sse_eq_sum (l : Vec) :
    calculateSumSquaredError l = (l.map fun v => v * v).sum := by
  induction l with
  | nil => rfl
  | cons a rest ih =>
    have h : calculateSumSquaredError (a :: rest) =
        calculateSumSquaredError [a] + calculateSumSquaredError rest := sse_append [a] rest
    rw [h, ih]
    simp [calculateSumSquaredError]

theorem channelResiduals_zero_weight (E : Env) (obs cal : Vec) (count : Nat) :
    ∀ x ∈ channelResiduals E obs cal count 0, x = 0 := by
  intro x hx
  simp only [channelResiduals, List.mem_map, List.mem_range] at hx
  obtain ⟨i, _, rfl⟩ := hx
  split <;> simp

theorem sse_channel_one (E : Env) (obs cal : Vec) (count : Nat) :
    calculateSumSquaredError (channelResiduals E obs cal count 1) =
      squaredLogSum E obs cal count := by
  rw [sse_eq_sum]
  unfold channelResiduals squaredLogSum
  rw [List.map_map]
  congr 1
  apply List.map_congr_left
  intro i _
  simp only [Function.comp]
  split
  · ring
  · ring

theorem getD_append_right_zero (a b : Vec) (i : Nat) (hi : a.length ≤ i)
    (hb : ∀ x ∈ b, x = 0) : (a ++ b).getD i 0 = 0 := by
  rw [List.getD_eq_getElem?_getD, List.getElem?_append_right hi]
  cases h : b[i - a.length]? with
  | none => rfl
  | some x => exact hb x (List.mem_iff_getElem?.mpr ⟨_, h⟩)

theorem getD_append_left_zero (a b : Vec) (i : Nat) (hi : i < a.length)
    (ha : ∀ x ∈ a, x = 0) : (a ++ b).getD i 0 = 0 := by
  rw [List.getD_eq_getElem?_getD, List.getElem?_append_left hi]
  cases h : a[i]? with
  | none => rfl
  | some x => exact ha x (List.mem_iff_getElem?.mpr ⟨_, h⟩)

/-- Claim C29: when observed data are loaded, with weight `1` every entry of the residual
vector from the derivative channel on is `0` and the SSE is the sum of the squared log
residuals of the primary channel; with weight `0` every entry of the primary channel is `0`
and the SSE is the sum of the squared log residuals of the derivative channel. -/
theorem C29_weight_extremes (E : Env) (hp : Bool) (m : PMap) (mt : ModelType)
    (hobs : E.m_obsTime ≠ []) :
    (∀ i, primaryCount E (E.calculateTheoreticalCurve hp mt m E.m_obsTime) ≤ i →
      (calculateResiduals E hp m mt 1).getD i 0 = 0) ∧
    calculateSumSquaredError (calculateResiduals E hp m mt 1) =
      squaredLogSum E E.m_obsDeltaP (E.calculateTheoreticalCurve hp mt m E.m_obsTime).p
        (primaryCount E (E.calculateTheoreticalCurve hp mt m E.m_obsTime)) ∧
    (∀ i, i < primaryCount E (E.calculateTheoreticalCurve hp mt m E.m_obsTime) →
      (calculateResiduals E hp m mt 0).getD i 0 = 0) ∧
    calculateSumSquaredError (calculateResiduals E hp m mt 0) =
      squaredLogSum E E.m_obsDerivative (E.calculateTheoreticalCurve hp mt m E.m_obsTime).dp
        (derivativeCount E (E.calculateTheoreticalCurve hp mt m E.m_obsTime)) := by
  have h1 := calculateResiduals_eq E hp m mt 1 hobs
  have h0 := calculateResiduals_eq E hp m mt 0 hobs
  rw [show (1 : ℚ) - 1 = 0 by norm_num] at h1
  rw [show (1 : ℚ) - 0 = 1 by norm_num] at h0
  refine ⟨?_, ?_, ?_, ?_⟩
  · intro i hi
    rw [h1]
    exact getD_append_right_zero _ _ i (by rw [channelResiduals_length]; exact hi)
      (channelResiduals_zero_weight E _ _ _)
  · rw [h1, sse_append, sse_of_zeros _ (channelResiduals_zero_weight E _ _ _), add_zero,
      sse_channel_one]
  · intro i hi
    rw [h0]
    exact getD_append_left_zero _ _ i (by rw [channelResiduals_length]; exact hi)
      (channelResiduals_zero_weight E _ _ _)
  · rw [h0, sse_append, sse_of_zeros _ (channelResiduals_zero_weight E _ _ _), zero_add,
      sse_channel_one]

/-- Witness of C29: the two channels of `envTwoChannel` at `S = 1`. -/
theorem C29_witness :
    calculateResiduals envTwoChannel false [("S", 1)] ModelType.Model_1 1 =
      [2 / 3, 2 / 3, 0, 0] ∧
    calculateResiduals envTwoChannel false [("S", 1)] ModelType.Model_1 0 =
      [0, 0, 2 / 3, 2 / 3] ∧
    calculateSumSquaredError
        (calculateResiduals envTwoChannel false [("S", 1)] ModelType.Model_1 1) =
      squaredLogSum envTwoChannel envTwoChannel.m_obsDeltaP
        (envTwoChannel.calculateTheoreticalCurve false ModelType.Model_1 [("S", 1)]
          envTwoChannel.m_obsTime).p
        (primaryCount envTwoChannel
          (envTwoChannel.calculateTheoreticalCurve false ModelType.Model_1 [("S", 1)]
            envTwoChannel.m_obsTime)) :=
  ⟨by decide!, by decide!,
    (C29_weight_extremes envTwoChannel false [("S", 1)] ModelType.Model_1 (by decide)).2.1⟩

/-! ## Lengths of the residual vectors -/

theorem solveLinearSystem_length (E : Env) (A : Mat) (b : Vec) :
    (solveLinearSystem E A b).length = b.length := by
  unfold solveLinearSystem
  simp only
  split
  · rename_i h; simp [h]
  · simp

theorem negG_length (g : Vec) (n : Nat) : (negG g n).length = n := by
  simp [negG]

theorem residuals_length_of_fixed (E : Env) (mt : ModelType) (w : ℚ) (lp ld : Nat)
    (hobs : E.m_obsTime ≠ [])
    (hlen : ∀ m : PMap,
      (E.calculateTheoreticalCurve false mt m E.m_obsTime).p.length = lp ∧
        (E.calculateTheoreticalCurve false mt m E.m_obsTime).dp.length = ld) (m : PMap) :
    (calculateResiduals E false m mt w).length =
      Nat.min E.m_obsDeltaP.length lp +
        Nat.min (Nat.min E.m_obsDerivative.length ld) (Nat.min E.m_obsDeltaP.length lp) := by
  have h2 : E.m_obsTime.isEmpty = false := by
    cases ht : E.m_obsTime with
    | nil => exact absurd ht hobs
    | cons a l => rfl
  rw [calculateResiduals_length, h2]
  simp only [Bool.false_eq_true, if_false, primaryCount, derivativeCount, (hlen m).1,
    (hlen m).2]

theorem residuals_length_outerLoop (E : Env) (stop : Nat → Bool) (mt : ModelType)
    (params : List FitParameter) (fit : List Nat) (w : ℚ) (maxIter n : Nat)
    (hres : ∀ m : PMap, (calculateResiduals E false m mt w).length = n) :
    ∀ (fuel iter : Nat) (st : LMState), st.residuals.length = n →
      (outerLoop E stop mt params fit w maxIter fuel iter st).residuals.length = n := by
  apply outerLoop_invariant E stop mt params fit w maxIter (fun st => st.residuals.length = n)
  · intro iter st h; exact h
  · intro H g nRes st h
    unfold trialStep
    simp only
    split
    · exact hres _
    · exact h

/-- Claim C26: when observed data are loaded (a run starts only then) and the evaluator
returns primary curves of one length `lp` and derivative curves of one length `ld` for every
parameter map, every residual vector of the run has `c + d` entries with
`c = min(|observed primary|, lp)` and `d = min(|observed derivative|, ld, c)`; in every
outer iteration the Jacobian has `c + d` rows of `nParams` entries, each entry is the
central difference, and the step returned by the solver has `nParams` entries. -/
theorem C26_residual_lengths (E : Env) (stop : Nat → Bool) (mt : ModelType)
    (params : List FitParameter) (w : ℚ) (lp ld : Nat) (hobs : E.m_obsTime ≠ [])
    (hlen : ∀ m : PMap,
      (E.calculateTheoreticalCurve false mt m E.m_obsTime).p.length = lp ∧
        (E.calculateTheoreticalCurve false mt m E.m_obsTime).dp.length = ld) :
    (∀ m : PMap, (calculateResiduals E false m mt w).length =
      Nat.min E.m_obsDeltaP.length lp +
        Nat.min (Nat.min E.m_obsDerivative.length ld) (Nat.min E.m_obsDeltaP.length lp)) ∧
    ∀ k : Nat,
      (stateAtIteration E stop mt params w k).residuals.length =
        Nat.min E.m_obsDeltaP.length lp +
          Nat.min (Nat.min E.m_obsDerivative.length ld) (Nat.min E.m_obsDeltaP.length lp) ∧
      HasDims (iterationJacobian E mt params w (stateAtIteration E stop mt params w k))
        (stateAtIteration E stop mt params w k).residuals.length
        (fitIndicesOf params).length ∧
      (∀ i j, i < (stateAtIteration E stop mt params w k).residuals.length →
        j < (fitIndicesOf params).length →
        mget (iterationJacobian E mt params w (stateAtIteration E stop mt params w k)) i j =
          centralDifference E false (stateAtIteration E stop mt params w k).currentParamMap
            (fitIndicesOf params) mt params w i j) ∧
      ∀ lambda : ℚ,
        (iterationDelta E mt params w (stateAtIteration E stop mt params w k) lambda).length =
          (fitIndicesOf params).length := by
  have hres := residuals_length_of_fixed E mt w lp ld hobs hlen
  refine ⟨hres, fun k => ?_⟩
  have hst : (stateAtIteration E stop mt params w k).residuals.length =
      Nat.min E.m_obsDeltaP.length lp +
        Nat.min (Nat.min E.m_obsDerivative.length ld) (Nat.min E.m_obsDeltaP.length lp) := by
    unfold stateAtIteration
    exact residuals_length_outerLoop E stop mt params _ w 50 _ hres k 0 _ (hres _)
  have hJ := computeJacobian_spec E false
    (stateAtIteration E stop mt params w k).currentParamMap
    (stateAtIteration E stop mt params w k).residuals (fitIndicesOf params) mt params w
  refine ⟨hst, hJ.1, ?_, ?_⟩
  · intro i j hi hj
    have hplus : (probePlus E false (stateAtIteration E stop mt params w k).currentParamMap
        (fitIndicesOf params) mt params w j).length =
        (stateAtIteration E stop mt params w k).residuals.length := by
      unfold probePlus; rw [hres, hst]
    have hminus : (probeMinus E false (stateAtIteration E stop mt params w k).currentParamMap
        (fitIndicesOf params) mt params w j).length =
        (stateAtIteration E stop mt params w k).residuals.length := by
      unfold probeMinus; rw [hres, hst]
    unfold iterationJacobian
    rw [hJ.2 i j, if_pos ⟨hi, hj, hplus, hminus⟩]
  · intro lambda
    unfold iterationDelta
    rw [solveLinearSystem_length, negG_length]

/-- Witness of C26: `envTwoChannel` returns two samples per channel for every map, so every
residual vector of a run has four entries. -/
theorem C26_witness :
    (∀ m : PMap,
      (calculateResiduals envTwoChannel false m ModelType.Model_1 (1 / 2)).length = 4) ∧
    (stateAtIteration envTwoChannel neverStop ModelType.Model_1 paramsSkin (1 / 2)
        3).residuals.length = 4 :=
  have h := C26_residual_lengths envTwoChannel neverStop ModelType.Model_1 paramsSkin (1 / 2)
    2 2 (by decide) (fun _ => ⟨rfl, rfl⟩)
  ⟨h.1, (h.2 3).1⟩

/-! ## Parameters that are not fitted -/

theorem buildFold_find_of_not_mem (l : List FitParameter) (k : String)
    (hk : k ∉ l.map (fun p => p.name)) (m : PMap) :
    (l.foldl (fun m p => m.insert p.name p.value) m).find k = m.find k := by
  induction l generalizing m with
  | nil => rfl
  | cons q rest ih =>
    simp only [List.map_cons, List.mem_cons, not_or] at hk
    simp only [List.foldl_cons]
    rw [ih hk.2, PMap.find_insert_ne _ _ _ _ hk.1]

theorem buildFold_find (l : List FitParameter)
    (hnodup : (l.map (fun p => p.name)).Nodup) (p : FitParameter) (hp : p ∈ l) (m : PMap) :
    (l.foldl (fun m p => m.insert p.name p.value) m).find p.name = some p.value := by
  induction l generalizing m with
  | nil => simp at hp
  | cons q rest ih =>
    simp only [List.map_cons, List.nodup_cons] at hnodup
    simp only [List.foldl_cons]
    rcases List.mem_cons.mp hp with h | h
    · subst h
      rw [buildFold_find_of_not_mem rest p.name hnodup.1, PMap.find_insert_self]
    · exact ih hnodup.2 h _

theorem buildParamMap_find (params : List FitParameter)
    (hnodup : (params.map (fun p => p.name)).Nodup) (p : FitParameter) (hp : p ∈ params) :
    (buildParamMap params).find p.name = some p.value :=
  buildFold_find params hnodup p hp []

theorem trialFold_find_ne (E : Env) (params : List FitParameter) (fit : List Nat)
    (cur : PMap) (delta : Vec) (k : String)
    (hk : ∀ i, i < fit.length → fitName params fit i ≠ k) :
    ((List.range fit.length).foldl
        (fun trialMap i =>
          trialMap.insert (fitName params fit i) (trialValue E params fit cur delta i))
        cur).find k = cur.find k := by
  apply foldl_range_invariant
    (fun (trialMap : PMap) i =>
          trialMap.insert (fitName params fit i) (trialValue E params fit cur delta i))
    (fun _ (tm : PMap) => tm.find k = cur.find k)
  · rfl
  · intro i s hi hs
    rw [PMap.find_insert_ne _ _ _ _ (Ne.symm (hk i hi))]
    exact hs

theorem buildTrialMap_find_ne (E : Env) (params : List FitParameter) (fit : List Nat)
    (cur : PMap) (delta : Vec) (k : String) (hD : k ≠ "LfD")
    (hk : ∀ i, i < fit.length → fitName params fit i ≠ k) :
    (buildTrialMap E params fit cur delta).find k = cur.find k := by
  unfold buildTrialMap
  rw [find_updateDeps_ne _ _ hD]
  exact trialFold_find_ne E params fit cur delta k hk

theorem fitName_ne_of_not_fit (params : List FitParameter)
    (hnodup : (params.map (fun p => p.name)).Nodup) (p : FitParameter) (hp : p ∈ params)
    (hfit : p.isFit = false) (i : Nat) (hi : i < (fitIndicesOf params).length) :
    fitName params (fitIndicesOf params) i ≠ p.name := by
  obtain ⟨q, hq, hqfit, hqname⟩ := fitName_mem params i hi
  intro h
  have hqp : q = p := List.inj_on_of_nodup_map hnodup hq hp (hqname.symm.trans h)
  rw [hqp, hfit] at hqfit
  exact Bool.false_ne_true hqfit

theorem frameInv_trialStep (E : Env) (mt : ModelType) (params : List FitParameter) (w : ℚ)
    (p : FitParameter) (hD : p.name ≠ "LfD")
    (hk : ∀ i, i < (fitIndicesOf params).length →
      fitName params (fitIndicesOf params) i ≠ p.name)
    (H : Mat) (g : Vec) (nRes : Nat) (st : LMState) (h : FrameInv p st) :
    FrameInv p (trialStep E mt params (fitIndicesOf params) w H g nRes st).1 := by
  have htrial : ∀ delta, (buildTrialMap E params (fitIndicesOf params) st.currentParamMap
      delta).find p.name = some p.value := by
    intro delta
    rw [buildTrialMap_find_ne E params _ _ delta p.name hD hk]
    exact h.2
  unfold trialStep
  simp only
  split
  · refine ⟨?_, htrial _⟩
    intro m hm
    simp only [emittedMaps_append, emittedMaps, List.append_nil, List.mem_append,
      List.mem_singleton] at hm
    rcases hm with hm | hm
    · exact h.1 m hm
    · rw [hm]; exact htrial _
  · refine ⟨?_, h.2⟩
    intro m hm
    simp only [emittedMaps_append, emittedMaps, List.append_nil] at hm
    exact h.1 m hm

theorem frameInv_beginIteration (E : Env) (params : List FitParameter) (fit : List Nat)
    (p : FitParameter) (maxIter iter : Nat) (st : LMState) (h : FrameInv p st) :
    FrameInv p (beginIteration E params fit maxIter iter st) := by
  unfold beginIteration
  refine ⟨?_, h.2⟩
  intro m hm
  simp only [emittedMaps_append, emittedMaps, emittedMaps_map, List.append_nil] at hm
  exact h.1 m hm

theorem frameInv_loopResult (E : Env) (stop : Nat → Bool) (mt : ModelType)
    (params : List FitParameter) (w : ℚ)
    (hnodup : (params.map (fun p => p.name)).Nodup) (p : FitParameter) (hp : p ∈ params)
    (hfit : p.isFit = false) (hD : p.name ≠ "LfD") :
    FrameInv p (loopResult E stop mt params w) := by
  unfold loopResult
  apply outerLoop_invariant E stop mt params _ w 50 (FrameInv p)
  · intro iter st h; exact frameInv_beginIteration E params _ p 50 iter st h
  · intro H g nRes st h
    exact frameInv_trialStep E mt params w p hD
      (fitName_ne_of_not_fit params hnodup p hp hfit) H g nRes st h
  · have h0 : (updateDeps (buildParamMap params)).find p.name = some p.value := by
      rw [find_updateDeps_ne _ _ hD]
      exact buildParamMap_find params hnodup p hp
    refine ⟨?_, h0⟩
    intro m hm
    simp only [initialState, emittedMaps, List.mem_singleton] at hm
    rw [hm]; exact h0

/-- Claim C28: when the names of the parameter list are pairwise distinct, a parameter that
is not fit-enabled and is not named `LfD` has its input value in every parameter map that a
run emits (the initial one, one per accepted step, the final one). -/
theorem C28_unfitted_unchanged (E : Env) (stop : Nat → Bool) (mt : ModelType)
    (params : List FitParameter) (w : ℚ)
    (hnodup : (params.map (fun p => p.name)).Nodup) (p : FitParameter) (hp : p ∈ params)
    (hfit : p.isFit = false) (hD : p.name ≠ "LfD") :
    ∀ m ∈ emittedMaps (runLevenbergMarquardtOptimization E stop mt params w).trace,
      m.find p.name = some p.value := by
  intro m hm
  by_cases hex : ∃ q ∈ params, q.isFit = true
  · rw [run_trace E stop mt params w hex] at hm
    have hinv := frameInv_loopResult E stop mt params w hnodup p hp hfit hD
    unfold finish at hm
    simp only [emittedMaps_append, emittedMaps, List.mem_append, List.mem_singleton] at hm
    rcases hm with hm | hm
    · exact hinv.1 m hm
    · rw [hm, find_updateDeps_ne _ _ hD]; exact hinv.2
  · have hnone : ∀ q ∈ params, q.isFit = false := by
      intro q hq
      by_contra hc
      exact hex ⟨q, hq, by simpa using hc⟩
    have h0 : (fitIndicesOf params).length = 0 := by
      rw [(fitIndicesOf_eq_nil_iff params).mpr hnone]; rfl
    rw [run_no_fit E stop mt params w h0] at hm
    simp [emittedMaps] at hm

/-- Witness of C28: the fixed parameter `h = 500` of `paramsSkin` keeps its value in every
map emitted by the run on `envSkin`, and that run emits maps. -/
theorem C28_witness :
    (∀ m ∈ emittedMaps
        (runLevenbergMarquardtOptimization envSkin neverStop ModelType.Model_1 paramsSkin
          1).trace,
      m.find "h" = some 500) ∧
    emittedMaps
        (runLevenbergMarquardtOptimization envSkin neverStop ModelType.Model_1 paramsSkin
          1).trace ≠ [] :=
  ⟨C28_unfitted_unchanged envSkin neverStop ModelType.Model_1 paramsSkin 1 (by decide)
    (exParam "h" 500 false 0 100) (by decide!) rfl (by decide), by decide!⟩

/-! ## Unique tab names -/

theorem tabExists_iff (titles : List String) (name : String) :
    tabExists titles name = true ↔ name ∈ titles := by
  induction titles with
  | nil => simp [tabExists]
  | cons t rest ih =>
    unfold tabExists
    by_cases h : t = name
    · simp [h]
    · simp only [h, if_false, ih, List.mem_cons]
      constructor
      · intro hm; exact Or.inr hm
      · intro hm
        rcases hm with hm | hm
        · exact absurd hm.symm h
        · exact hm

theorem digitValue_digitChar (k : Nat) (hk : k < 10) : digitValue (Nat.digitChar k) = k := by
  interval_cases k <;> rfl

theorem readDigits_toDigitsCore (fuel : Nat) :
    ∀ (n : Nat) (ds : List Char), n < fuel →
      readDigits 0 (Nat.toDigitsCore 10 fuel n ds) = readDigits n ds := by
  induction fuel with
  | zero => intro n ds h; omega
  | succ f ih =>
    intro n ds h
    unfold Nat.toDigitsCore
    simp only
    split
    · rename_i h0
      have hn : n < 10 := by
        by_contra hc
        have : 1 ≤ n / 10 := Nat.div_pos (by omega) (by norm_num)
        omega
      simp only [readDigits, List.foldl_cons, zero_mul, zero_add]
      rw [digitValue_digitChar _ (Nat.mod_lt _ (by norm_num)), Nat.mod_eq_of_lt hn]
    · rename_i h0
      have hlt : n / 10 < f := by
        have : n / 10 < n := Nat.div_lt_self (by
          by_contra hc
          have : n = 0 := by omega
          simp [this] at h0) (by norm_num)
        omega
      rw [ih (n / 10) _ hlt]
      simp only [readDigits, List.foldl_cons]
      rw [digitValue_digitChar _ (Nat.mod_lt _ (by norm_num)), Nat.div_add_mod']

theorem readDigits_repr (n : Nat) : readDigits 0 (Nat.repr n).data = n := by
  unfold Nat.repr Nat.toDigits
  simp only [List.asString]
  rw [readDigits_toDigitsCore (n + 1) n [] (Nat.lt_succ_self n)]
  rfl

theorem numberedName_injective (baseName : String) (j k : Nat)
    (h : numberedName baseName j = numberedName baseName k) : j = k := by
  unfold numberedName at h
  have h2 := congrArg String.data h
  simp only [String.data_append] at h2
  have h3 : (toString j).data = (toString k).data := List.append_cancel_left h2
  have hj := readDigits_repr j
  have hk := readDigits_repr k
  have h4 : (Nat.repr j).data = (Nat.repr k).data := h3
  rw [h4, hk] at hj
  exact hj.symm

/-- Among the first `titles.length + 1` numbered names one is not a title. -/
theorem exists_unused_number (titles : List String) (baseName : String) :
    ∃ k, 2 ≤ k ∧ k ≤ titles.length + 2 ∧ numberedName baseName k ∉ titles := by
  by_contra hc
  push_neg at hc
  have hsub : (List.range (titles.length + 1)).map (fun i => numberedName baseName (i + 2)) ⊆
      titles := by
    intro x hx
    simp only [List.mem_map, List.mem_range] at hx
    obtain ⟨i, hi, rfl⟩ := hx
    exact hc (i + 2) (by omega) (by omega)
  have hnd : ((List.range (titles.length + 1)).map
      (fun i => numberedName baseName (i + 2))).Nodup := by
    apply List.Nodup.map _ (List.nodup_range _)
    intro a b hab
    have := numberedName_injective baseName _ _ hab
    omega
  have hle := (hnd.subperm hsub).length_le
  simp at hle

theorem generateUniqueNameLoop_run (arg : String → Nat → String) (titles : List String)
    (baseName : String) :
    ∀ (d c fuel : Nat), d + 1 ≤ fuel →
      (∀ j, c ≤ j → j < c + d → arg baseName j ∈ titles) →
      arg baseName (c + d) ∉ titles →
      generateUniqueNameLoop arg titles baseName fuel c (arg baseName c) =
        some (arg baseName (c + d)) := by
  intro d
  induction d with
  | zero =>
    intro c fuel hf _ hfree
    obtain ⟨f, rfl⟩ : ∃ f, fuel = f + 1 := ⟨fuel - 1, by omega⟩
    have hex : tabExists titles (arg baseName c) = false := by
      cases hb : tabExists titles (arg baseName c) with
      | false => rfl
      | true => exact absurd ((tabExists_iff _ _).mp hb) hfree
    simp [generateUniqueNameLoop, hex]
  | succ d ih =>
    intro c fuel hf hused hfree
    obtain ⟨f, rfl⟩ : ∃ f, fuel = f + 1 := ⟨fuel - 1, by omega⟩
    have hex : tabExists titles (arg baseName c) = true :=
      (tabExists_iff _ _).mpr (hused c (le_refl c) (by omega))
    rw [generateUniqueNameLoop, if_pos hex]
    have := ih (c + 1) f (by omega) (fun j h1 h2 => hused j (by omega) (by omega))
      (by rw [show c + 1 + d = c + (d + 1) by omega]; exact hfree)
    rw [this, show c + 1 + d = c + (d + 1) by omega]

/-- Claim C30: for every list of tab titles and every base name for which the Qt formatting
yields the base name, a blank and the decimal counter, `generateUniqueName` ends within
`titles.length + 2` passes of its loop and returns a name that is no tab title: the base
name when it is unused, otherwise the numbered name with the smallest counter `k ≥ 2` whose
numbered name is unused. -/
theorem C30_unique_name (arg : String → Nat → String) (titles : List String)
    (baseName : String) (fuel : Nat)
    (harg : ∀ k, arg baseName k = numberedName baseName k)
    (hfuel : titles.length + 2 ≤ fuel) :
    ∃ name, generateUniqueName arg titles baseName fuel = some name ∧ name ∉ titles ∧
      (baseName ∉ titles → name = baseName) ∧
      (baseName ∈ titles → ∃ k, 2 ≤ k ∧ k ≤ titles.length + 2 ∧
        name = baseName ++ " " ++ toString k ∧
        ∀ j, 2 ≤ j → j < k → baseName ++ " " ++ toString j ∈ titles) := by
  obtain ⟨f, rfl⟩ : ∃ f, fuel = f + 1 := ⟨fuel - 1, by omega⟩
  by_cases hb : baseName ∈ titles
  · have hex := exists_unused_number titles baseName
    classical
    have hk := Nat.find_spec hex
    have hmin := fun j => Nat.find_min hex (m := j)
    generalize Nat.find hex = k at hk hmin
    have hused : ∀ j, 2 ≤ j → j < k → numberedName baseName j ∈ titles := by
      intro j h2 hj
      by_contra hc
      exact hmin j hj ⟨h2, by omega, hc⟩
    refine ⟨numberedName baseName k, ?_, hk.2.2, fun h => absurd hb h, fun _ =>
      ⟨k, hk.1, hk.2.1, rfl, hused⟩⟩
    unfold generateUniqueName
    rw [generateUniqueNameLoop, if_pos ((tabExists_iff _ _).mpr hb)]
    have := generateUniqueNameLoop_run arg titles baseName (k - 2) 2 f (by omega)
      (fun j h1 h2 => by rw [harg]; exact hused j h1 (by omega))
      (by rw [harg, show 2 + (k - 2) = k by omega]; exact hk.2.2)
    rw [this, harg, show 2 + (k - 2) = k by omega]
  · refine ⟨baseName, ?_, hb, fun _ => rfl, fun h => absurd h hb⟩
    have hex : tabExists titles baseName = false := by
      cases hb2 : tabExists titles baseName with
      | false => rfl
      | true => exact absurd ((tabExists_iff _ _).mp hb2) hb
    simp [generateUniqueName, generateUniqueNameLoop, hex]

/-- Witness of C30: with the tabs `Analysis`, `Analysis 2` and `Data` the name returned for
the base name `Analysis` is `Analysis 3`. -/
theorem C30_witness :
    (∃ name, generateUniqueName numberedName ["Analysis", "Analysis 2", "Data"] "Analysis" 5 =
        some name ∧ name ∉ ["Analysis", "Analysis 2", "Data"] ∧
      ("Analysis" ∉ ["Analysis", "Analysis 2", "Data"] → name = "Analysis") ∧
      ("Analysis" ∈ ["Analysis", "Analysis 2", "Data"] → ∃ k, 2 ≤ k ∧
        k ≤ ["Analysis", "Analysis 2", "Data"].length + 2 ∧
        name = "Analysis" ++ " " ++ toString k ∧
        ∀ j, 2 ≤ j → j < k → "Analysis" ++ " " ++ toString j ∈
          ["Analysis", "Analysis 2", "Data"])) ∧
    generateUniqueName numberedName ["Analysis", "Analysis 2", "Data"] "Analysis" 5 =
      some "Analysis 3" :=
  ⟨C30_unique_name numberedName ["Analysis", "Analysis 2", "Data"] "Analysis" 5
    (fun _ => rfl) (by decide), by decide!⟩

/-! ## The damped normal matrix -/

theorem dampedMatrix_spec {H : Mat} {n : Nat} (hH : HasDims H n n) (lambda : ℚ) :
    HasDims (dampedMatrix H lambda n) n n ∧
    ∀ a b, mget (dampedMatrix H lambda n) a b =
      if a = b ∧ a < n then mget H a a + lambda * (1 + |mget H a a|) else mget H a b := by
  unfold dampedMatrix
  have key := foldl_range_invariant
    (fun (Hlm : Mat) i => mset Hlm i i (mget Hlm i i + lambda * (1 + |mget H i i|)))
    (fun m (Hlm : Mat) => HasDims Hlm n n ∧ ∀ a b, mget Hlm a b =
      if a = b ∧ a < m then mget H a a + lambda * (1 + |mget H a a|) else mget H a b) H n
    ⟨hH, fun a b => by rw [if_neg (by omega)]⟩
    (by
      intro i s hi hs
      refine ⟨hs.1.mset _ _ _, fun a b => ?_⟩
      rw [mget_mset_dims hs.1, hs.2 i i, if_neg (show ¬ (i = i ∧ i < i) by omega), hs.2 a b]
      by_cases hc : a = i ∧ b = i ∧ i < n ∧ i < n
      · obtain ⟨rfl, rfl, _, _⟩ := hc
        rw [if_pos ⟨rfl, rfl, hi, hi⟩, if_pos ⟨rfl, by omega⟩]
      · rw [if_neg hc]
        by_cases hc2 : a = b ∧ a < i
        · rw [if_pos hc2, if_pos ⟨hc2.1, by omega⟩]
        · rw [if_neg hc2, if_neg]
          intro hc3
          apply hc
          have : a = i := by omega
          exact ⟨this, by omega, hi, hi⟩)
  exact key

theorem hasDims_normalEquations (J : Mat) (r : Vec) (n : Nat) :
    HasDims (normalEquations J r n).1 n n := by
  unfold normalEquations
  exact (mirrorUpper_spec (hasDims_accumulateNormal J r n)).1

theorem normalEquations_entry (J : Mat) (r : Vec) (n i j : Nat) (hi : i < n) (hj : j < n) :
    mget (normalEquations J r n).1 i j = referenceH J r.length i j := by
  obtain ⟨hd, _, hH, _⟩ := accumulateNormal_spec J r n
  unfold normalEquations
  simp only
  rw [(mirrorUpper_spec hd).2 i j]
  by_cases hlt : i < j ∧ j < n
  · rw [if_pos hlt, hH j i (by omega) hj, referenceH_comm]
  · rw [if_neg hlt, hH i j (by omega) hi]

theorem referenceH_eq_sum (J : Mat) (m i j : Nat) :
    referenceH J m i j = ∑ k in Finset.range m, mget J k i * mget J k j := by
  induction m with
  | zero => simp [referenceH_zero]
  | succ m ih => rw [referenceH_succ, Finset.sum_range_succ, ih]

theorem referenceH_diag_nonneg (J : Mat) (m i : Nat) : 0 ≤ referenceH J m i i := by
  rw [referenceH_eq_sum]
  exact Finset.sum_nonneg (fun k _ => mul_self_nonneg _)

/-- Entries of the damped normal matrix. -/
theorem dampedNormal_entry (J : Mat) (r : Vec) (n : Nat) (lambda : ℚ) (i j : Nat)
    (hi : i < n) (hj : j < n) :
    mget (dampedNormal J r n lambda) i j =
      referenceH J r.length i j +
        if i = j then lambda * (1 + |referenceH J r.length i i|) else 0 := by
  unfold dampedNormal
  rw [(dampedMatrix_spec (hasDims_normalEquations J r n) lambda).2 i j]
  by_cases h : i = j
  · subst h
    rw [if_pos ⟨rfl, hi⟩, if_pos rfl, normalEquations_entry J r n i i hi hi]
  · rw [if_neg (fun hc => h hc.1), if_neg h, add_zero, normalEquations_entry J r n i j hi hj]

/-- The quadratic form of the damped normal matrix: a sum of squares plus the damping. -/
theorem quadraticForm_dampedNormal (J : Mat) (r : Vec) (n : Nat) (lambda : ℚ)
    (x : Fin n → ℚ) :
    quadraticForm (dampedNormal J r n lambda) n x =
      ∑ k in Finset.range r.length, (∑ i : Fin n, mget J k i * x i) ^ 2 +
        ∑ i : Fin n, lambda * (1 + |referenceH J r.length i i|) * x i ^ 2 := by
  unfold quadraticForm
  have h1 : ∀ i j : Fin n, x i * mget (dampedNormal J r n lambda) i j * x j =
      ∑ k in Finset.range r.length, (mget J k i * x i) * (mget J k j * x j) +
        (if i = j then lambda * (1 + |referenceH J r.length i i|) * x i ^ 2 else 0) := by
    intro i j
    rw [dampedNormal_entry J r n lambda i j i.2 j.2, referenceH_eq_sum, mul_add, add_mul,
      Finset.mul_sum, Finset.sum_mul]
    congr 1
    · apply Finset.sum_congr rfl
      intro k _
      ring
    · by_cases h : i = j
      · have h2 : (i : Nat) = (j : Nat) := by rw [h]
        rw [if_pos h, if_pos h2, h]
        ring
      · have h2 : ¬ (i : Nat) = (j : Nat) := fun hc => h (Fin.ext hc)
        rw [if_neg h, if_neg h2]
        ring
  simp only [h1, Finset.sum_add_distrib]
  congr 1
  · have h2 : ∀ k, (∑ i : Fin n, mget J k i * x i) ^ 2 =
        ∑ i : Fin n, ∑ j : Fin n, (mget J k i * x i) * (mget J k j * x j) := by
      intro k
      rw [sq, Finset.sum_mul_sum]
    simp only [h2]
    symm
    rw [Finset.sum_comm]
    apply Finset.sum_congr rfl
    intro i _
    exact Finset.sum_comm
  · apply Finset.sum_congr rfl
    intro i _
    simp

theorem quadraticForm_pos (J : Mat) (r : Vec) (n : Nat) (lambda : ℚ) (hl : 0 < lambda)
    (x : Fin n → ℚ) (hx : x ≠ 0) : 0 < quadraticForm (dampedNormal J r n lambda) n x := by
  rw [quadraticForm_dampedNormal]
  have h1 : 0 ≤ ∑ k in Finset.range r.length, (∑ i : Fin n, mget J k i * x i) ^ 2 :=
    Finset.sum_nonneg (fun k _ => sq_nonneg _)
  have hd : ∀ i : Fin n, 0 < lambda * (1 + |referenceH J r.length i i|) := by
    intro i
    have := abs_nonneg (referenceH J r.length i i)
    exact mul_pos hl (by linarith)
  have h2 : 0 < ∑ i : Fin n, lambda * (1 + |referenceH J r.length i i|) * x i ^ 2 := by
    obtain ⟨i0, hi0⟩ : ∃ i, x i ≠ 0 := by
      by_contra hc
      push_neg at hc
      exact hx (funext hc)
    apply Finset.sum_pos'
    · intro i _
      exact mul_nonneg (le_of_lt (hd i)) (sq_nonneg _)
    · exact ⟨i0, Finset.mem_univ _, mul_pos (hd i0) (by positivity)⟩
  linarith

theorem quadraticForm_of_solves_zero (A : Mat) (n : Nat) (x : Fin n → ℚ)
    (h : ∀ i : Fin n, ∑ j : Fin n, mget A i j * x j = 0) : quadraticForm A n x = 0 := by
  unfold quadraticForm
  apply Finset.sum_eq_zero
  intro i _
  have : ∑ j : Fin n, x i * mget A i j * x j = x i * ∑ j : Fin n, mget A i j * x j := by
    rw [Finset.mul_sum]
    apply Finset.sum_congr rfl
    intro j _
    ring
  rw [this, h i, mul_zero]

/-- A matrix with positive quadratic form admits exactly one solution of every system. -/
theorem unique_solution_of_pos (A : Mat) (n : Nat)
    (hpos : ∀ x : Fin n → ℚ, x ≠ 0 → 0 < quadraticForm A n x) (b : Vec) :
    ∃! x : Fin n → ℚ, SolvesSystem A b n x := by
  have hinj : Function.Injective
      (Matrix.mulVecLin (Matrix.of fun i j : Fin n => mget A i j)) := by
    rw [injective_iff_map_eq_zero]
    intro x hx
    by_contra hne
    have h0 : quadraticForm A n x = 0 := by
      apply quadraticForm_of_solves_zero
      intro i
      have := congrFun hx i
      simpa [Matrix.mulVec, Matrix.dotProduct] using this
    have := hpos x hne
    linarith
  have hsurj := LinearMap.injective_iff_surjective.mp hinj
  obtain ⟨x, hx⟩ := hsurj (fun i : Fin n => b.getD i 0)
  have hsol : ∀ y : Fin n → ℚ, SolvesSystem A b n y ↔
      Matrix.mulVecLin (Matrix.of fun i j : Fin n => mget A i j) y =
        fun i : Fin n => b.getD i 0 := by
    intro y
    constructor
    · intro h
      funext i
      simpa [Matrix.mulVec, Matrix.dotProduct] using h i
    · intro h i
      have := congrFun h i
      simpa [Matrix.mulVec, Matrix.dotProduct] using this
  refine ⟨x, (hsol x).mpr hx, fun y hy => hinj (((hsol y).mp hy).trans hx.symm)⟩

/-! ## Diagonal dominance -/

/-- Counterexample to C22 as stated: in the run on `envTwoSlopes` the first matrix handed
to the solver is not diagonally dominant. -/
theorem C22_counterexample :
    ((solvedSystems
        (runLevenbergMarquardtOptimization envTwoSlopes stopAfterOne ModelType.Model_1
          paramsTwoSlopes 1).trace).head?.map fun s => decide (RowDominant s.1 2)) =
      some false := by
  decide!

theorem offDiagonalSum_congr (A B : Mat) (n i : Nat)
    (h : ∀ j, j < n → j ≠ i → mget A i j = mget B i j) :
    offDiagonalSum A n i = offDiagonalSum B n i := by
  unfold offDiagonalSum
  congr 1
  apply List.map_congr_left
  intro j hj
  simp only [List.mem_filter, List.mem_range, decide_eq_true_eq] at hj
  rw [h j hj.1 hj.2]

theorem referenceH_sq_le (J : Mat) (m i j : Nat) :
    referenceH J m i j ^ 2 ≤ referenceH J m i i * referenceH J m j j := by
  rw [referenceH_eq_sum, referenceH_eq_sum, referenceH_eq_sum]
  have h := Finset.sum_mul_sq_le_sq_mul_sq (Finset.range m) (fun k => mget J k i)
    (fun k => mget J k j)
  simpa [sq] using h

/-! ## A concrete iteration -/

/-- Witness of C27: in the first outer iteration on `envBowl` all five trials are made, each
from the initial map in which `S = 1` is perturbed and stepped linearly. -/
theorem C27_witness :
    (trialInputs envBowl ModelType.Model_1 paramsSkin [0] 1
        (initialNormal envBowl ModelType.Model_1 paramsSkin 1).1
        (initialNormal envBowl ModelType.Model_1 paramsSkin 1).2 2 5
        (beginIteration envBowl paramsSkin [0] 50 0
          (initialState envBowl ModelType.Model_1 paramsSkin 1))).length = 5 ∧
    ∀ s ∈ trialInputs envBowl ModelType.Model_1 paramsSkin [0] 1
        (initialNormal envBowl ModelType.Model_1 paramsSkin 1).1
        (initialNormal envBowl ModelType.Model_1 paramsSkin 1).2 2 5
        (beginIteration envBowl paramsSkin [0] 50 0
          (initialState envBowl ModelType.Model_1 paramsSkin 1)),
      s.currentParamMap = (initialState envBowl ModelType.Model_1 paramsSkin 1).currentParamMap :=
  have h := C27_same_classification envBowl ModelType.Model_1 paramsSkin [0] 1
    (initialNormal envBowl ModelType.Model_1 paramsSkin 1).1
    (initialNormal envBowl ModelType.Model_1 paramsSkin 1).2 2 50 0
    (initialState envBowl ModelType.Model_1 paramsSkin 1) 0
  ⟨by decide!, fun s hs => (h.2.2.1 s hs).1⟩

/-! ## Rounding to double -/

theorem binaryExponentAux_spec (fuel : Nat) :
    ∀ x : ℚ, 0 < x → (2 : ℚ) ^ (-(fuel : ℤ)) ≤ x → x < 2 ^ ((fuel : ℤ) + 1) →
      (2 : ℚ) ^ binaryExponentAux fuel x ≤ x ∧ x < 2 ^ (binaryExponentAux fuel x + 1) := by
  induction fuel with
  | zero =>
    intro x _ h1 h2
    simp only [binaryExponentAux]
    norm_num at h1 h2 ⊢
    exact ⟨h1, h2⟩
  | succ f ih =>
    intro x hx h1 h2
    have h2pos : (0 : ℚ) < 2 ^ (-(f : ℤ)) := zpow_pos (by norm_num) _
    have e1 : (2 : ℚ) ^ (-((f + 1 : ℕ) : ℤ)) = 2 ^ (-(f : ℤ)) / 2 := by
      rw [show (-((f + 1 : ℕ) : ℤ)) = -(f : ℤ) - 1 by push_cast; ring,
        zpow_sub_one₀ (by norm_num), div_eq_mul_inv]
    have e2 : (2 : ℚ) ^ (((f + 1 : ℕ) : ℤ) + 1) = 2 ^ ((f : ℤ) + 1) * 2 := by
      rw [show (((f + 1 : ℕ) : ℤ) + 1) = (f : ℤ) + 1 + 1 by push_cast; ring,
        zpow_add_one₀ (by norm_num)]
    rw [e1] at h1
    rw [e2] at h2
    have hf1 : (1 : ℚ) ≤ 2 ^ (f : ℤ) := one_le_zpow₀ (by norm_num) (by positivity)
    have e3 : (2 : ℚ) ^ ((f : ℤ) + 1) = 2 ^ (f : ℤ) * 2 := zpow_add_one₀ (by norm_num) _
    have hsmall : (2 : ℚ) ^ (-(f : ℤ)) ≤ 1 := by
      apply zpow_le_one_of_nonpos₀ (by norm_num)
      simp
    unfold binaryExponentAux
    by_cases hlt : x < 1
    · rw [if_pos hlt]
      obtain ⟨a, b⟩ := ih (x * 2) (by linarith) (by linarith) (by linarith)
      rw [zpow_sub_one₀ (by norm_num), sub_add_cancel]
      rw [zpow_add_one₀ (by norm_num)] at b
      constructor
      · rw [← div_eq_mul_inv]; linarith
      · linarith
    · rw [if_neg hlt]
      by_cases hge : (2 : ℚ) ≤ x
      · rw [if_pos hge]
        obtain ⟨a, b⟩ := ih (x / 2) (by linarith) (by linarith) (by linarith)
        have e4 : (2 : ℚ) ^ (binaryExponentAux f (x / 2) + 1) =
            2 ^ binaryExponentAux f (x / 2) * 2 := zpow_add_one₀ (by norm_num) _
        have e5 : (2 : ℚ) ^ (binaryExponentAux f (x / 2) + 1 + 1) =
            2 ^ binaryExponentAux f (x / 2) * 2 * 2 := by
          rw [zpow_add_one₀ (by norm_num), e4]
        rw [e4] at b
        rw [e4, e5]
        constructor
        · linarith
        · linarith
      · rw [if_neg hge]
        norm_num
        exact ⟨by linarith, by linarith⟩

theorem binaryExponent_spec (x : ℚ) (hx : 0 < x) :
    (2 : ℚ) ^ binaryExponent x ≤ x ∧ x < 2 ^ (binaryExponent x + 1) := by
  unfold binaryExponent
  have hnum : 0 < x.num := Rat.num_pos.mpr hx
  have hden : (0 : ℚ) < x.den := by exact_mod_cast x.den_pos
  have h1 : (x.num.natAbs : ℚ) = (x.num : ℚ) := by
    rw [← Int.cast_natCast, Int.natAbs_of_nonneg (le_of_lt hnum)]
  have hp1 : (1 : ℚ) ≤ (x.num.natAbs : ℚ) := by
    have : 1 ≤ x.num.natAbs := by
      have := Int.natAbs_pos.mpr (ne_of_gt hnum)
      omega
    exact_mod_cast this
  have hq1 : (1 : ℚ) ≤ (x.den : ℚ) := by exact_mod_cast x.den_pos
  have hxle : x ≤ (x.num.natAbs : ℚ) :=
    calc x = (x.num : ℚ) / (x.den : ℚ) := (Rat.num_div_den x).symm
      _ = (x.num.natAbs : ℚ) / (x.den : ℚ) := by rw [h1]
      _ ≤ (x.num.natAbs : ℚ) := div_le_self (by linarith) hq1
  have hxge : ((x.den : ℚ))⁻¹ ≤ x :=
    calc ((x.den : ℚ))⁻¹ = 1 / (x.den : ℚ) := by rw [one_div]
      _ ≤ (x.num.natAbs : ℚ) / (x.den : ℚ) := by
        apply div_le_div_of_nonneg_right hp1 (le_of_lt hden)
      _ = (x.num : ℚ) / (x.den : ℚ) := by rw [h1]
      _ = x := Rat.num_div_den x
  have hpp : (x.num.natAbs : ℚ) < 2 ^ (x.num.natAbs) := by exact_mod_cast Nat.lt_two_pow _
  have hqq : (x.den : ℚ) < 2 ^ (x.den) := by exact_mod_cast Nat.lt_two_pow _
  have h2p : (1 : ℚ) ≤ 2 ^ (x.num.natAbs) := one_le_pow₀ (by norm_num)
  have h2q : (1 : ℚ) ≤ 2 ^ (x.den) := one_le_pow₀ (by norm_num)
  generalize (x.num.natAbs : ℚ) = P at *
  generalize (x.den : ℚ) = Q at *
  generalize hA : ((2 : ℚ) ^ (x.num.natAbs)) = A at *
  generalize hB : ((2 : ℚ) ^ (x.den)) = B at *
  apply binaryExponentAux_spec _ x hx
  · rw [zpow_neg, zpow_natCast, pow_add, hA, hB]
    refine le_trans ?_ hxge
    apply inv_anti₀ hden
    nlinarith
  · rw [show ((x.num.natAbs + x.den : ℕ) : ℤ) + 1 = ((x.num.natAbs + x.den + 1 : ℕ) : ℤ) by
      push_cast; ring, zpow_natCast, pow_succ, pow_add, hA, hB]
    nlinarith

theorem roundHalfEven_spec (m : ℚ) : |((roundHalfEven m : ℤ) : ℚ) - m| ≤ 1 / 2 := by
  have h1 : ((⌊m⌋ : ℤ) : ℚ) ≤ m := Int.floor_le m
  have h2 : m < ((⌊m⌋ : ℤ) : ℚ) + 1 := Int.lt_floor_add_one m
  unfold roundHalfEven
  rw [abs_le]
  split
  · constructor <;> linarith
  · split
    · push_cast
      constructor <;> linarith
    · split
      · constructor <;> linarith
      · push_cast
        constructor <;> linarith

theorem roundHalfEven_pos (m : ℚ) (hm : 1 ≤ m) : 1 ≤ roundHalfEven m := by
  have h1 : (1 : ℤ) ≤ ⌊m⌋ := Int.le_floor.mpr (by exact_mod_cast hm)
  unfold roundHalfEven
  split
  · exact h1
  · split
    · omega
    · split
      · exact h1
      · omega

/-- A positive number is rounded to a positive number with relative error at most `2^-53`. -/
theorem roundPositive_spec (x : ℚ) (hx : 0 < x) :
    0 < roundPositive x ∧ |roundPositive x - x| ≤ 2 ^ (-53 : ℤ) * x := by
  obtain ⟨hlo, _⟩ := binaryExponent_spec x hx
  unfold roundPositive
  have hu : (0 : ℚ) < 2 ^ (binaryExponent x - 52) := zpow_pos (by norm_num) _
  have hm : (1 : ℚ) ≤ x / 2 ^ (binaryExponent x - 52) := by
    rw [le_div_iff₀ hu, one_mul]
    refine le_trans ?_ hlo
    exact zpow_le_zpow_right₀ (by norm_num) (by omega)
  constructor
  · have := roundHalfEven_pos _ hm
    have h1 : (1 : ℚ) ≤ (roundHalfEven (x / 2 ^ (binaryExponent x - 52)) : ℚ) := by
      exact_mod_cast this
    exact mul_pos (by linarith) hu
  · have hr := roundHalfEven_spec (x / 2 ^ (binaryExponent x - 52))
    have key : (roundHalfEven (x / 2 ^ (binaryExponent x - 52)) : ℚ) *
        2 ^ (binaryExponent x - 52) - x =
        ((roundHalfEven (x / 2 ^ (binaryExponent x - 52)) : ℚ) -
          x / 2 ^ (binaryExponent x - 52)) * 2 ^ (binaryExponent x - 52) := by
      field_simp
    rw [key, abs_mul, abs_of_pos hu]
    have h53 : (2 : ℚ) ^ (binaryExponent x - 52) * (1 / 2) =
        2 ^ (-53 : ℤ) * 2 ^ binaryExponent x := by
      rw [← zpow_add₀ (by norm_num : (2 : ℚ) ≠ 0),
        show (-53 : ℤ) + binaryExponent x = binaryExponent x - 52 - 1 by ring,
        zpow_sub_one₀ (by norm_num : (2 : ℚ) ≠ 0)]
      ring
    calc |(roundHalfEven (x / 2 ^ (binaryExponent x - 52)) : ℚ) -
          x / 2 ^ (binaryExponent x - 52)| * 2 ^ (binaryExponent x - 52)
        ≤ (1 / 2) * 2 ^ (binaryExponent x - 52) :=
          mul_le_mul_of_nonneg_right hr (le_of_lt hu)
      _ = 2 ^ (-53 : ℤ) * 2 ^ binaryExponent x := by rw [← h53]; ring
      _ ≤ 2 ^ (-53 : ℤ) * x := mul_le_mul_of_nonneg_left hlo (by positivity)

theorem roundDouble_spec (x : ℚ) (hx : 0 < x) :
    0 < roundDouble x ∧ |roundDouble x - x| ≤ 2 ^ (-53 : ℤ) * x := by
  unfold roundDouble
  rw [if_pos hx]
  exact roundPositive_spec x hx

/-! ## The damping factor in double arithmetic -/

theorem lambdaTrajectory_snoc (fl : ℚ → ℚ) (l : List Bool) (b : Bool) :
    lambdaTrajectory fl (l ++ [b]) = lambdaStep fl (lambdaTrajectory fl l) b := by
  simp [lambdaTrajectory, List.foldl_append]

theorem lambdaFold_exact (l : List Bool) :
    ∀ lam : ℚ, l.foldl (lambdaStep id) lam =
      lam * (10 : ℚ) ^ ((l.count false : ℤ) - (l.count true : ℤ)) := by
  induction l with
  | nil => intro lam; simp
  | cons b rest ih =>
    intro lam
    rw [List.foldl_cons, ih]
    cases b
    · simp only [lambdaStep, Bool.false_eq_true, if_false, id, List.count_cons_self,
        List.count_cons_of_ne (by decide : true ≠ false)]
      rw [show (((List.count false rest + 1 : ℕ) : ℤ) - (List.count true rest : ℤ)) =
        ((List.count false rest : ℤ) - (List.count true rest : ℤ)) + 1 by push_cast; ring,
        zpow_add_one₀ (by norm_num)]
      ring
    · simp only [lambdaStep, if_true, id, List.count_cons_self,
        List.count_cons_of_ne (by decide : false ≠ true)]
      rw [show ((List.count false rest : ℤ) - ((List.count true rest + 1 : ℕ) : ℤ)) =
        ((List.count false rest : ℤ) - (List.count true rest : ℤ)) - 1 by push_cast; ring,
        zpow_sub_one₀ (by norm_num)]
      ring

theorem lambdaTrajectory_exact (l : List Bool) :
    lambdaTrajectory id l =
      0.01 * (10 : ℚ) ^ ((l.count false : ℤ) - (l.count true : ℤ)) := by
  unfold lambdaTrajectory
  rw [lambdaFold_exact]
  rfl

/-- One rounded multiplication keeps the value positive and adds one factor `1 + 2^-53` to
the bound of the relative error. -/
theorem roundDouble_scaled (c lam Lam R : ℚ) (hc : 0 < c) (hlam : 0 < lam) (hLam : 0 < Lam)
    (h : |lam - Lam| ≤ R * Lam) :
    0 < roundDouble (c * lam) ∧
      |roundDouble (c * lam) - c * Lam| ≤ ((1 + 2 ^ (-53 : ℤ)) * (1 + R) - 1) * (c * Lam) := by
  obtain ⟨hpos, herr⟩ := roundDouble_spec (c * lam) (mul_pos hc hlam)
  refine ⟨hpos, ?_⟩
  have he : (0 : ℚ) < 2 ^ (-53 : ℤ) := zpow_pos (by norm_num) _
  rw [abs_le] at h herr ⊢
  have hcl : 0 < c * Lam := mul_pos hc hLam
  have h1 : c * lam ≤ (1 + R) * (c * Lam) := by nlinarith [h.2]
  have h2 : c * lam - c * Lam ≤ R * (c * Lam) := by nlinarith [h.2]
  have h3 : -(R * (c * Lam)) ≤ c * lam - c * Lam := by nlinarith [h.1]
  have h4 : 2 ^ (-53 : ℤ) * (c * lam) ≤ 2 ^ (-53 : ℤ) * ((1 + R) * (c * Lam)) :=
    mul_le_mul_of_nonneg_left h1 (le_of_lt he)
  constructor
  · nlinarith [herr.1]
  · nlinarith [herr.2]

theorem lambdaFold_error (l : List Bool) :
    ∀ (lam Lam : ℚ) (k : ℕ), 0 < lam → 0 < Lam →
      |lam - Lam| ≤ ((1 + 2 ^ (-53 : ℤ)) ^ k - 1) * Lam →
      0 < l.foldl (lambdaStep roundDouble) lam ∧
      |l.foldl (lambdaStep roundDouble) lam - l.foldl (lambdaStep id) Lam| ≤
        ((1 + 2 ^ (-53 : ℤ)) ^ (k + l.length) - 1) * l.foldl (lambdaStep id) Lam := by
  have he : (0 : ℚ) < 2 ^ (-53 : ℤ) := zpow_pos (by norm_num) _
  induction l with
  | nil => intro lam Lam k hlam _ h; exact ⟨hlam, by simpa using h⟩
  | cons b rest ih =>
    intro lam Lam k hlam hLam h
    have hk : ((1 : ℚ) + 2 ^ (-53 : ℤ)) * (1 + ((1 + 2 ^ (-53 : ℤ)) ^ k - 1)) - 1 =
        (1 + 2 ^ (-53 : ℤ)) ^ (k + 1) - 1 := by
      rw [pow_succ]; ring
    rw [List.foldl_cons, List.foldl_cons, List.length_cons,
      show k + (rest.length + 1) = (k + 1) + rest.length by ring]
    cases b
    · have hs := roundDouble_scaled 10 lam Lam _ (by norm_num) hlam hLam h
      rw [hk] at hs
      have e1 : lambdaStep roundDouble lam false = roundDouble (10 * lam) := by
        simp [lambdaStep, mul_comm]
      have e2 : lambdaStep id Lam false = 10 * Lam := by
        simp [lambdaStep, mul_comm]
      rw [e1, e2]
      exact ih _ _ (k + 1) hs.1 (by linarith) hs.2
    · have hs := roundDouble_scaled (1 / 10) lam Lam _ (by norm_num) hlam hLam h
      rw [hk] at hs
      have e1 : lambdaStep roundDouble lam true = roundDouble (1 / 10 * lam) := by
        simp only [lambdaStep, if_true]
        congr 1
        ring
      have e2 : lambdaStep id Lam true = 1 / 10 * Lam := by
        simp only [lambdaStep, if_true, id]
        ring
      rw [e1, e2]
      exact ih _ _ (k + 1) hs.1 (by linarith) hs.2

/-- The damping factor as the code holds it is positive and differs from the exact value by
a relative error of at most `(1 + 2^-53)^(n+1) - 1` after `n` trials. -/
theorem lambdaTrajectory_error (l : List Bool) :
    0 < lambdaTrajectory roundDouble l ∧
    |lambdaTrajectory roundDouble l - lambdaTrajectory id l| ≤
      ((1 + 2 ^ (-53 : ℤ)) ^ (l.length + 1) - 1) * lambdaTrajectory id l := by
  unfold lambdaTrajectory
  obtain ⟨h0, h1⟩ := roundDouble_spec 0.01 (by norm_num)
  have := lambdaFold_error l (roundDouble 0.01) (id 0.01) 1 h0 (by norm_num)
    (by simpa using h1)
  rw [show 1 + l.length = l.length + 1 by ring] at this
  exact this

/-- Within the 250 trials of a run the damping factor stays far inside the range of the
normal doubles, so that no rounding step underflows or overflows. -/
theorem lambdaTrajectory_range (l : List Bool) (hlen : l.length ≤ 250) :
    (2 : ℚ) ^ (-1022 : ℤ) ≤ lambdaTrajectory roundDouble l ∧
      lambdaTrajectory roundDouble l ≤ 2 ^ (1023 : ℤ) := by
  obtain ⟨_, herr⟩ := lambdaTrajectory_error l
  rw [lambdaTrajectory_exact] at herr
  have hct : l.count true ≤ 250 := le_trans (List.count_le_length _ _) hlen
  have hcf : l.count false ≤ 250 := le_trans (List.count_le_length _ _) hlen
  have hlo : (10 : ℚ) ^ (-250 : ℤ) ≤
      (10 : ℚ) ^ ((l.count false : ℤ) - (l.count true : ℤ)) :=
    zpow_le_zpow_right₀ (by norm_num) (by omega)
  have hhi : (10 : ℚ) ^ ((l.count false : ℤ) - (l.count true : ℤ)) ≤ (10 : ℚ) ^ (250 : ℤ) :=
    zpow_le_zpow_right₀ (by norm_num) (by omega)
  have hpow : ((1 : ℚ) + 2 ^ (-53 : ℤ)) ^ (l.length + 1) ≤ (1 + 2 ^ (-53 : ℤ)) ^ 251 :=
    pow_le_pow_right₀ (by norm_num) (by omega)
  have h251 : ((1 : ℚ) + 2 ^ (-53 : ℤ)) ^ 251 ≤ 3 / 2 := by norm_num
  have hone : (1 : ℚ) ≤ (1 + 2 ^ (-53 : ℤ)) ^ (l.length + 1) :=
    one_le_pow₀ (by norm_num)
  have hP : (0 : ℚ) < (10 : ℚ) ^ ((l.count false : ℤ) - (l.count true : ℤ)) :=
    zpow_pos (by norm_num) _
  have e1 : (2 : ℚ) ^ (-1022 : ℤ) ≤ 1 / 2 * (0.01 * (10 : ℚ) ^ (-250 : ℤ)) := by norm_num
  have e2 : (3 / 2 : ℚ) * (0.01 * (10 : ℚ) ^ (250 : ℤ)) ≤ 2 ^ (1023 : ℤ) := by norm_num
  generalize (10 : ℚ) ^ ((l.count false : ℤ) - (l.count true : ℤ)) = P at *
  generalize ((1 : ℚ) + 2 ^ (-53 : ℤ)) ^ (l.length + 1) = Q at *
  generalize (10 : ℚ) ^ (-250 : ℤ) = Plo at *
  generalize (10 : ℚ) ^ (250 : ℤ) = Phi at *
  generalize (2 : ℚ) ^ (-1022 : ℤ) = dmin at *
  generalize (2 : ℚ) ^ (1023 : ℤ) = dmax at *
  generalize lambdaTrajectory roundDouble l = lam at *
  rw [abs_le] at herr
  have hQ : Q ≤ 3 / 2 := le_trans hpow h251
  have hb : (Q - 1) * (0.01 * P) ≤ (1 / 2) * (0.01 * P) :=
    mul_le_mul_of_nonneg_right (by linarith) (by linarith)
  constructor
  · linarith [herr.1]
  · linarith [herr.2]

theorem trialLoop_accepted_first (E : Env) (mt : ModelType) (params : List FitParameter)
    (fit : List Nat) (w : ℚ) (H : Mat) (g : Vec) (nRes : Nat) (st : LMState)
    (h : (trialStep E mt params fit w H g nRes st).2 = true) (n : Nat) :
    trialLoop E mt params fit w H g nRes (n + 1) st = trialStep E mt params fit w H g nRes st := by
  rw [trialLoop]
  simp [h]

theorem trialSteps_trialStep (E : Env) (mt : ModelType) (params : List FitParameter)
    (fit : List Nat) (w : ℚ) (H : Mat) (g : Vec) (nRes : Nat) (st : LMState) :
    trialSteps (trialStep E mt params fit w H g nRes st).1.trace = trialSteps st.trace + 1 := by
  unfold trialStep
  simp only
  split <;> simp [trialSteps_append, trialSteps]

/-- Claim C25, as amended: the damping factor starts at the double `0.01`; an accepted trial
replaces it by the rounded quotient `λ / 10` and is the last trial of its trial loop, a
rejected trial replaces it by the rounded product `λ * 10`.  After `r` rejected and `a`
accepted trials, in any order, the exact value would be `0.01 * 10 ^ (r - a)`; the value the
code holds is positive and differs from it by a relative error of at most
`(1 + 2^-53)^(r + a + 1) - 1`, and within the 250 trials of a run it stays inside the range
of the normal doubles. -/
theorem C25_damping_factor_rounded (outcomes : List Bool) :
    (∀ fl : ℚ → ℚ, lambdaTrajectory fl [] = fl 0.01) ∧
    (∀ (fl : ℚ → ℚ) (l : List Bool),
      lambdaTrajectory fl (l ++ [true]) = fl (lambdaTrajectory fl l / 10) ∧
      lambdaTrajectory fl (l ++ [false]) = fl (lambdaTrajectory fl l * 10)) ∧
    (∀ (E : Env) (mt : ModelType) (params : List FitParameter) (fit : List Nat) (w : ℚ)
        (H : Mat) (g : Vec) (nRes : Nat) (st : LMState) (n : Nat),
      (trialStep E mt params fit w H g nRes st).2 = true →
        (trialLoop E mt params fit w H g nRes (n + 1) st).2 = true ∧
        trialSteps (trialLoop E mt params fit w H g nRes (n + 1) st).1.trace =
          trialSteps st.trace + 1) ∧
    lambdaTrajectory id outcomes =
      0.01 * (10 : ℚ) ^ ((outcomes.count false : ℤ) - (outcomes.count true : ℤ)) ∧
    0 < lambdaTrajectory roundDouble outcomes ∧
    |lambdaTrajectory roundDouble outcomes -
        0.01 * (10 : ℚ) ^ ((outcomes.count false : ℤ) - (outcomes.count true : ℤ))| ≤
      ((1 + 2 ^ (-53 : ℤ)) ^ (outcomes.length + 1) - 1) *
        (0.01 * (10 : ℚ) ^ ((outcomes.count false : ℤ) - (outcomes.count true : ℤ))) ∧
    (outcomes.length ≤ 250 →
      (2 : ℚ) ^ (-1022 : ℤ) ≤ lambdaTrajectory roundDouble outcomes ∧
        lambdaTrajectory roundDouble outcomes ≤ 2 ^ (1023 : ℤ)) := by
  refine ⟨fun _ => rfl, ?_, ?_, lambdaTrajectory_exact outcomes,
    (lambdaTrajectory_error outcomes).1, ?_, lambdaTrajectory_range outcomes⟩
  · intro fl l
    exact ⟨by rw [lambdaTrajectory_snoc]; rfl, by rw [lambdaTrajectory_snoc]; rfl⟩
  · intro E mt params fit w H g nRes st n h
    rw [trialLoop_accepted_first E mt params fit w H g nRes st h n]
    exact ⟨h, trialSteps_trialStep E mt params fit w H g nRes st⟩
  · have := (lambdaTrajectory_error outcomes).2
    rw [lambdaTrajectory_exact] at this
    exact this

/-- Witness of C25 as amended: after eight accepted and then twenty rejected trials the
damping factor lies in the range of the normal doubles; the first trial of the run on
`envSkin` is accepted and ends its trial loop. -/
theorem C25_witness :
    ((2 : ℚ) ^ (-1022 : ℤ) ≤
        lambdaTrajectory roundDouble (List.replicate 8 true ++ List.replicate 20 false) ∧
      lambdaTrajectory roundDouble (List.replicate 8 true ++ List.replicate 20 false) ≤
        2 ^ (1023 : ℤ)) ∧
    (trialLoop envSkin ModelType.Model_1 paramsSkin [0] 1
        (initialNormal envSkin ModelType.Model_1 paramsSkin 1).1
        (initialNormal envSkin ModelType.Model_1 paramsSkin 1).2 2 5
        (initialState envSkin ModelType.Model_1 paramsSkin 1)).2 = true :=
  have h := C25_damping_factor_rounded (List.replicate 8 true ++ List.replicate 20 false)
  ⟨h.2.2.2.2.2.2 (by decide),
    (h.2.2.1 envSkin ModelType.Model_1 paramsSkin [0] 1
      (initialNormal envSkin ModelType.Model_1 paramsSkin 1).1
      (initialNormal envSkin ModelType.Model_1 paramsSkin 1).2 2
      (initialState envSkin ModelType.Model_1 paramsSkin 1) 4 (by decide!)).1⟩

/-- Counterexample to C25 as stated: after eight accepted and then twenty rejected trials
the double damping factor is `1e10 + 2^-17`, not `0.01 * 10 ^ 12 = 1e10`, so that the test
`lambda > 1e10` of line 652 holds although the formula gives a value that does not exceed
`1e10`; after four accepted trials it already differs from the double nearest to
`0.01 * 10 ^ (-4)`. -/
theorem C25_counterexample :
    lambdaTrajectory roundDouble (List.replicate 8 true ++ List.replicate 20 false) =
      1e10 + 2 ^ (-17 : ℤ) ∧
    lambdaTrajectory roundDouble (List.replicate 8 true ++ List.replicate 20 false) > 1e10 ∧
    ¬ ((0.01 : ℚ) * 10 ^ ((20 : ℤ) - 8) > 1e10) ∧
    lambdaTrajectory roundDouble (List.replicate 4 true) ≠
      roundDouble (0.01 * 10 ^ ((0 : ℤ) - 4)) := by
  decide!

/-! ## The damped matrix as computed -/

theorem dampedMatrixRounded_spec {H : Mat} {n : Nat} (hH : HasDims H n n) (fl : ℚ → ℚ)
    (lambda : ℚ) :
    HasDims (dampedMatrixRounded fl H lambda n) n n ∧
    ∀ a b, mget (dampedMatrixRounded fl H lambda n) a b =
      if a = b ∧ a < n then fl (mget H a a + fl (lambda * fl (1 + |mget H a a|)))
      else mget H a b := by
  unfold dampedMatrixRounded
  have key := foldl_range_invariant
    (fun (Hlm : Mat) i =>
      mset Hlm i i (fl (mget Hlm i i + fl (lambda * fl (1 + |mget H i i|)))))
    (fun m (Hlm : Mat) => HasDims Hlm n n ∧ ∀ a b, mget Hlm a b =
      if a = b ∧ a < m then fl (mget H a a + fl (lambda * fl (1 + |mget H a a|)))
      else mget H a b) H n
    ⟨hH, fun a b => by rw [if_neg (by omega)]⟩
    (by
      intro i s hi hs
      refine ⟨hs.1.mset _ _ _, fun a b => ?_⟩
      rw [mget_mset_dims hs.1, hs.2 i i, if_neg (show ¬ (i = i ∧ i < i) by omega), hs.2 a b]
      by_cases hc : a = i ∧ b = i ∧ i < n ∧ i < n
      · obtain ⟨rfl, rfl, _, _⟩ := hc
        rw [if_pos ⟨rfl, rfl, hi, hi⟩, if_pos ⟨rfl, by omega⟩]
      · rw [if_neg hc]
        by_cases hc2 : a = b ∧ a < i
        · rw [if_pos hc2, if_pos ⟨hc2.1, by omega⟩]
        · rw [if_neg hc2, if_neg]
          intro hc3
          apply hc
          have : a = i := by omega
          exact ⟨this, by omega, hi, hi⟩)
  exact key

/-- Without rounding the damped matrix is the one of the exact model. -/
theorem dampedMatrixRounded_id (H : Mat) (lambda : ℚ) (n : Nat) :
    dampedMatrixRounded id H lambda n = dampedMatrix H lambda n := rfl

/-- The quadratic form of a matrix whose diagonal was raised by `d`. -/
theorem quadraticForm_add_diag (H A : Mat) (n : Nat) (d : Fin n → ℚ)
    (hA : ∀ i j : Fin n, mget A i j = mget H i j + if i = j then d i else 0)
    (x : Fin n → ℚ) :
    quadraticForm A n x = quadraticForm H n x + ∑ i : Fin n, d i * x i ^ 2 := by
  unfold quadraticForm
  have h1 : ∀ i j : Fin n, x i * mget A i j * x j =
      x i * mget H i j * x j + (if i = j then d i * x i ^ 2 else 0) := by
    intro i j
    rw [hA i j]
    by_cases h : i = j
    · rw [if_pos h, if_pos h, h]; ring
    · rw [if_neg h, if_neg h]; ring
  simp only [h1, Finset.sum_add_distrib]
  congr 1
  apply Finset.sum_congr rfl
  intro i _
  simp

theorem quadraticForm_congr (A B : Mat) (n : Nat)
    (h : ∀ i j, i < n → j < n → mget A i j = mget B i j) (x : Fin n → ℚ) :
    quadraticForm A n x = quadraticForm B n x := by
  unfold quadraticForm
  apply Finset.sum_congr rfl
  intro i _
  apply Finset.sum_congr rfl
  intro j _
  rw [h i j i.2 j.2]

/-- The exactly accumulated normal matrix is positive semidefinite. -/
theorem quadraticForm_normalEquations_nonneg (J : Mat) (r : Vec) (n : Nat) (x : Fin n → ℚ) :
    0 ≤ quadraticForm (normalEquations J r n).1 n x := by
  have h0 : quadraticForm (normalEquations J r n).1 n x =
      quadraticForm (dampedNormal J r n 0) n x := by
    apply quadraticForm_congr
    intro i j hi hj
    rw [dampedNormal_entry J r n 0 i j hi hj, normalEquations_entry J r n i j hi hj]
    simp
  rw [h0, quadraticForm_dampedNormal]
  have h1 : 0 ≤ ∑ k in Finset.range r.length, (∑ i : Fin n, mget J k i * x i) ^ 2 :=
    Finset.sum_nonneg (fun k _ => sq_nonneg _)
  simp only [zero_mul, Finset.sum_const_zero, add_zero]
  exact h1

/-- A positive semidefinite matrix whose diagonal was raised strictly is positive
definite. -/
theorem quadraticForm_raised_pos {H : Mat} {n : Nat} (hH : HasDims H n n) (fl : ℚ → ℚ)
    (lambda : ℚ) (hpsd : ∀ x : Fin n → ℚ, 0 ≤ quadraticForm H n x)
    (hgrow : ∀ i, i < n → mget H i i < mget (dampedMatrixRounded fl H lambda n) i i)
    (x : Fin n → ℚ) (hx : x ≠ 0) :
    0 < quadraticForm (dampedMatrixRounded fl H lambda n) n x := by
  have hspec := (dampedMatrixRounded_spec hH fl lambda).2
  have hA : ∀ i j : Fin n, mget (dampedMatrixRounded fl H lambda n) i j =
      mget H i j + if i = j then
        (mget (dampedMatrixRounded fl H lambda n) i i - mget H i i) else 0 := by
    intro i j
    by_cases h : i = j
    · rw [if_pos h, h]; ring
    · have h2 : ¬ ((i : Nat) = (j : Nat) ∧ (i : Nat) < n) := fun hc => h (Fin.ext hc.1)
      rw [if_neg h, add_zero, hspec i j, if_neg h2]
  rw [quadraticForm_add_diag H _ n _ hA x]
  have h2 : 0 < ∑ i : Fin n,
      (mget (dampedMatrixRounded fl H lambda n) i i - mget H i i) * x i ^ 2 := by
    obtain ⟨i0, hi0⟩ : ∃ i, x i ≠ 0 := by
      by_contra hc
      push_neg at hc
      exact hx (funext hc)
    apply Finset.sum_pos'
    · intro i _
      exact mul_nonneg (by linarith [hgrow i i.2]) (sq_nonneg _)
    · exact ⟨i0, Finset.mem_univ _, mul_pos (by linarith [hgrow i0 i0.2]) (by positivity)⟩
  linarith [hpsd x]

theorem damped_exact_grows (J : Mat) (r : Vec) (n : Nat) (lambda : ℚ) (hl : 0 < lambda)
    (i : Nat) (hi : i < n) :
    mget (normalEquations J r n).1 i i <
      mget (dampedMatrixRounded id (normalEquations J r n).1 lambda n) i i := by
  rw [(dampedMatrixRounded_spec (hasDims_normalEquations J r n) id lambda).2 i i,
    if_pos ⟨rfl, hi⟩]
  simp only [id]
  have := abs_nonneg (mget (normalEquations J r n).1 i i)
  have : 0 < lambda * (1 + |mget (normalEquations J r n).1 i i|) := mul_pos hl (by linarith)
  linarith

/-- Claim C21, as amended: the matrix handed to the solver has the diagonal entries
`fl(H[i][i] + fl(λ fl(1 + |H[i][i]|)))`, every operation rounded to double by `fl`, and the
off-diagonal entries of `H`; it is symmetric when `H` is.  It is positive definite, and
every system with it has exactly one solution, whenever `H` is positive semidefinite and
every diagonal entry was raised strictly.  Both hold for every Jacobian and every `λ > 0`
when `H = JᵀJ` and the damping are computed without rounding. -/
theorem C21_damped_matrix_rounded (fl : ℚ → ℚ) (H : Mat) (n : Nat) (lambda : ℚ)
    (hH : HasDims H n n) :
    (∀ i j, i < n → j < n →
      mget (dampedMatrixRounded fl H lambda n) i j =
        if i = j then fl (mget H i i + fl (lambda * fl (1 + |mget H i i|)))
        else mget H i j) ∧
    ((∀ i j, mget H i j = mget H j i) →
      ∀ i j, mget (dampedMatrixRounded fl H lambda n) i j =
        mget (dampedMatrixRounded fl H lambda n) j i) ∧
    ((∀ x : Fin n → ℚ, 0 ≤ quadraticForm H n x) →
      (∀ i, i < n → mget H i i < mget (dampedMatrixRounded fl H lambda n) i i) →
      (∀ x : Fin n → ℚ, x ≠ 0 → 0 < quadraticForm (dampedMatrixRounded fl H lambda n) n x) ∧
      ∀ b : Vec, ∃! delta : Fin n → ℚ,
        SolvesSystem (dampedMatrixRounded fl H lambda n) b n delta) ∧
    (∀ (J : Mat) (r : Vec), 0 < lambda →
      (∀ i j, mget (normalEquations J r n).1 i j = mget (normalEquations J r n).1 j i) ∧
      (∀ x : Fin n → ℚ, 0 ≤ quadraticForm (normalEquations J r n).1 n x) ∧
      (∀ i, i < n → mget (normalEquations J r n).1 i i <
        mget (dampedMatrixRounded id (normalEquations J r n).1 lambda n) i i) ∧
      (∀ x : Fin n → ℚ, x ≠ 0 →
        0 < quadraticForm (dampedMatrixRounded id (normalEquations J r n).1 lambda n) n x) ∧
      ∃! delta : Fin n → ℚ,
        SolvesSystem (dampedMatrixRounded id (normalEquations J r n).1 lambda n)
          (negG (normalEquations J r n).2 n) n delta) := by
  have hspec := (dampedMatrixRounded_spec hH fl lambda).2
  refine ⟨?_, ?_, ?_, ?_⟩
  · intro i j hi _
    rw [hspec i j]
    by_cases h : i = j
    · rw [if_pos ⟨h, hi⟩, if_pos h]
    · rw [if_neg (fun hc => h hc.1), if_neg h]
  · intro hsym i j
    rw [hspec i j, hspec j i]
    by_cases h : i = j
    · subst h; rfl
    · rw [if_neg (fun hc => h hc.1), if_neg (fun hc => h hc.1.symm)]
      exact hsym i j
  · intro hpsd hgrow
    exact ⟨quadraticForm_raised_pos hH fl lambda hpsd hgrow,
      unique_solution_of_pos _ n (quadraticForm_raised_pos hH fl lambda hpsd hgrow)⟩
  · intro J r hl
    have hpos := quadraticForm_raised_pos (hasDims_normalEquations J r n) id lambda
      (quadraticForm_normalEquations_nonneg J r n) (damped_exact_grows J r n lambda hl)
    exact ⟨H_symm J r n, quadraticForm_normalEquations_nonneg J r n,
      damped_exact_grows J r n lambda hl, hpos, unique_solution_of_pos _ n hpos _⟩

/-- Witness of C21 as amended: for the Jacobian with rows `[1, 2]` and `[3, 4]` and the double
`0.01` the rounded damping raises both diagonal entries, so the matrix handed to the solver
is positive definite. -/
theorem C21_witness :
    (∀ x : Fin 2 → ℚ, x ≠ 0 →
      0 < quadraticForm
        (dampedMatrixRounded roundDouble (normalEquations [[1, 2], [3, 4]] [1, 1] 2).1
          (roundDouble 0.01) 2) 2 x) ∧
    ∀ b : Vec, ∃! delta : Fin 2 → ℚ,
      SolvesSystem
        (dampedMatrixRounded roundDouble (normalEquations [[1, 2], [3, 4]] [1, 1] 2).1
          (roundDouble 0.01) 2) b 2 delta :=
  (C21_damped_matrix_rounded roundDouble (normalEquations [[1, 2], [3, 4]] [1, 1] 2).1 2
    (roundDouble 0.01) (hasDims_normalEquations [[1, 2], [3, 4]] [1, 1] 2)).2.2.1
    (quadraticForm_normalEquations_nonneg [[1, 2], [3, 4]] [1, 1] 2) (by decide!)

/-- Counterexample to C21 as stated: for the Jacobian with the single row `[1, 1]` and the
positive damping factor reached after fifteen accepted trials (about `1e-17`), the double
sum `1 + λ * 2` is `1`: the matrix handed to the solver is `H` itself, its quadratic form
vanishes at `(1, -1)`, and the system with the right-hand side `-g` has the two solutions
`(-1, 0)` and `(0, -1)`. -/
theorem C21_counterexample :
    0 < lambdaTrajectory roundDouble (List.replicate 15 true) ∧
    dampedMatrixRounded roundDouble (normalEquations [[1, 1]] [1] 2).1
        (lambdaTrajectory roundDouble (List.replicate 15 true)) 2 = [[1, 1], [1, 1]] ∧
    quadraticForm
        (dampedMatrixRounded roundDouble (normalEquations [[1, 1]] [1] 2).1
          (lambdaTrajectory roundDouble (List.replicate 15 true)) 2) 2 ![1, -1] = 0 ∧
    SolvesSystem
        (dampedMatrixRounded roundDouble (normalEquations [[1, 1]] [1] 2).1
          (lambdaTrajectory roundDouble (List.replicate 15 true)) 2)
        (negG (normalEquations [[1, 1]] [1] 2).2 2) 2 ![-1, 0] ∧
    SolvesSystem
        (dampedMatrixRounded roundDouble (normalEquations [[1, 1]] [1] 2).1
          (lambdaTrajectory roundDouble (List.replicate 15 true)) 2)
        (negG (normalEquations [[1, 1]] [1] 2).2 2) 2 ![0, -1] ∧
    (![-1, 0] : Fin 2 → ℚ) ≠ ![0, -1] := by
  decide!

/-! ## Diagonal dominance of the matrix as computed -/

/-- Claim C22, as amended: the matrix `A` handed to the solver is symmetric when `H` is, has
the off-diagonal entries of `H` and the diagonal entries `fl(H[i][i] + fl(λ fl(1 +
|H[i][i]|)))`; row `i` is diagonally dominant exactly when the off-diagonal sum of row `i`
of `H` does not exceed `|A[i][i]|`, which need not hold.  Where `H[i][i]`, `H[j][j]` are
non-negative, `H[i][j]² ≤ H[i][i] H[j][j]` and the damping raised both diagonal entries,
`A[i][i] > 0` and `A[i][j]² < A[i][i] A[j][j]`; these conditions hold for every Jacobian
and every `λ > 0` when `H = JᵀJ` and the damping are computed without rounding. -/
theorem C22_symmetric_rounded (fl : ℚ → ℚ) (H : Mat) (n : Nat) (lambda : ℚ)
    (hH : HasDims H n n) :
    ((∀ i j, mget H i j = mget H j i) →
      ∀ i j, mget (dampedMatrixRounded fl H lambda n) i j =
        mget (dampedMatrixRounded fl H lambda n) j i) ∧
    (∀ i j, i ≠ j → mget (dampedMatrixRounded fl H lambda n) i j = mget H i j) ∧
    (∀ i, i < n → mget (dampedMatrixRounded fl H lambda n) i i =
      fl (mget H i i + fl (lambda * fl (1 + |mget H i i|)))) ∧
    (∀ i, i < n →
      (offDiagonalSum (dampedMatrixRounded fl H lambda n) n i ≤
          |mget (dampedMatrixRounded fl H lambda n) i i| ↔
        offDiagonalSum H n i ≤ |fl (mget H i i + fl (lambda * fl (1 + |mget H i i|)))|)) ∧
    (∀ i j, i ≠ j → 0 ≤ mget H i i → 0 ≤ mget H j j →
      mget H i j ^ 2 ≤ mget H i i * mget H j j →
      mget H i i < mget (dampedMatrixRounded fl H lambda n) i i →
      mget H j j < mget (dampedMatrixRounded fl H lambda n) j j →
      0 < mget (dampedMatrixRounded fl H lambda n) i i ∧
      mget (dampedMatrixRounded fl H lambda n) i j ^ 2 <
        mget (dampedMatrixRounded fl H lambda n) i i *
          mget (dampedMatrixRounded fl H lambda n) j j) ∧
    (∀ (J : Mat) (r : Vec), 0 < lambda →
      (∀ i j, mget (normalEquations J r n).1 i j = mget (normalEquations J r n).1 j i) ∧
      ∀ i j, i < n → j < n →
        0 ≤ mget (normalEquations J r n).1 i i ∧
        mget (normalEquations J r n).1 i j ^ 2 ≤
          mget (normalEquations J r n).1 i i * mget (normalEquations J r n).1 j j ∧
        mget (normalEquations J r n).1 i i <
          mget (dampedMatrixRounded id (normalEquations J r n).1 lambda n) i i) := by
  have hspec := (dampedMatrixRounded_spec hH fl lambda).2
  have hoff : ∀ i j, i ≠ j → mget (dampedMatrixRounded fl H lambda n) i j = mget H i j := by
    intro i j hij
    rw [hspec i j, if_neg (fun hc => hij hc.1)]
  have hdiag : ∀ i, i < n → mget (dampedMatrixRounded fl H lambda n) i i =
      fl (mget H i i + fl (lambda * fl (1 + |mget H i i|))) := by
    intro i hi
    rw [hspec i i, if_pos ⟨rfl, hi⟩]
  refine ⟨?_, hoff, hdiag, ?_, ?_, ?_⟩
  · intro hsym i j
    by_cases h : i = j
    · subst h; rfl
    · rw [hoff i j h, hoff j i (fun hc => h hc.symm)]
      exact hsym i j
  · intro i hi
    rw [offDiagonalSum_congr (dampedMatrixRounded fl H lambda n) H n i
      (fun j _ hj => hoff i j (fun hc => hj hc.symm)), hdiag i hi]
  · intro i j hij hi0 hj0 hcs hgi hgj
    rw [hoff i j hij]
    refine ⟨by linarith, ?_⟩
    have h1 : mget H i i * mget H j j <
        mget (dampedMatrixRounded fl H lambda n) i i *
          mget (dampedMatrixRounded fl H lambda n) j j := by
      nlinarith
    linarith
  · intro J r hl
    refine ⟨H_symm J r n, fun i j hi hj => ⟨?_, ?_, damped_exact_grows J r n lambda hl i hi⟩⟩
    · rw [normalEquations_entry J r n i i hi hi]
      exact referenceH_diag_nonneg J r.length i
    · rw [normalEquations_entry J r n i j hi hj, normalEquations_entry J r n i i hi hi,
        normalEquations_entry J r n j j hj hj]
      exact referenceH_sq_le J r.length i j

/-- Witness of C22 as amended: the damped matrix of the Jacobian with the single row
`[1, 10]` under the double `0.01` has a first row that is not dominant, a positive first
diagonal entry and `A[0][1]² < A[0][0] A[1][1]`. -/
theorem C22_witness :
    (0 < mget (dampedMatrixRounded roundDouble (normalEquations [[1, 10]] [1] 2).1
        (roundDouble 0.01) 2) 0 0 ∧
      mget (dampedMatrixRounded roundDouble (normalEquations [[1, 10]] [1] 2).1
          (roundDouble 0.01) 2) 0 1 ^ 2 <
        mget (dampedMatrixRounded roundDouble (normalEquations [[1, 10]] [1] 2).1
            (roundDouble 0.01) 2) 0 0 *
          mget (dampedMatrixRounded roundDouble (normalEquations [[1, 10]] [1] 2).1
            (roundDouble 0.01) 2) 1 1) ∧
    ¬ RowDominant (dampedMatrixRounded roundDouble (normalEquations [[1, 10]] [1] 2).1
        (roundDouble 0.01) 2) 2 :=
  ⟨(C22_symmetric_rounded roundDouble (normalEquations [[1, 10]] [1] 2).1 2
      (roundDouble 0.01) (hasDims_normalEquations [[1, 10]] [1] 2)).2.2.2.2.1 0 1
      (by decide) (by decide!) (by decide!) (by decide!) (by decide!) (by decide!),
    by decide!⟩

end WTFit
